import Mathlib

/-!
# TR Documents Batch Downloader: date parsing, file names, capture slot, run loop

A shallow embedding of the pure and state-machine parts of
`TR_documents_batch_downloader.js` (version 3.1).

JavaScript strings are modelled as lists of UTF-16 code units (`JsString`).
Regular expressions of the script are embedded as dedicated matchers that
follow the backtracking order of the JavaScript engine; each matcher quotes
the regular expression it stands for.
-/

namespace TRBatch

/-! ## Strings -/

/-- A JavaScript string: the list of its UTF-16 code units. -/
abbrev JsString := List Nat

/-- UTF-16 encoding of one code point. -/
def utf16 (c : Char) : List Nat :=
  if c.toNat < 65536 then [c.toNat]
  else [55296 + (c.toNat - 65536) / 1024, 56320 + (c.toNat - 65536) % 1024]

/-- The JavaScript string written by a literal. -/
def js (s : String) : JsString := s.toList.flatMap utf16

/-- The regex class `\d`. -/
def isDigit (c : Nat) : Bool := decide (48 ≤ c) && decide (c ≤ 57)

/-- The regex class `\s`, which is also the set stripped by `String.prototype.trim`
(ECMAScript WhiteSpace and LineTerminator code units). -/
def isSpace (c : Nat) : Bool :=
  decide (9 ≤ c ∧ c ≤ 13) || c == 32 || c == 160 || c == 5760 ||
  decide (8192 ≤ c ∧ c ≤ 8202) || c == 8232 || c == 8233 || c == 8239 ||
  c == 8287 || c == 12288 || c == 65279

/-- Embeds `str.trim()`. -/
def trim (s : JsString) : JsString := (s.dropWhile isSpace).rdropWhile isSpace

/-- Embeds `parseInt(g, 10)` on a capture group made of decimal digits. -/
def parseInt (g : JsString) : Nat := g.foldl (fun acc c => 10 * acc + (c - 48)) 0

/-- Worker of `numToString`: decimal digits of `n`, most significant first. -/
def toDecCore : Nat → Nat → JsString → JsString
  | 0, _, acc => acc
  | fuel + 1, n, acc =>
    if n < 10 then (48 + n) :: acc else toDecCore fuel (n / 10) ((48 + n % 10) :: acc)

/-- Embeds `String(n)` for a non-negative integer `n`. -/
def numToString (n : Nat) : JsString := toDecCore (n + 1) n []

/-- Embeds `s.padStart(2, '0')`. -/
def padStart2 (s : JsString) : JsString := List.replicate (2 - s.length) 48 ++ s

/-- Embeds `pad` of `formatDateParts`: `String(n).padStart(2, '0')`. -/
def pad (n : Nat) : JsString := padStart2 (numToString n)

/-! ## parseDateString -/

/-- Embeds `DateParts`: the object `{ day, month, year }`, enriched with `hour` and
`minute` by `resolveDateParts`. -/
structure DateParts where
  day : Nat
  month : Nat
  year : Nat
  hour : Option Nat := none
  minute : Option Nat := none
  deriving DecidableEq, Repr

/-- Capture groups of a match of `(\d{1,2})SEP(\d{1,2})SEP?(\d{2,4})?`. -/
structure DateMatch where
  g1 : JsString
  g2 : JsString
  g3 : Option JsString
  deriving DecidableEq, Repr

/-- Exactly `k` digits at the head of `s`: the digits and the rest. -/
def takeDigits (k : Nat) (s : JsString) : Option (JsString × JsString) :=
  if k ≤ s.length ∧ (s.take k).all isDigit = true then some (s.take k, s.drop k) else none

/-- The optional greedy group `(\d{2,4})?` at the head of `s`: four digits, else
three, else two, else the group does not take part. -/
def yearGroup (s : JsString) : Option JsString :=
  match takeDigits 4 s with
  | some (g, _) => some g
  | none =>
    match takeDigits 3 s with
    | some (g, _) => some g
    | none =>
      match takeDigits 2 s with
      | some (g, _) => some g
      | none => none

/-- The greedy optional separator `SEP?`: consumed when present. Everything after
it is optional, so the engine never backtracks over this choice. -/
def skipSep (sep : Nat) : JsString → JsString
  | [] => []
  | c :: r => if c = sep then r else c :: r

/-- What follows group 1: `SEP(\d{1,2})SEP?(\d{2,4})?`. Group 2 is greedy (two
digits, else one); once it has matched, the rest cannot fail. -/
def afterGroup1 (sep : Nat) (g1 r : JsString) : Option DateMatch :=
  match r with
  | [] => none
  | c :: r1 =>
    if c = sep then
      match takeDigits 2 r1 with
      | some (g2, r2) => some ⟨g1, g2, yearGroup (skipSep sep r2)⟩
      | none =>
        match takeDigits 1 r1 with
        | some (g2, r2) => some ⟨g1, g2, yearGroup (skipSep sep r2)⟩
        | none => none
    else none

/-- A match of `(\d{1,2})SEP(\d{1,2})SEP?(\d{2,4})?` starting at the head of `s`:
group 1 is tried with two digits, then (backtracking) with one. -/
def dateMatchAt (sep : Nat) (s : JsString) : Option DateMatch :=
  let one : Option DateMatch :=
    match takeDigits 1 s with
    | some (g1, r) => afterGroup1 sep g1 r
    | none => none
  match takeDigits 2 s with
  | some (g1, r) =>
    match afterGroup1 sep g1 r with
    | some m => some m
    | none => one
  | none => one

/-- Embeds `text.match(/(\d{1,2})SEP(\d{1,2})SEP?(\d{2,4})?/)`: the leftmost match. -/
def dateSearch (sep : Nat) : JsString → Option DateMatch
  | [] => none
  | c :: cs =>
    match dateMatchAt sep (c :: cs) with
    | some m => some m
    | none => dateSearch sep cs

/-- A digit string of one or two digits, as written for a day or a month. -/
def isShortNumber (g : JsString) : Prop :=
  (g.length = 1 ∨ g.length = 2) ∧ ∀ c ∈ g, isDigit c = true

instance (g : JsString) : Decidable (isShortNumber g) := by
  unfold isShortNumber; infer_instance

/-- The text after `a/b` in a slash date: nothing, or `/y` with `y` a digit string. -/
def isYearSuffix (rest : JsString) : Prop :=
  rest = [] ∨ (rest.head? = some 47 ∧ ∀ c ∈ rest.tail, isDigit c = true)

instance (rest : JsString) : Decidable (isYearSuffix rest) := by
  unfold isYearSuffix; infer_instance

/-- JavaScript falsiness of a variable that is `undefined` or a number. -/
def falsy : Option Nat → Bool
  | none => true
  | some n => n == 0

/-- The local variables `day, month, year` of `parseDateString`. -/
structure DateVars where
  day : Option Nat := none
  month : Option Nat := none
  year : Option Nat := none
  deriving DecidableEq, Repr

/-- Embeds `year = parseInt(match[3], 10); if (year < 100) year += 2000;`. -/
def yearOfGroup (g : JsString) : Nat :=
  if parseInt g < 100 then parseInt g + 2000 else parseInt g

/-- The slash block of `parseDateString`. -/
def slashBlock (text : JsString) (v : DateVars) : DateVars :=
  match dateSearch 47 text with
  | none => v
  | some m =>
    let a := parseInt m.g1
    let b := parseInt m.g2
    let v1 : DateVars :=
      if a > 12 ∧ b ≤ 12 then { v with day := some a, month := some b }
      else if b > 12 ∧ a ≤ 12 then { v with day := some b, month := some a }
      else { v with day := some a, month := some b }
    match m.g3 with
    | some g => { v1 with year := some (yearOfGroup g) }
    | none => v1

/-- The dot block of `parseDateString`, entered when day or month is still falsy. -/
def dotBlock (text : JsString) (v : DateVars) : DateVars :=
  if falsy v.day || falsy v.month then
    match dateSearch 46 text with
    | none => v
    | some m =>
      let v1 : DateVars := { v with day := some (parseInt m.g1), month := some (parseInt m.g2) }
      match m.g3 with
      | some g => { v1 with year := some (yearOfGroup g) }
      | none => v1
  else v

/-- Embeds `a || b` on numbers, `0` standing for a falsy operand. -/
def orElseNat (a b : Nat) : Nat := if a = 0 then b else a

/-- Embeds `parseDateString(str, fallbackYear)`; `nowYear` is `new Date().getFullYear()`.
A missing `fallbackYear` is passed as `0` (both are falsy). -/
def parseDateString (str : JsString) (fallbackYear nowYear : Nat) : Option DateParts :=
  if str = [] then none
  else
    let v := dotBlock (trim str) (slashBlock (trim str) {})
    if falsy v.day || falsy v.month then none
    else
      some { day := v.day.getD 0, month := v.month.getD 0,
             year := orElseNat (v.year.getD 0) (orElseNat fallbackYear nowYear) }

/-! ## formatDateParts -/

/-- The separator class `[._\-]`. -/
def isSep (c : Nat) : Bool := c == 46 || c == 95 || c == 45

/-- Embeds `String(parts.year).slice(-2)`. -/
def lastTwo (s : JsString) : JsString := s.drop (s.length - 2)

/-- Embeds `format.replace(/YYYY|YY|MM|DD|hh|mm/g, token => map[token] ?? token)`: a
left-to-right scan; at each position the alternatives are tried in the order
written, a matched token is replaced by its entry of `map` and the scan goes on
after it, any other code unit is copied. -/
def replaceTokens (p : DateParts) : JsString → JsString
  | 89 :: 89 :: 89 :: 89 :: r => numToString p.year ++ replaceTokens p r
  | 89 :: 89 :: r => lastTwo (numToString p.year) ++ replaceTokens p r
  | 77 :: 77 :: r => pad p.month ++ replaceTokens p r
  | 68 :: 68 :: r => pad p.day ++ replaceTokens p r
  | 104 :: 104 :: r =>
    (match p.hour with
      | some h => pad h
      | none => []) ++ replaceTokens p r
  | 109 :: 109 :: r =>
    (match p.minute with
      | some m => pad m
      | none => []) ++ replaceTokens p r
  | c :: r => c :: replaceTokens p r
  | [] => []

/-- Embeds `result.replace(/([._\-]){2,}/g, '$1')`: every maximal run of two or more
separators is replaced by the last separator of the run (the last value captured
by the repeated group); so a separator is kept exactly when no separator
follows it. -/
def collapseSeps : JsString → JsString
  | [] => []
  | [c] => [c]
  | c :: d :: r => if isSep c && isSep d then collapseSeps (d :: r) else c :: collapseSeps (d :: r)

/-- Embeds `.replace(/[._\-]+$/, '')`: the trailing separators are removed. -/
def stripTrailingSeps (s : JsString) : JsString := s.rdropWhile isSep

/-- Embeds `formatDateParts(parts, format)`; `none` is a falsy `parts`. -/
def formatDateParts (parts : Option DateParts) (format : JsString) : JsString :=
  match parts with
  | none => []
  | some p => stripTrailingSeps (collapseSeps (replaceTokens p format))

/-! ## sanitizeFilename -/

/-- The class `[<>:"/\\|?*\x00-\x1F]` of the first replacement. -/
def isIllegal (c : Nat) : Bool :=
  c == 60 || c == 62 || c == 58 || c == 34 || c == 47 || c == 92 || c == 124 ||
  c == 63 || c == 42 || decide (c ≤ 31)

/-- The class `[_\s]` of the second replacement. -/
def isUsOrSpace (c : Nat) : Bool := c == 95 || isSpace c

/-- Embeds `.replace(/[<>:"/\\|?*\x00-\x1F]/g, '_')`. -/
def replaceIllegal (s : JsString) : JsString := s.map (fun c => if isIllegal c then 95 else c)

/-- Embeds `.replace(/[_\s]+/g, '_')`: every maximal run of underscores and whitespace
becomes one underscore. `inRun` tells that the previous code unit belonged to
the run being replaced. -/
def collapseRuns : Bool → JsString → JsString
  | _, [] => []
  | inRun, c :: r =>
    if isUsOrSpace c then
      if inRun then collapseRuns true r else 95 :: collapseRuns true r
    else c :: collapseRuns false r

/-- Embeds `.replace(/^_+|_+$/g, '')`: the leading run of underscores is removed, then
the run of underscores that ends the string. -/
def trimUnderscores (s : JsString) : JsString :=
  (s.dropWhile (fun c => c == 95)).rdropWhile (fun c => c == 95)

/-- Embeds `x || dflt` on strings: the empty string is falsy. -/
def orElseStr (x dflt : JsString) : JsString := if x = [] then dflt else x

/-- Embeds `sanitizeFilename(name)`. -/
def sanitizeFilename (name : JsString) : JsString :=
  orElseStr (trimUnderscores (collapseRuns false (replaceIllegal (orElseStr name (js "download")))))
    (js "document")

/-! ## JavaScript dates at local midnight -/

/-- ECMAScript `DayFromYear`. -/
def dayFromYear (y : Int) : Int :=
  365 * (y - 1970) + (y - 1969) / 4 - (y - 1901) / 100 + (y - 1601) / 400

/-- ECMAScript `InLeapYear`. -/
def isLeapYear (y : Int) : Bool := y % 4 == 0 && (y % 100 != 0 || y % 400 == 0)

/-- Days from the start of the year to the start of month `mn` (0-based). -/
def monthOffset (leap : Bool) (mn : Int) : Int :=
  ([0, 31, 59, 90, 120, 151, 181, 212, 243, 273, 304, 334].getD mn.toNat 0) +
    (if leap && decide (2 ≤ mn) then 1 else 0)

/-- ECMAScript `MakeDay(year, month, date)` for integral arguments. -/
def makeDay (year month date : Int) : Int :=
  dayFromYear (year + month / 12) + monthOffset (isLeapYear (year + month / 12)) (month % 12) + date - 1

/-- The value of `d = new Date(year, month - 1, day); d.setHours(0,0,0,0)`, as the
number of the local calendar day. Two such dates compare (`<`, `<=`, `>`) as
their day numbers do. A year in `0..99` is read as `1900 + year` by the `Date`
constructor. -/
def jsDate (year month day : Nat) : Int :=
  makeDay (if year ≤ 99 then 1900 + (year : Int) else (year : Int)) ((month : Int) - 1) (day : Int)

/-! ## resolveDateParts -/

/-- The `meta` object handed to `resolveDateParts` and `buildDownloadName`
(`PendingDownloadMeta`); `none` is an absent (`undefined`) property. -/
structure Meta where
  docTitle : Option JsString := none
  docIndex : Option Nat := none
  docTotal : Option Nat := none
  itemTitle : Option JsString := none
  itemDate : Option JsString := none
  itemSubtitle : Option JsString := none
  itemYear : Option Nat := none
  modalYear : Option Nat := none
  modalHour : Option Nat := none
  modalMinute : Option Nat := none
  deriving DecidableEq, Repr

/-- Embeds `resolveDateParts(meta)`; `nowYear` is `new Date().getFullYear()`. -/
def resolveDateParts (m : Meta) (nowYear : Nat) : Option DateParts :=
  let yearFromDivider := orElseNat (m.itemYear.getD 0) nowYear
  let fallbackYear := orElseNat (m.modalYear.getD 0) yearFromDivider
  match parseDateString (m.itemDate.getD []) fallbackYear nowYear with
  | none => none
  | some parts =>
    let p1 : DateParts :=
      match m.modalHour with
      | some h => { parts with hour := some h }
      | none => parts
    match m.modalMinute with
    | some mi => some { p1 with minute := some mi }
    | none => some p1

/-! ## Range resolution of `run` -/

/-- Embeds `String.prototype.toLowerCase`, on the ASCII letters. The sentinels and the
date patterns read by `parseInputDate` consist of ASCII only, and no other
code unit lowercases to a letter of a sentinel, a digit, `/`, `.` or whitespace. -/
def toLowerCase (s : JsString) : JsString :=
  s.map (fun c => if 65 ≤ c ∧ c ≤ 90 then c + 32 else c)

/-- The two range fields: `tr('fromLabel')` and `tr('toLabel')`. -/
inductive Field where
  | fromField
  | toField
  deriving DecidableEq, Repr

/-- Display labels of a bound. -/
inductive Label where
  | defaultFrom
  | defaultToOpen
  | defaultToToday
  | localeDate (d : Int)
  | raw (s : JsString)
  deriving DecidableEq, Repr

/-- Status messages: the key given to `tr` with its context. -/
inductive Status where
  | search
  | loadMore
  | noEntries
  | filter (fromL toL : Label)
  | stopRequested
  | invalidDate (field : Field) (value : JsString)
  | noRange
  | runDone
  | aborted
  | openItem (i endIdx : Nat)
  | noOverlay (i endIdx : Nat)
  | openDocs (i endIdx : Nat)
  | closeOverlay (i endIdx : Nat)
  | doneItem (i endIdx count : Nat)
  | sessionLost (i endIdx : Nat)
  deriving DecidableEq, Repr

/-- Result `{ date, label, invalid }` of `parseInputDate`. -/
structure InputDate where
  date : Option Int
  label : Label
  invalid : Bool := false
  deriving DecidableEq, Repr

/-- Embeds `parseInputDate(val, label, isFrom)` of `run`; `today` is the day number of
`new Date()` and `nowYear` its full year. The status it sets on an invalid
input is `Status.invalidDate field raw`, see `invalidStatus`. -/
def parseInputDate (today : Int) (nowYear : Nat) (val : JsString) ( isFrom : Bool) : InputDate :=
  let raw := trim val
  let v := toLowerCase raw
  if v = [] ∨ v = js "ende" ∨ v = js "end" ∨ v = js "anfang" ∨ v = js "start" then
    { date := none, label := if isFrom then Label.defaultFrom else Label.defaultToOpen }
  else if v = js "heute" ∨ v = js "today" then
    { date := some today, label := Label.localeDate today }
  else
    match parseDateString v nowYear nowYear with
    | none => { date := none, label := Label.raw raw, invalid := true }
    | some parsed =>
      { date := some (jsDate parsed.year parsed.month parsed.day),
        label := Label.localeDate (jsDate parsed.year parsed.month parsed.day) }

/-- The `ui.setStatus(tr('statusInvalidDate', ...))` call of `parseInputDate`. -/
def invalidStatus (field : Field) (val : JsString) (r : InputDate) : List Status :=
  if r.invalid then [Status.invalidDate field (trim val)] else []

/-- Embeds `RunRange`: the variables `lowerDate, upperDate, lowerLabel, upperLabel`. -/
structure RunRange where
  lowerDate : Option Int := none
  upperDate : Option Int := none
  lowerLabel : Option Label := none
  upperLabel : Option Label := none
  deriving DecidableEq, Repr

/-- The normalisation of the two parsed bounds in `run`. -/
def orderBounds (s e : InputDate) : RunRange :=
  match s.date, e.date with
  | some sd, some ed =>
    if sd ≤ ed then
      { lowerDate := some sd, lowerLabel := some s.label, upperDate := some ed, upperLabel := some e.label }
    else
      { lowerDate := some ed, lowerLabel := some e.label, upperDate := some sd, upperLabel := some s.label }
  | some sd, none => { lowerDate := some sd, lowerLabel := some s.label }
  | none, some ed => { upperDate := some ed, upperLabel := some e.label }
  | none, none => {}

/-- Range resolution of `run` from the texts of the "from" and "to" fields
(`ui.getStart()`, `ui.getEnd()`): `none` when `run` returns on an invalid bound. -/
def resolveRange (today : Int) (nowYear : Nat) (fromVal toVal : JsString) : Option RunRange :=
  let s := parseInputDate today nowYear fromVal true
  let e := parseInputDate today nowYear toVal false
  if s.invalid || e.invalid then none else some (orderBounds s e)

/-! ## The run loop -/

/-- What `getTimelineItemContext` reads from a row of the list. -/
structure TimelineItem where
  itemTitle : JsString
  itemDate : JsString
  itemSubtitle : JsString
  itemYear : Nat
  deriving DecidableEq, Repr

/-- Observable actions of `run`, in program order. -/
inductive Event where
  | status (s : Status)
  | openItem (i : Nat)
  | docClick (i k : Nat)
  | closeOverlay (i : Nat)
  deriving DecidableEq, Repr

/-- What the page and the user contribute to a run. `stopFlagAt i` is the value
of `stopFlag` read at the top of iteration `i` (set by the stop button), and
for `i = items.length` the value read after the loop; `sessionOk i` is the
result of `checkSession()` in iteration `i`; `overlayVisible i` tells whether
`openItemOverlay` returned a visible overlay; `docCount i` is the number of
document buttons `clickAllDocs` finds in it. -/
structure RunEnv where
  today : Int
  nowYear : Nat
  autoScroll : Bool
  items : List TimelineItem
  stopFlagAt : Nat → Bool
  sessionOk : Nat → Bool
  overlayVisible : Nat → Bool
  docCount : Nat → Nat

/-- State of `run` when the loop is left. -/
structure LoopResult where
  events : List Event
  stopFlag : Bool
  matchedItems : Nat

/-- The events `evs` happen, then the rest of the loop. -/
def LoopResult.after (evs : List Event) (r : LoopResult) : LoopResult :=
  { r with events := evs ++ r.events }

/-- Embeds `itemDateObj` of the loop body. -/
def itemDateObj (nowYear : Nat) (item : TimelineItem) : Option Int :=
  (resolveDateParts
    { itemDate := some item.itemDate, itemSubtitle := some item.itemSubtitle,
      itemYear := some item.itemYear } nowYear).map (fun p => jsDate p.year p.month p.day)

/-- The two `continue` guards of the date filter. -/
def outsideRange (r : RunRange) (d : Option Int) : Bool :=
  match d with
  | none => false
  | some d =>
    (match r.lowerDate with
      | some l => decide (d < l)
      | none => false) ||
    (match r.upperDate with
      | some u => decide (d > u)
      | none => false)

/-- The events of `clickAllDocs` on item `i`: one click per document button. -/
def docClicks (i count : Nat) : List Event := (List.range count).map (fun k => Event.docClick i k)

/-- The loop `for (let i = 0; i <= endIdx; i++)` of `run`, from iteration `i` on
the remaining rows, with `matched` the current value of `matchedItems`. -/
def runLoop (env : RunEnv) (r : RunRange) (endIdx : Nat) :
    Nat → List TimelineItem → Nat → LoopResult
  | i, [], matched => { events := [], stopFlag := env.stopFlagAt i, matchedItems := matched }
  | i, item :: rest, matched =>
    if env.stopFlagAt i then { events := [], stopFlag := true, matchedItems := matched }
    else if !env.sessionOk i then
      { events := [Event.status (Status.sessionLost i endIdx)], stopFlag := true, matchedItems := matched }
    else if outsideRange r (itemDateObj env.nowYear item) then
      runLoop env r endIdx (i + 1) rest matched
    else if !env.overlayVisible i then
      (runLoop env r endIdx (i + 1) rest (matched + 1)).after
        [Event.status (Status.openItem i endIdx), Event.openItem i,
         Event.status (Status.noOverlay i endIdx)]
    else
      (runLoop env r endIdx (i + 1) rest (matched + 1)).after
        ([Event.status (Status.openItem i endIdx), Event.openItem i,
          Event.status (Status.openDocs i endIdx)] ++ docClicks i (env.docCount i) ++
         [Event.status (Status.closeOverlay i endIdx), Event.closeOverlay i,
          Event.status (Status.doneItem i endIdx (env.docCount i))])

/-- The status set after the loop. -/
def finalStatus (l : LoopResult) : Status :=
  if !l.stopFlag && l.matchedItems == 0 then Status.noRange
  else if l.stopFlag then Status.aborted else Status.runDone

/-- The events of `run()` for the field texts `fromVal` and `toVal`. -/
def run (env : RunEnv) (fromVal toVal : JsString) : List Event :=
  let s := parseInputDate env.today env.nowYear fromVal true
  let e := parseInputDate env.today env.nowYear toVal false
  let pre : List Event :=
    Event.status Status.search ::
      ((invalidStatus Field.fromField fromVal s ++ invalidStatus Field.toField toVal e).map Event.status)
  if s.invalid || e.invalid then pre
  else
    let r := orderBounds s e
    let filt : List Event :=
      [Event.status (Status.filter (r.lowerLabel.getD s.label) (r.upperLabel.getD e.label))] ++
        (if env.autoScroll then [Event.status Status.loadMore] else [])
    if env.items = [] then pre ++ filt ++ [Event.status Status.noEntries]
    else
      let l := runLoop env r (env.items.length - 1) 0 env.items 0
      pre ++ filt ++ [Event.status Status.search] ++ l.events ++ [Event.status (finalStatus l)]

/-- The indices on which `openItemOverlay` is called. -/
def openedItems (evs : List Event) : List Nat :=
  evs.filterMap (fun e =>
    match e with
    | Event.openItem i => some i
    | _ => none)

/-- The document clicks, as pairs (item index, button index). -/
def clickedDocs (evs : List Event) : List (Nat × Nat) :=
  evs.filterMap (fun e =>
    match e with
    | Event.docClick i k => some (i, k)
    | _ => none)

/-- The last status set by the events, if any. -/
def lastStatus (evs : List Event) : Option Status :=
  (evs.filterMap (fun e =>
    match e with
    | Event.status s => some s
    | _ => none)).getLast?

/-- Five rows dated 01.01. to 05.01. under the heading of 2024. -/
def fiveItems : List TimelineItem :=
  [⟨js "A", js "01.01.", js "x", 2024⟩, ⟨js "B", js "02.01.", js "x", 2024⟩,
   ⟨js "C", js "03.01.", js "x", 2024⟩, ⟨js "D", js "04.01.", js "x", 2024⟩,
   ⟨js "E", js "05.01.", js "x", 2024⟩]

/-- A page with no stop request, every overlay opening and two documents per
item; with `lostAt = some n` the session check fails from iteration `n` on. -/
def pageEnv (items : List TimelineItem) (lostAt : Option Nat) : RunEnv :=
  { today := jsDate 2026 11 6, nowYear := 2026, autoScroll := true, items := items,
    stopFlagAt := fun _ => false,
    sessionOk := fun i =>
      match lostAt with
      | none => true
      | some n => decide (i < n),
    overlayVisible := fun _ => true, docCount := fun _ => 2 }

/-- Ten rows. -/
def tenItems : List TimelineItem := fiveItems ++ fiveItems

/-- The date `d` lies within the bounds of the range: at or after the lower bound
when there is one, at or before the upper bound when there is one. -/
def withinBounds (r : RunRange) (d : Int) : Bool :=
  r.lowerDate.all (fun l => decide (l ≤ d)) && r.upperDate.all (fun u => decide (d ≤ u))

/-- The indices, counted from `k`, of the rows whose date resolves to a day
within the bounds. -/
def rowsWithinBounds (nowYear : Nat) (r : RunRange) (k : Nat) (items : List TimelineItem) : List Nat :=
  ((items.enumFrom k).filter (fun x => (itemDateObj nowYear x.2).any (withinBounds r))).map Prod.fst

/-- No separator of `[._\-]` is followed by a separator. -/
def NoDoubleSep (s : JsString) : Prop :=
  List.Chain' (fun a b => ¬ (isSep a = true ∧ isSep b = true)) s

/-! ## downloadTracker -/

/-- The closure state of `downloadTracker` (`pending`, `timer`) with the parts of
the host it acts on: the timeouts that are scheduled and have neither fired nor
been cleared (`liveTimers`), the id the next `setTimeout` returns (a positive
number), whether the location hooks are enabled (`state.enabled` of
`navigationHooks`, on a page that has `Location.prototype`), and the windows
tracked in `pendingPopups` and closed so far. `lastStarted` is a history variable: the id of the timeout
started by the most recent `set`. -/
structure TrackerState where
  pending : Option Meta := none
  timer : Option Nat := none
  liveTimers : List Nat := []
  nextTimerId : Nat := 1
  lastStarted : Option Nat := none
  hooksEnabled : Bool := false
  pendingPopups : List Nat := []
  closedWindows : List Nat := []
  deriving DecidableEq, Repr

/-- The state when the script has loaded. -/
def TrackerState.init : TrackerState := {}

/-- Embeds `if (timer) clearTimeout(timer)`: a timer id is a number, falsy when `0`. -/
def clearTimerIfSet (s : TrackerState) : TrackerState :=
  match s.timer with
  | some t => if t = 0 then s else { s with liveTimers := s.liveTimers.filter (fun x => x != t) }
  | none => s

/-- Embeds `closePendingPopups()`: every tracked window is closed and removed. -/
def closePendingPopups (s : TrackerState) : TrackerState :=
  { s with closedWindows := s.closedWindows ++ s.pendingPopups, pendingPopups := [] }

/-- Embeds `downloadTracker.set(meta)`. -/
def downloadTracker.set (m : Meta) (s : TrackerState) : TrackerState :=
  let s1 := clearTimerIfSet { s with pending := some m }
  { s1 with
    timer := some s1.nextTimerId
    liveTimers := s1.nextTimerId :: s1.liveTimers
    nextTimerId := s1.nextTimerId + 1
    lastStarted := some s1.nextTimerId
    hooksEnabled := true }

/-- Embeds `downloadTracker.consume()`: the returned record and the new state. -/
def downloadTracker.consume (s : TrackerState) : Option Meta × TrackerState :=
  let s1 := clearTimerIfSet { s with pending := none }
  (s.pending, { closePendingPopups { s1 with timer := none } with hooksEnabled := false })

/-- The expiry callback given to `setTimeout` by `set`, run by the host for the
live timeout `t`, which is thereby no longer scheduled. -/
def trackerTimeout (t : Nat) (s : TrackerState) : TrackerState :=
  { closePendingPopups
      { s with liveTimers := s.liveTimers.filter (fun x => x != t), pending := none, timer := none }
    with hooksEnabled := false }

/-- Embeds `downloadTracker.hasPending()`. -/
def downloadTracker.hasPending (s : TrackerState) : Bool := s.pending.isSome

/-- Embeds `downloadTracker.peek()`. -/
def downloadTracker.peek (s : TrackerState) : Option Meta := s.pending

/-- What can happen to the tracker. -/
inductive TrackerEvent where
  | set (m : Meta)
  | consume
  | timeout (t : Nat)
  deriving DecidableEq, Repr

/-- One event; the host runs an expiry callback only for a timeout that is live. -/
def trackerStep (s : TrackerState) : TrackerEvent → TrackerState
  | TrackerEvent.set m => downloadTracker.set m s
  | TrackerEvent.consume => (downloadTracker.consume s).2
  | TrackerEvent.timeout t => if t ∈ s.liveTimers then trackerTimeout t s else s

/-- The state after a sequence of events. -/
def trackerRun (evs : List TrackerEvent) : TrackerState := evs.foldl trackerStep TrackerState.init

/-! ## Predicates used in the statements -/

/-- No underscore is followed by an underscore. -/
def NoDoubleUnderscore (s : JsString) : Prop := List.Chain' (fun a b => ¬ (a = 95 ∧ b = 95)) s

/-- The shape of a sanitized name: no illegal code unit, no whitespace, no two
underscores in a row, no underscore at either end. -/
def Clean (s : JsString) : Prop :=
  (∀ c ∈ s, isIllegal c = false ∧ isSpace c = false) ∧ NoDoubleUnderscore s ∧
    s.head? ≠ some 95 ∧ s.getLast? ≠ some 95

/-- The live timeouts are exactly the one held in `timer`, which is the one the
most recent `set` started. -/
def TrackerInv (s : TrackerState) : Prop :=
  s.liveTimers = s.timer.toList ∧ (∀ t, s.timer = some t → t ≠ 0 ∧ s.lastStarted = some t) ∧
    1 ≤ s.nextTimerId

/-- The variables `day, month, year` of `parseDateString` after its two pattern
blocks, on the text `str`. -/
def parsedVars (str : JsString) : DateVars := dotBlock (trim str) (slashBlock (trim str) {})

/-- The text holds a digit, the separator `sep` and a digit in a row: the least
that the pattern `(\d{1,2})SEP(\d{1,2})` needs. -/
def hasDayMonthPattern (sep : Nat) : JsString → Bool
  | d1 :: s :: d2 :: r =>
    (isDigit d1 && s == sep && isDigit d2) || hasDayMonthPattern sep (s :: d2 :: r)
  | _ => false

/-- A day and month text without a year: `parseDateString` finds a non-zero day
and month in it and no year group. -/
def isDayMonthOnly (str : JsString) : Prop :=
  str ≠ [] ∧ falsy (parsedVars str).day = false ∧ falsy (parsedVars str).month = false ∧
    (parsedVars str).year = none

instance (str : JsString) : Decidable (isDayMonthOnly str) := by
  unfold isDayMonthOnly; infer_instance

/-- Every code unit is replaced or removed by `sanitizeFilename`: it is
filesystem-illegal, whitespace or an underscore. -/
def isOnlyFiller (s : JsString) : Prop := ∀ c ∈ s, isIllegal c = true ∨ isUsOrSpace c = true

instance (s : JsString) : Decidable (isOnlyFiller s) := by
  unfold isOnlyFiller; infer_instance

/-- A meta of a row dated `20.12.` under the heading of 2024 whose overlay shows the
year 2025 and the time 00:00. -/
def modalMeta : Meta :=
  { itemTitle := some (js "Kauf"), itemDate := some (js "20.12."), itemSubtitle := some (js "x"),
    itemYear := some 2024, modalYear := some 2025, modalHour := some 0, modalMinute := some 0 }

/-! ## buildDownloadName -/

/-- The settings read by `buildDownloadName`: `CFG.useCustomNames`,
`CFG.filenameTemplate` and `CFG.dateFormat`. -/
structure Settings where
  useCustomNames : Bool
  filenameTemplate : JsString
  dateFormat : JsString
  deriving DecidableEq, Repr

/-- The constant `DEFAULT_DATE_FORMAT`, the initial `CFG.dateFormat`. -/
def DEFAULT_DATE_FORMAT : JsString := js "YYYY-MM-DD_hhmm"

/-- The test `/\.pdf$/i.test(s)`: the last four code units are `.`, `p`, `d`, `f`
in either letter case (the ASCII letters are the only code units that the
`i` flag lets match `p`, `d`, `f`). -/
def endsWithPdf (s : JsString) : Bool :=
  match s.reverse with
  | f :: d :: p :: dot :: _ =>
    (f == 102 || f == 70) && (d == 100 || d == 68) && (p == 112 || p == 80) && dot == 46
  | _ => false

/-- Embeds `s.replace(/\.pdf$/i, '')`. -/
def stripPdf (s : JsString) : JsString := if endsWithPdf s then s.take (s.length - 4) else s

/-- Embeds `if (!/\.pdf$/i.test(base)) base += '.pdf'`. -/
def ensurePdf (base : JsString) : JsString := if endsWithPdf base then base else base ++ js ".pdf"

/-- Embeds `(url || '').split('?')[0]`: the text before the first `?`. -/
def beforeQuery (url : JsString) : JsString := url.takeWhile (fun c => c != 63)

/-- Embeds `clean.split('/').pop()`: the text after the last `/`. -/
def lastSegment (clean : JsString) : JsString := (clean.reverse.takeWhile (fun c => c != 47)).reverse

/-- The constant `fallback` of `buildDownloadName`: the trailing path segment of
the URL, or `document.pdf` when that is empty. -/
def urlFallback (url : JsString) : JsString :=
  orElseStr (lastSegment (beforeQuery url)) (js "document.pdf")

/-- Embeds `meta?.field?.trim() || ''`. -/
def trimmedOrEmpty (field : Option JsString) : JsString := (field.map trim).getD []

/-- The four keys of the object `tokens`. -/
inductive TokenName where
  | title
  | date
  | subtitle
  | docname
  deriving DecidableEq, Repr

/-- The object `tokens` of `buildDownloadName`. -/
structure Tokens where
  title : JsString
  date : JsString
  subtitle : JsString
  docname : JsString
  deriving DecidableEq, Repr

/-- The name of a token as written in the pattern, in lower case. -/
def TokenName.word : TokenName → JsString
  | TokenName.title => js "title"
  | TokenName.date => js "date"
  | TokenName.subtitle => js "subtitle"
  | TokenName.docname => js "docname"

/-- Embeds `tokens[key.toLowerCase()] || ''`. -/
def Tokens.value (t : Tokens) : TokenName → JsString
  | TokenName.title => t.title
  | TokenName.date => t.date
  | TokenName.subtitle => t.subtitle
  | TokenName.docname => t.docname

/-- The code unit `c` matches the lower-case letter `l` under the `i` flag. -/
def eqIgnoreCase (c l : Nat) : Bool := c == l || c + 32 == l

/-- The word `w` (lower-case letters) matches at the head of `s` under the `i`
flag: the text after it. -/
def matchWord : JsString → JsString → Option JsString
  | [], s => some s
  | _ :: _, [] => none
  | l :: w, c :: s => if eqIgnoreCase c l then matchWord w s else none

/-- The name `n` closed by `}` is at the head of `s`. -/
def nameThenBrace (n : TokenName) (s : JsString) : Bool :=
  match matchWord n.word s with
  | some (125 :: _) => true
  | _ => false

/-- A match of `\{(title|date|subtitle|docname)\}` with flag `i` at the head of
`s`: the key captured, the alternatives being tried in the order written. -/
def tokenAt : JsString → Option TokenName
  | 123 :: r =>
    if nameThenBrace TokenName.title r then some TokenName.title
    else if nameThenBrace TokenName.date r then some TokenName.date
    else if nameThenBrace TokenName.subtitle r then some TokenName.subtitle
    else if nameThenBrace TokenName.docname r then some TokenName.docname
    else none
  | _ => none

/-- Worker of `fillTemplate`: `skip` code units of a token just replaced are
still to be passed over. -/
def fillFrom (t : Tokens) : Nat → JsString → JsString
  | _, [] => []
  | skip + 1, _ :: r => fillFrom t skip r
  | 0, c :: r =>
    match tokenAt (c :: r) with
    | some n => t.value n ++ fillFrom t (n.word.length + 1) r
    | none => c :: fillFrom t 0 r

/-- Embeds `template.replace(/\{(title|date|subtitle|docname)\}/gi, (_, key) =>
tokens[key.toLowerCase()] || '')`: a left-to-right scan in which every match is
replaced by the value of its key and any other code unit is copied. -/
def fillTemplate (t : Tokens) (template : JsString) : JsString := fillFrom t 0 template

/-- The object `tokens` of `buildDownloadName` when the template is filled. -/
def downloadTokens (cfg : Settings) (m : Meta) (url : JsString) (nowYear : Nat) : Tokens :=
  let date0 := trimmedOrEmpty m.itemDate
  let docname0 := trimmedOrEmpty m.docTitle
  let formattedDate :=
    match resolveDateParts m nowYear with
    | some p => formatDateParts (some p) (orElseStr cfg.dateFormat DEFAULT_DATE_FORMAT)
    | none => orElseStr (m.itemDate.getD []) date0
  { title := trimmedOrEmpty m.itemTitle
    date := orElseStr formattedDate date0
    subtitle := trimmedOrEmpty m.itemSubtitle
    docname := if docname0 = [] then stripPdf (urlFallback url) else docname0 }

/-- The variable `filled` of `buildDownloadName`: the expanded template. -/
def filledTemplate (cfg : Settings) (m : Meta) (url : JsString) (nowYear : Nat) : JsString :=
  fillTemplate (downloadTokens cfg m url nowYear) (orElseStr cfg.filenameTemplate (js "\x7bdocname\x7d"))

/-- The variable `base` of `buildDownloadName` before the suffix test. -/
def downloadBase (cfg : Settings) (m : Meta) (url : JsString) (nowYear : Nat) : JsString :=
  if cfg.useCustomNames = false then
    orElseStr (sanitizeFilename (urlFallback url)) (js "document")
  else
    orElseStr
      (sanitizeFilename
        (orElseStr (trim (filledTemplate cfg m url nowYear))
          (orElseStr (downloadTokens cfg m url nowYear).docname (stripPdf (urlFallback url)))))
      (js "document")

/-- Embeds `buildDownloadName(meta, url)` under the settings `cfg`; `nowYear` is
`new Date().getFullYear()`. The meta is an object, as at every call (the callers
test `hasPending()` first); an absent property is `none`. -/
def buildDownloadName (cfg : Settings) (m : Meta) (url : JsString) (nowYear : Nat) : JsString :=
  ensurePdf (downloadBase cfg m url nowYear)

/-- The default settings of the script. -/
def defaultSettings : Settings :=
  { useCustomNames := true, filenameTemplate := js "\x7bdate\x7d_\x7btitle\x7d_\x7bsubtitle\x7d_\x7bdocname\x7d",
    dateFormat := js "YYYY-MM-DD_hhmm" }

/-- Settings with a template that names the token `doc` and writes `TITLE` in
capitals. -/
def docTemplateSettings : Settings :=
  { useCustomNames := true, filenameTemplate := js "\x7bdoc\x7d_\x7bTITLE\x7d",
    dateFormat := js "YYYY-MM-DD_hhmm" }

/-- Settings with custom naming switched off. -/
def plainSettings : Settings :=
  { useCustomNames := false, filenameTemplate := js "\x7bdate\x7d_\x7btitle\x7d",
    dateFormat := js "YYYY-MM-DD_hhmm" }

/-- The word consists of lower-case ASCII letters. -/
def isLowerWord (w : JsString) : Prop := ∀ l ∈ w, 97 ≤ l ∧ l ≤ 122

instance (w : JsString) : Decidable (isLowerWord w) := by
  unfold isLowerWord; infer_instance

/-- The names that the template pattern recognises, in lower case. -/
def tokenWords : List JsString :=
  [TokenName.title.word, TokenName.date.word, TokenName.subtitle.word, TokenName.docname.word]

/-! ## Version 2.0: parseDateString with month names

The script `TR_document_batch_downloader.js` (version 2.0) has its own
`parseDateString`, which knows the dotted pattern and the form "day. month name". -/

/-- The table `MONTH_MAP` of version 2.0, in the order written. The inherited
properties of a JavaScript object (such as `constructor`) are not part of it. -/
def V2.MONTH_MAP : List (JsString × Nat) :=
  [(js "januar", 1), (js "februar", 2), (js "maerz", 3), (js "märz", 3), (js "april", 4),
   (js "mai", 5), (js "juni", 6), (js "juli", 7), (js "august", 8), (js "september", 9),
   (js "oktober", 10), (js "november", 11), (js "dezember", 12), (js "december", 12)]

/-- The class `[A-Za-zÄÖÜäöü]` of the month-name pattern. -/
def V2.isMonthLetter (c : Nat) : Bool :=
  decide (65 ≤ c ∧ c ≤ 90) || decide (97 ≤ c ∧ c ≤ 122) ||
  c == 196 || c == 214 || c == 220 || c == 228 || c == 246 || c == 252

/-- Lower case of a code unit of the class `[A-Za-zÄÖÜäöü]` (`toLowerCase`). -/
def V2.lowerLetter (c : Nat) : Nat :=
  if (65 ≤ c ∧ c ≤ 90) ∨ c = 196 ∨ c = 214 ∨ c = 220 then c + 32 else c

/-- Canonical decomposition (`normalize('NFD')`) of a lower-case code unit of the
class: `ä`, `ö`, `ü` become the base letter followed by U+0308. -/
def V2.nfdLetter (c : Nat) : JsString :=
  if c = 228 then [97, 776] else if c = 246 then [111, 776] else if c = 252 then [117, 776]
  else [c]

/-- The replacements `ä -> ae`, `ö -> oe`, `ü -> ue` of one code unit. -/
def V2.expandUmlaut (c : Nat) : JsString :=
  if c = 228 then [97, 101] else if c = 246 then [111, 101] else if c = 252 then [117, 101]
  else [c]

/-- Embeds `normalizeMonthName(name)` of version 2.0 on a name made of the class
`[A-Za-zÄÖÜäöü]`, which is what the month-name pattern captures: lower case,
`normalize('NFD')`, removal of the combining marks U+0300..U+036F, the three
umlaut replacements, removal of whitespace, in this order. -/
def V2.normalizeMonthName (name : JsString) : JsString :=
  ((((name.map V2.lowerLetter).flatMap V2.nfdLetter).filter
      (fun c => !(decide (768 ≤ c ∧ c ≤ 879)))).flatMap V2.expandUmlaut).filter
    (fun c => !(isSpace c))

/-- What follows group 1 in `(\d{1,2})\.\s*([A-Za-zÄÖÜäöü]+)`: the dot, the
whitespace (greedy) and the longest run of letters, which is group 2 and must
not be empty. -/
def V2.nameAfterDay (r : JsString) : Option JsString :=
  match r with
  | 46 :: r1 =>
    if (r1.dropWhile isSpace).takeWhile V2.isMonthLetter = [] then none
    else some ((r1.dropWhile isSpace).takeWhile V2.isMonthLetter)
  | _ => none

/-- A match of `(\d{1,2})\.\s*([A-Za-zÄÖÜäöü]+)` at the head of `s`: groups 1 and
2; group 1 is tried with two digits, then with one. -/
def V2.monthMatchAt (s : JsString) : Option (JsString × JsString) :=
  let one : Option (JsString × JsString) :=
    match takeDigits 1 s with
    | some (g1, r) => (V2.nameAfterDay r).map (fun g2 => (g1, g2))
    | none => none
  match takeDigits 2 s with
  | some (g1, r) =>
    match V2.nameAfterDay r with
    | some g2 => some (g1, g2)
    | none => one
  | none => one

/-- Embeds `text.match(/(\d{1,2})\.\s*([A-Za-zÄÖÜäöü]+)/)`: the leftmost match. -/
def V2.monthSearch : JsString → Option (JsString × JsString)
  | [] => none
  | c :: cs =>
    match V2.monthMatchAt (c :: cs) with
    | some m => some m
    | none => V2.monthSearch cs

/-- The first block of `parseDateString` of version 2.0: the dotted pattern. -/
def V2.dottedVars (text : JsString) : DateVars :=
  match dateSearch 46 text with
  | none => {}
  | some m =>
    match m.g3 with
    | some g => { day := some (parseInt m.g1), month := some (parseInt m.g2), year := some (yearOfGroup g) }
    | none => { day := some (parseInt m.g1), month := some (parseInt m.g2) }

/-- The second block of `parseDateString` of version 2.0: the month-name pattern,
tried when day or month is still falsy; the month is `MONTH_MAP[normalized]`,
which is `undefined` for a name that is not a key. -/
def V2.monthNameVars (text : JsString) (v : DateVars) : DateVars :=
  if falsy v.day || falsy v.month then
    match V2.monthSearch text with
    | none => v
    | some (g1, g2) =>
      { v with day := some (parseInt g1), month := V2.MONTH_MAP.lookup (V2.normalizeMonthName g2) }
  else v

/-- The variables `day, month, year` of `parseDateString` of version 2.0 before
the final test. -/
def V2.parsedVars (str : JsString) : DateVars :=
  V2.monthNameVars (trim str) (V2.dottedVars (trim str))

/-- Embeds `parseDateString(str, fallbackYear)` of version 2.0; `nowYear` is
`new Date().getFullYear()`. -/
def V2.parseDateString (str : JsString) (fallbackYear nowYear : Nat) : Option DateParts :=
  if str = [] then none
  else if falsy (V2.parsedVars str).day || falsy (V2.parsedVars str).month then none
  else
    some { day := (V2.parsedVars str).day.getD 0, month := (V2.parsedVars str).month.getD 0,
           year := orElseNat ((V2.parsedVars str).year.getD 0) (orElseNat fallbackYear nowYear) }

/-- The German month names written without an umlaut, with their numbers. -/
def V2.plainMonthNames : List (JsString × Nat) :=
  [(js "Januar", 1), (js "Februar", 2), (js "April", 4), (js "Mai", 5), (js "Juni", 6),
   (js "Juli", 7), (js "August", 8), (js "September", 9), (js "Oktober", 10),
   (js "November", 11), (js "Dezember", 12)]

/-- Settings whose date format holds the time tokens only. -/
def timeOnlySettings : Settings :=
  { useCustomNames := true, filenameTemplate := js "\x7bdate\x7d_\x7btitle\x7d",
    dateFormat := js "hhmm" }

/-- A meta of a row dated `20.12.` under the heading of 2024, with no time from the
overlay. -/
def rowMeta : Meta :=
  { itemTitle := some (js "Kauf"), itemDate := some (js "20.12."), itemSubtitle := some (js "x"),
    itemYear := some 2024 }

/-- A meta with a date text but without any year: neither `itemYear` nor
`modalYear` is set. -/
def yearlessMeta : Meta :=
  { itemTitle := some (js "Kauf"), itemDate := some (js "20.12.") }

/-- The text of a range field that stands for an open bound: empty, or one of the
sentinels `ende`, `end`, `anfang`, `start` in any letter case. -/
def isOpenSentinel (val : JsString) : Prop :=
  toLowerCase (trim val) ∈ [[], js "ende", js "end", js "anfang", js "start"]

instance (val : JsString) : Decidable (isOpenSentinel val) := by
  unfold isOpenSentinel; infer_instance

/-- Two rows under the heading of 2024: one dated `01.01.`, one whose subtitle
holds no date. -/
def undatedItems : List TimelineItem :=
  [⟨js "A", js "01.01.", js "x", 2024⟩, ⟨js "B", js "", js "bald", 2024⟩]

/-! ## extractModalTimeInfo -/

/-- The leftmost match of a pattern in a text: the matcher `f` is tried at every
start position from left to right, the end of the text included. -/
def searchFirst {α : Type} (f : JsString → Option α) : JsString → Option α
  | [] => f []
  | c :: cs =>
    match f (c :: cs) with
    | some x => some x
    | none => searchFirst f cs

/-- The lookahead body `\s*:` matches at the head of `rest`: after the
whitespace comes a colon. -/
def colonAhead (rest : JsString) : Bool :=
  match rest.dropWhile isSpace with
  | 58 :: _ => true
  | _ => false

/-- A match of `((?:19|20)\d{2})(?!\s*:)` at the head of the text: the number
captured by group 1. -/
def yearAt : JsString → Option Nat
  | a :: b :: c :: d :: rest =>
    if ((a == 49 && b == 57) || (a == 50 && b == 48)) && isDigit c && isDigit d &&
        !(colonAhead rest) then
      some (parseInt [a, b, c, d])
    else none
  | _ => none

/-- What follows group 1 in `(\d{1,2}):(\d{2})`: the colon and two digits. -/
def minuteAfter (r : JsString) : Option JsString :=
  match r with
  | 58 :: r1 =>
    match takeDigits 2 r1 with
    | some (g2, _) => some g2
    | none => none
  | _ => none

/-- A match of `(\d{1,2}):(\d{2})` at the head of the text: groups 1 and 2; group
1 is tried with two digits, then with one. -/
def timeAt (s : JsString) : Option (JsString × JsString) :=
  let one : Option (JsString × JsString) :=
    match takeDigits 1 s with
    | some (g1, r) => (minuteAfter r).map (fun g2 => (g1, g2))
    | none => none
  match takeDigits 2 s with
  | some (g1, r) =>
    match minuteAfter r with
    | some g2 => some (g1, g2)
    | none => one
  | none => one

/-- The object returned by `extractModalTimeInfo`; `none` is a property that is
not set. -/
structure ModalInfo where
  modalYear : Option Nat := none
  modalHour : Option Nat := none
  modalMinute : Option Nat := none
  deriving DecidableEq, Repr

/-- Embeds `extractModalTimeInfo(modal)` as a function of the text content of the
modal header element; `none` stands for a missing modal or header element. -/
def extractModalTimeInfo (headerText : Option JsString) : ModalInfo :=
  match headerText with
  | none => {}
  | some raw =>
    if trim raw = [] then {}
    else
      { modalYear := searchFirst yearAt (trim raw)
        modalHour := (searchFirst timeAt (trim raw)).map (fun g => parseInt g.1)
        modalMinute := (searchFirst timeAt (trim raw)).map (fun g => parseInt g.2) }

/-- The match of `f` at position `n` of the text is the first one: `f` matches
there with the value `x` and at no position before. -/
def FirstMatchAt {α : Type} (f : JsString → Option α) (text : JsString) (n : Nat) (x : α) : Prop :=
  n ≤ text.length ∧ f (text.drop n) = some x ∧ ∀ k, k < n → f (text.drop k) = none

/-! ## The download interceptor -/

/-- How the host answers a call of `GM_download`: the function is missing
(`typeof GM_download !== 'function'`), the call throws, or the request is taken. -/
inductive GmMode where
  | absent
  | throws
  | accepts
  deriving DecidableEq, Repr

/-- The host at the moment of a call: the settings `CFG`, the calendar year of
`new Date()` and the behaviour of `GM_download`. -/
structure Host where
  cfg : Settings
  nowYear : Nat
  gm : GmMode
  deriving DecidableEq, Repr

/-- The first argument of `open`, `assign`, `replace` or of the `href` setter:
`some u` is the string `u`, `none` stands for every value that is not a string. -/
abbrev UrlArg := Option JsString

/-- Embeds `typeof url === 'string' && url.trim()` as a condition. -/
def nonBlankString : UrlArg → Option JsString
  | some u => if trim u = [] then none else some u
  | none => none

/-- A call of an original host function: `prev` of `hookWindowOpenForDownloads`,
the saved `Location.prototype.assign` / `replace`, or the setter of the saved
`href` descriptor. A location object is named by the id of its window. -/
inductive OrigCall where
  | open (url : UrlArg)
  | assign (loc : Nat) (url : UrlArg)
  | replace (loc : Nat) (url : UrlArg)
  | href (loc : Nat) (url : UrlArg)
  deriving DecidableEq, Repr

/-- The closures handed to `queueGmDownload` as `prevOpen`:
`() => prev.apply(this, args)`, `() => state.origAssign.apply(this, arguments)`,
`() => state.origReplace.apply(this, arguments)` and `() => desc.set.call(this, value)`. -/
inductive Fallback where
  | prevOpen (url : UrlArg)
  | origAssign (loc : Nat) (url : UrlArg)
  | origReplace (loc : Nat) (url : UrlArg)
  | descSet (loc : Nat) (url : UrlArg)
  deriving DecidableEq, Repr

/-- The object given to `GM_download`; `ontimeout` and `onerror` both run the
closure `fallback`. -/
structure DownloadRequest where
  url : JsString
  name : JsString
  saveAs : Bool
  fallback : Fallback
  deriving DecidableEq, Repr

/-- The interceptor and the parts of the page it acts on, on a page whose
`Location.prototype` has `assign`, `replace` and an `href` setter: the tracker
(with `pendingPopups`), the keys of `trackedLocations`, the scheduled 1500 ms
timeouts of the open hook (timeout id and window), the id of the next window the
original `open` returns to the hook, the requests given to `GM_download`, the
calls of original host functions, and the fallback closures that threw.
The timeouts of the open hook draw their ids from `tracker.nextTimerId` like
those of the tracker and are kept apart from `tracker.liveTimers`. -/
structure PageState where
  tracker : TrackerState := {}
  trackedLocations : List Nat := []
  graceTimers : List (Nat × Nat) := []
  nextWin : Nat := 0
  downloads : List DownloadRequest := []
  origCalls : List OrigCall := []
  thrown : List Fallback := []
  deriving DecidableEq, Repr

/-- The state when the script has loaded. -/
def PageState.init : PageState := {}

/-- Embeds `Set.prototype.add` and `WeakMap.prototype.set` on the keys. -/
def setAdd (w : Nat) (l : List Nat) : List Nat := if w ∈ l then l else l ++ [w]

/-- Whether `state.origAssign` and `state.origReplace` of `navigationHooks` hold
the original functions: `enable` stores them and sets `state.enabled`, `disable`
sets them to `null` and clears `state.enabled`, and nothing else writes them, so
they are stored exactly while the hooks are enabled. -/
def navigationHooks.origSaved (s : PageState) : Bool := s.tracker.hooksEnabled

/-- Runs a fallback closure. `state.origAssign.apply` and `state.origReplace.apply`
read the field of `state` when the closure runs and throw a `TypeError` when it is
`null`; `prev` and `desc` are constants of their closures. -/
def runFallback (fb : Fallback) (s : PageState) : PageState :=
  match fb with
  | Fallback.prevOpen url => { s with origCalls := s.origCalls ++ [OrigCall.open url] }
  | Fallback.origAssign loc url =>
    if navigationHooks.origSaved s then { s with origCalls := s.origCalls ++ [OrigCall.assign loc url] }
    else { s with thrown := s.thrown ++ [fb] }
  | Fallback.origReplace loc url =>
    if navigationHooks.origSaved s then { s with origCalls := s.origCalls ++ [OrigCall.replace loc url] }
    else { s with thrown := s.thrown ++ [fb] }
  | Fallback.descSet loc url => { s with origCalls := s.origCalls ++ [OrigCall.href loc url] }

/-- Embeds `queueGmDownload(url, prevOpen)`. The record `m` is the value of
`downloadTracker.peek()`: both callers have tested `hasPending()` just before. -/
def queueGmDownload (h : Host) (m : Meta) (url : JsString) (prevOpen : Fallback)
    (s : PageState) : Bool × PageState :=
  match h.gm with
  | GmMode.absent => (false, s)
  | GmMode.throws => (false, s)
  | GmMode.accepts =>
    (true, { s with
      downloads := s.downloads ++
        [{ url := url, name := buildDownloadName h.cfg m url h.nowYear, saveAs := false,
           fallback := prevOpen }]
      tracker := (downloadTracker.consume s.tracker).2 })

/-- Embeds `interceptLocationNavigation(loc, url, fallback)`; the window stored for
a tracked location is the window of that location. -/
def interceptLocationNavigation (h : Host) (loc : Nat) (url : UrlArg) (fallback : Fallback)
    (s : PageState) : Bool × PageState :=
  match downloadTracker.peek s.tracker with
  | none => (false, s)
  | some m =>
    if loc ∈ s.trackedLocations then
      match nonBlankString url with
      | none => (false, s)
      | some u =>
        match queueGmDownload h m u fallback s with
        | (true, s1) =>
          (true, { s1 with
            trackedLocations := s1.trackedLocations.filter (fun x => x != loc)
            tracker := { s1.tracker with closedWindows := s1.tracker.closedWindows ++ [loc] } })
        | (false, s1) => (false, s1)
    else (false, s)

/-- The body shared by the hooked `assign`, `replace` and `href` setter:
`if (interceptLocationNavigation(this, url, fallback)) return; return fallback();`. -/
def hookedNavigation (h : Host) (loc : Nat) (url : UrlArg) (fallback : Fallback)
    (s : PageState) : PageState :=
  match interceptLocationNavigation h loc url fallback s with
  | (true, s1) => s1
  | (false, s1) => runFallback fallback s1

/-- A call `loc.assign(url)`: the hooked function while the hooks are enabled,
the original one otherwise. -/
def locationAssign (h : Host) (loc : Nat) (url : UrlArg) (s : PageState) : PageState :=
  if s.tracker.hooksEnabled then hookedNavigation h loc url (Fallback.origAssign loc url) s
  else { s with origCalls := s.origCalls ++ [OrigCall.assign loc url] }

/-- A call `loc.replace(url)`. -/
def locationReplace (h : Host) (loc : Nat) (url : UrlArg) (s : PageState) : PageState :=
  if s.tracker.hooksEnabled then hookedNavigation h loc url (Fallback.origReplace loc url) s
  else { s with origCalls := s.origCalls ++ [OrigCall.replace loc url] }

/-- An assignment `loc.href = url`. -/
def locationHref (h : Host) (loc : Nat) (url : UrlArg) (s : PageState) : PageState :=
  if s.tracker.hooksEnabled then hookedNavigation h loc url (Fallback.descSet loc url) s
  else { s with origCalls := s.origCalls ++ [OrigCall.href loc url] }

/-- The block `if (win) { ... }` of the open hook for the new window `w`. -/
def trackPopup (w : Nat) (s : PageState) : PageState :=
  let s1 := if downloadTracker.hasPending s.tracker
    then { s with trackedLocations := setAdd w s.trackedLocations } else s
  let s2 := { s1 with tracker := { s1.tracker with pendingPopups := setAdd w s1.tracker.pendingPopups } }
  if downloadTracker.hasPending s2.tracker then s2
  else { s2 with
    graceTimers := s2.graceTimers ++ [(s2.tracker.nextTimerId, w)]
    tracker := { s2.tracker with nextTimerId := s2.tracker.nextTimerId + 1 } }

/-- The call `prev.apply(this, args)` of the open hook followed by the tracking of
the window; `opens` tells whether the original `open` returns a window. -/
def openOriginal (url : UrlArg) (opens : Bool) (s : PageState) : Option Nat × PageState :=
  let s1 := { s with origCalls := s.origCalls ++ [OrigCall.open url] }
  if opens then (some s1.nextWin, trackPopup s1.nextWin { s1 with nextWin := s1.nextWin + 1 })
  else (none, s1)

/-- Embeds `replacement(url, target, features)`, the hooked `open`: the returned
window (`none` is `null`) and the new state. -/
def hookedOpen (h : Host) (url : UrlArg) (opens : Bool) (s : PageState) : Option Nat × PageState :=
  match downloadTracker.peek s.tracker, nonBlankString url with
  | some m, some u =>
    match queueGmDownload h m u (Fallback.prevOpen url) s with
    | (true, s1) => (none, s1)
    | (false, s1) => openOriginal url opens s1
  | _, _ => openOriginal url opens s

/-- The callback of the 1500 ms timeout `t` of the open hook. -/
def graceTimeout (t : Nat) (s : PageState) : PageState :=
  match s.graceTimers.find? (fun p => p.1 == t) with
  | none => s
  | some (_, w) =>
    let s1 := { s with graceTimers := s.graceTimers.filter (fun p => p.1 != t) }
    if downloadTracker.hasPending s1.tracker then s1
    else { s1 with tracker := { s1.tracker with
      closedWindows := s1.tracker.closedWindows ++ [w]
      pendingPopups := s1.tracker.pendingPopups.filter (fun x => x != w) } }

/-- The `beforeunload` listener of the window `w`. -/
def popupUnload (w : Nat) (s : PageState) : PageState :=
  { s with tracker := { s.tracker with pendingPopups := s.tracker.pendingPopups.filter (fun x => x != w) } }

/-- The `onerror` or `ontimeout` callback of the request number `k`: `prevOpen?.()`. -/
def downloadFailed (k : Nat) (s : PageState) : PageState :=
  match s.downloads.get? k with
  | some r => runFallback r.fallback s
  | none => s

/-- What can happen on the page. -/
inductive PageEvent where
  | arm (m : Meta)
  | windowOpen (h : Host) (url : UrlArg) (opens : Bool)
  | assign (h : Host) (loc : Nat) (url : UrlArg)
  | replace (h : Host) (loc : Nat) (url : UrlArg)
  | href (h : Host) (loc : Nat) (url : UrlArg)
  | timeout (t : Nat)
  | graceTimeout (t : Nat)
  | beforeUnload (w : Nat)
  | gmError (k : Nat)
  | gmTimeout (k : Nat)
  deriving DecidableEq, Repr

/-- One event. -/
def pageStep (s : PageState) : PageEvent → PageState
  | PageEvent.arm m => { s with tracker := downloadTracker.set m s.tracker }
  | PageEvent.windowOpen h url opens => (hookedOpen h url opens s).2
  | PageEvent.assign h loc url => locationAssign h loc url s
  | PageEvent.replace h loc url => locationReplace h loc url s
  | PageEvent.href h loc url => locationHref h loc url s
  | PageEvent.timeout t => { s with tracker := trackerStep s.tracker (TrackerEvent.timeout t) }
  | PageEvent.graceTimeout t => graceTimeout t s
  | PageEvent.beforeUnload w => popupUnload w s
  | PageEvent.gmError k => downloadFailed k s
  | PageEvent.gmTimeout k => downloadFailed k s

/-- The state after a sequence of events. -/
def pageRun (evs : List PageEvent) : PageState := evs.foldl pageStep PageState.init

/-- The number of `downloadTracker.set` calls in a sequence of events. -/
def armCount (evs : List PageEvent) : Nat :=
  (evs.filter (fun e => match e with | PageEvent.arm _ => true | _ => false)).length

/-- A host with the default settings in the year 2026 whose `GM_download` takes
requests. -/
def acceptingHost : Host := { cfg := defaultSettings, nowYear := 2026, gm := GmMode.accepts }

/-- The address of a document. -/
def docUrl : JsString := js "https://x.de/a/doc.pdf?t=1"

/-- The invariant of the interceptor after `k` calls of `downloadTracker.set`:
the tracker invariant, and the requests given to `GM_download` together with a
record still pending are at most `k`. -/
def CaptureInv (k : Nat) (s : PageState) : Prop :=
  TrackerInv s.tracker ∧ s.downloads.length + s.tracker.pending.toList.length ≤ k

/-! # Theorems -/

/-! ## Digits and decimal strings -/

theorem isDigit_iff (c : Nat) : isDigit c = true ↔ 48 ≤ c ∧ c ≤ 57 := by
  simp [isDigit]

theorem isSep_of_isDigit {c : Nat} (h : isDigit c = true) : isSep c = false := by
  rw [isDigit_iff] at h
  simp only [isSep, Bool.or_eq_false_iff, beq_eq_false_iff_ne, ne_eq]
  omega

theorem isSpace_of_isDigit {c : Nat} (h : isDigit c = true) : isSpace c = false := by
  rw [isDigit_iff] at h
  simp only [isSpace, Bool.or_eq_false_iff, beq_eq_false_iff_ne, ne_eq, decide_eq_false_iff_not]
  omega

theorem numToString_lt_ten {n : Nat} (h : n < 10) : numToString n = [48 + n] := by
  simp [numToString, toDecCore, h]

theorem numToString_two {n : Nat} (h1 : 10 ≤ n) (h2 : n < 100) :
    numToString n = [48 + n / 10, 48 + n % 10] := by
  obtain ⟨k, rfl⟩ : ∃ k, n = k + 1 := ⟨n - 1, by omega⟩
  have h3 : ¬ (k + 1 < 10) := by omega
  have h4 : (k + 1) / 10 < 10 := by omega
  simp [numToString, toDecCore, h3, h4]

theorem numToString_four {n : Nat} (h1 : 1000 ≤ n) (h2 : n < 10000) :
    numToString n = [48 + n / 1000, 48 + n / 100 % 10, 48 + n / 10 % 10, 48 + n % 10] := by
  obtain ⟨k, rfl⟩ : ∃ k, n = k + 3 := ⟨n - 3, by omega⟩
  have h3 : ¬ (k + 3 < 10) := by omega
  have h4 : ¬ ((k + 3) / 10 < 10) := by omega
  have h5 : ¬ ((k + 3) / 10 / 10 < 10) := by omega
  have h6 : (k + 3) / 10 / 10 / 10 < 10 := by omega
  have h7 : ¬ ((k + 3) / 100 < 10) := by omega
  have h8 : (k + 3) / 1000 < 10 := by omega
  simp [numToString, toDecCore, h3, h4, h5, h6, h7, h8, Nat.div_div_eq_div_mul]

theorem pad_lt_hundred {n : Nat} (h : n < 100) : pad n = [48 + n / 10, 48 + n % 10] := by
  by_cases h1 : n < 10
  · have e1 : n / 10 = 0 := by omega
    have e2 : n % 10 = n := by omega
    simp [pad, padStart2, numToString_lt_ten h1, e1, e2]
  · simp [pad, padStart2, numToString_two (by omega) h]

/-! ## The date pattern -/

theorem takeDigits_eq_some {k : Nat} {s g r : JsString} (h : takeDigits k s = some (g, r)) :
    g = s.take k ∧ r = s.drop k ∧ g.length = k ∧ ∀ c ∈ g, isDigit c = true := by
  unfold takeDigits at h
  split at h
  · rename_i hk
    simp only [Option.some.injEq, Prod.mk.injEq] at h
    obtain ⟨rfl, rfl⟩ := h
    refine ⟨rfl, rfl, ?_, ?_⟩
    · simp [List.length_take, hk.1]
    · simpa [List.all_eq_true] using hk.2
  · simp at h

theorem afterGroup1_sep_mem {sep : Nat} {g1 r : JsString} {m : DateMatch}
    (h : afterGroup1 sep g1 r = some m) : sep ∈ r := by
  cases r with
  | nil => simp [afterGroup1] at h
  | cons c r1 =>
    by_cases hc : c = sep
    · simp [hc]
    · simp [afterGroup1, hc] at h

theorem dateMatchAt_sep_mem {sep : Nat} {s : JsString} {m : DateMatch}
    (h : dateMatchAt sep s = some m) : sep ∈ s := by
  have key : ∀ k, ∀ g r, takeDigits k s = some (g, r) → afterGroup1 sep g r = some m → sep ∈ s := by
    intro k g r h1 h2
    obtain ⟨-, rfl, -, -⟩ := takeDigits_eq_some h1
    exact List.mem_of_mem_drop (afterGroup1_sep_mem h2)
  unfold dateMatchAt at h
  simp only at h
  split at h
  · rename_i g1 r h2
    split at h
    · rename_i m1 h3
      simp only [Option.some.injEq] at h
      subst h
      exact key 2 g1 r h2 h3
    · split at h
      · rename_i g r1 h4
        exact key 1 g r1 h4 h
      · simp at h
  · split at h
    · rename_i g r1 h4
      exact key 1 g r1 h4 h
    · simp at h

/-- Without the separator in the text the date pattern has no match. -/
theorem dateSearch_eq_none_of_not_mem {sep : Nat} {s : JsString} (h : sep ∉ s) :
    dateSearch sep s = none := by
  induction s with
  | nil => rfl
  | cons c cs ih =>
    have h1 : dateMatchAt sep (c :: cs) = none := by
      cases hm : dateMatchAt sep (c :: cs) with
      | none => rfl
      | some m => exact absurd (dateMatchAt_sep_mem hm) h
    have h2 : sep ∉ cs := fun hc => h (List.mem_cons_of_mem _ hc)
    simp [dateSearch, h1, ih h2]

/-- The dotted text `dd.mm.yyyy` made of digits parses to its three numbers. -/
theorem parseDateString_dotted (x1 x2 x3 x4 x5 x6 x7 x8 fb now : Nat)
    (h1 : isDigit x1 = true) (h2 : isDigit x2 = true) (h3 : isDigit x3 = true)
    (h4 : isDigit x4 = true) (h5 : isDigit x5 = true) (h6 : isDigit x6 = true)
    (h7 : isDigit x7 = true) (h8 : isDigit x8 = true)
    (hd : parseInt [x1, x2] ≠ 0) (hm : parseInt [x3, x4] ≠ 0)
    (hy : 100 ≤ parseInt [x5, x6, x7, x8]) :
    parseDateString [x1, x2, 46, x3, x4, 46, x5, x6, x7, x8] fb now =
      some { day := parseInt [x1, x2], month := parseInt [x3, x4],
             year := parseInt [x5, x6, x7, x8] } := by
  have t : trim [x1, x2, 46, x3, x4, 46, x5, x6, x7, x8] = [x1, x2, 46, x3, x4, 46, x5, x6, x7, x8] := by
    simp [trim, List.rdropWhile, List.dropWhile, isSpace_of_isDigit h1, isSpace_of_isDigit h8]
  have ns : dateSearch 47 [x1, x2, 46, x3, x4, 46, x5, x6, x7, x8] = none := by
    apply dateSearch_eq_none_of_not_mem
    rw [isDigit_iff] at h1 h2 h3 h4 h5 h6 h7 h8
    intro hc
    simp only [List.mem_cons, List.mem_singleton, List.not_mem_nil, or_false] at hc
    omega
  have ds : dateSearch 46 [x1, x2, 46, x3, x4, 46, x5, x6, x7, x8] =
      some ⟨[x1, x2], [x3, x4], some [x5, x6, x7, x8]⟩ := by
    simp [dateSearch, dateMatchAt, takeDigits, afterGroup1, skipSep, yearGroup, h1, h2, h3, h4, h5,
      h6, h7, h8]
  have hy1 : ¬ parseInt [x5, x6, x7, x8] < 100 := by omega
  have hy2 : parseInt [x5, x6, x7, x8] ≠ 0 := by omega
  simp [parseDateString, t, slashBlock, dotBlock, ns, ds, falsy, yearOfGroup, hy1, hy2, hd, hm,
    orElseNat]

theorem isDigit_add {k : Nat} (h : k < 10) : isDigit (48 + k) = true := by
  rw [isDigit_iff]; omega

theorem js_dotted_format : js "DD.MM.YYYY" = [68, 68, 46, 77, 77, 46, 89, 89, 89, 89] := by decide

/-- The dotted format of a date with two-digit day and month and four-digit year. -/
theorem formatDateParts_dotted (p : DateParts) (hd : p.day < 100) (hm : p.month < 100)
    (hy : 1000 ≤ p.year ∧ p.year ≤ 9999) :
    formatDateParts (some p) (js "DD.MM.YYYY") =
      [48 + p.day / 10, 48 + p.day % 10, 46, 48 + p.month / 10, 48 + p.month % 10, 46,
       48 + p.year / 1000, 48 + p.year / 100 % 10, 48 + p.year / 10 % 10, 48 + p.year % 10] := by
  have d1 := isSep_of_isDigit (isDigit_add (k := p.day / 10) (by omega))
  have d2 := isSep_of_isDigit (isDigit_add (k := p.day % 10) (by omega))
  have d3 := isSep_of_isDigit (isDigit_add (k := p.month / 10) (by omega))
  have d4 := isSep_of_isDigit (isDigit_add (k := p.month % 10) (by omega))
  have d5 := isSep_of_isDigit (isDigit_add (k := p.year / 1000) (by omega))
  have d6 := isSep_of_isDigit (isDigit_add (k := p.year / 100 % 10) (by omega))
  have d7 := isSep_of_isDigit (isDigit_add (k := p.year / 10 % 10) (by omega))
  have d8 := isSep_of_isDigit (isDigit_add (k := p.year % 10) (by omega))
  simp [formatDateParts, js_dotted_format, replaceTokens, pad_lt_hundred hd, pad_lt_hundred hm,
    numToString_four hy.1 (by omega : p.year < 10000), collapseSeps, stripTrailingSeps,
    List.rdropWhile, List.dropWhile, d1, d2, d3, d4, d5, d6, d7, d8]

/-- C1. Formatting a date (day in 1..31, month in 1..12, four-digit year) with the
dotted format `DD.MM.YYYY` and parsing the text with `parseDateString`, whatever
the fallback year, returns the same day, month and year. -/
theorem parseDateString_formatDateParts_roundtrip (p : DateParts) (fallbackYear nowYear : Nat)
    (hd : 1 ≤ p.day ∧ p.day ≤ 31) (hm : 1 ≤ p.month ∧ p.month ≤ 12)
    (hy : 1000 ≤ p.year ∧ p.year ≤ 9999) :
    parseDateString (formatDateParts (some p) (js "DD.MM.YYYY")) fallbackYear nowYear =
      some { day := p.day, month := p.month, year := p.year } := by
  rw [formatDateParts_dotted p (by omega) (by omega) hy]
  have e1 : parseInt [48 + p.day / 10, 48 + p.day % 10] = p.day := by
    simp [parseInt]; omega
  have e2 : parseInt [48 + p.month / 10, 48 + p.month % 10] = p.month := by
    simp [parseInt]; omega
  have e3 : parseInt [48 + p.year / 1000, 48 + p.year / 100 % 10, 48 + p.year / 10 % 10,
      48 + p.year % 10] = p.year := by
    simp [parseInt]; omega
  rw [parseDateString_dotted _ _ _ _ _ _ _ _ fallbackYear nowYear
    (isDigit_add (by omega)) (isDigit_add (by omega)) (isDigit_add (by omega))
    (isDigit_add (by omega)) (isDigit_add (by omega)) (isDigit_add (by omega))
    (isDigit_add (by omega)) (isDigit_add (by omega))
    (by rw [e1]; omega) (by rw [e2]; omega) (by rw [e3]; omega), e1, e2, e3]

theorem parseDateString_formatDateParts_roundtrip_witness :
    ((1 ≤ 31 ∧ 31 ≤ 31) ∧ (1 ≤ 12 ∧ 12 ≤ 12) ∧ (1000 ≤ 1999 ∧ 1999 ≤ 9999)) ∧
    formatDateParts (some { day := 31, month := 12, year := 1999 }) (js "DD.MM.YYYY")
      = js "31.12.1999" ∧
    parseDateString (formatDateParts (some { day := 31, month := 12, year := 1999 })
      (js "DD.MM.YYYY")) 2024 2026 = some { day := 31, month := 12, year := 1999 } :=
  ⟨by decide, by decide,
    parseDateString_formatDateParts_roundtrip { day := 31, month := 12, year := 1999 }
      2024 2026 (by decide) (by decide) (by decide)⟩

/-! ## Slash dates -/

theorem trim_eq_self {s : JsString} (h : ∀ c ∈ s, isSpace c = false) : trim s = s := by
  have e1 : s.dropWhile isSpace = s := by
    rw [List.dropWhile_eq_self_iff]
    intro hl
    have := h _ (List.getElem_mem hl)
    simpa using this
  unfold trim
  rw [e1, List.rdropWhile_eq_self_iff]
  intro hl
  simp [h _ (List.getLast_mem hl)]

theorem dateSearch_slash {A B rest : JsString} (hA : isShortNumber A) (hB : isShortNumber B)
    (hr : isYearSuffix rest) :
    ∃ g3, dateSearch 47 (A ++ 47 :: (B ++ rest)) = some ⟨A, B, g3⟩ := by
  have hrest : rest = [] ∨ ∃ y, rest = 47 :: y := by
    rcases hr with h | ⟨h, -⟩
    · exact Or.inl h
    · cases rest with
      | nil => exact Or.inl rfl
      | cons c y =>
        simp only [List.head?_cons, Option.some.injEq] at h
        exact Or.inr ⟨y, by rw [h]⟩
  obtain ⟨hAl, hAd⟩ := hA
  obtain ⟨hBl, hBd⟩ := hB
  have n47 : isDigit 47 = false := by decide
  rcases hAl with hAl | hAl <;> rcases hBl with hBl | hBl
  · obtain ⟨a1, rfl⟩ := List.length_eq_one.mp hAl
    obtain ⟨b1, rfl⟩ := List.length_eq_one.mp hBl
    have ha := hAd a1 (by simp)
    have hb := hBd b1 (by simp)
    rcases hrest with rfl | ⟨y, rfl⟩ <;>
      simp [dateSearch, dateMatchAt, takeDigits, afterGroup1, ha, hb, n47]
  · obtain ⟨a1, rfl⟩ := List.length_eq_one.mp hAl
    obtain ⟨b1, b2, rfl⟩ := List.length_eq_two.mp hBl
    have ha := hAd a1 (by simp)
    have hb1 := hBd b1 (by simp)
    have hb2 := hBd b2 (by simp)
    rcases hrest with rfl | ⟨y, rfl⟩ <;>
      simp [dateSearch, dateMatchAt, takeDigits, afterGroup1, ha, hb1, hb2, n47]
  · obtain ⟨a1, a2, rfl⟩ := List.length_eq_two.mp hAl
    obtain ⟨b1, rfl⟩ := List.length_eq_one.mp hBl
    have ha1 := hAd a1 (by simp)
    have ha2 := hAd a2 (by simp)
    have hb := hBd b1 (by simp)
    rcases hrest with rfl | ⟨y, rfl⟩ <;>
      simp [dateSearch, dateMatchAt, takeDigits, afterGroup1, ha1, ha2, hb, n47]
  · obtain ⟨a1, a2, rfl⟩ := List.length_eq_two.mp hAl
    obtain ⟨b1, b2, rfl⟩ := List.length_eq_two.mp hBl
    have ha1 := hAd a1 (by simp)
    have ha2 := hAd a2 (by simp)
    have hb1 := hBd b1 (by simp)
    have hb2 := hBd b2 (by simp)
    rcases hrest with rfl | ⟨y, rfl⟩ <;>
      simp [dateSearch, dateMatchAt, takeDigits, afterGroup1, ha1, ha2, hb1, hb2, n47]

theorem slash_text_no_space {A B rest : JsString} (hA : isShortNumber A) (hB : isShortNumber B)
    (hr : isYearSuffix rest) : ∀ c ∈ A ++ 47 :: (B ++ rest), isSpace c = false := by
  intro c hc
  have h47 : isSpace 47 = false := by decide
  simp only [List.mem_append, List.mem_cons] at hc
  rcases hc with hc | rfl | hc | hc
  · exact isSpace_of_isDigit (hA.2 c hc)
  · exact h47
  · exact isSpace_of_isDigit (hB.2 c hc)
  · cases rest with
    | nil => simp at hc
    | cons c0 y =>
      rcases hr with h | ⟨h, hy⟩
      · simp at h
      · simp only [List.head?_cons, Option.some.injEq] at h
        simp only [List.mem_cons] at hc
        rcases hc with rfl | hc
        · rw [h]; exact h47
        · exact isSpace_of_isDigit (hy c (by simpa using hc))

/-- C2. For a slash date text `a/b` or `a/b/y` (a, b positive numbers of one or two
digits) `parseDateString` returns a date whose day and month are: the component
above 12 as the day and the other as the month when exactly one of them exceeds
12; otherwise day = a and month = b. -/
theorem parseDateString_slash_day_month (A B rest : JsString) (fallbackYear nowYear : Nat)
    (hA : isShortNumber A) (hB : isShortNumber B) (hr : isYearSuffix rest)
    (ha : 0 < parseInt A) (hb : 0 < parseInt B) :
    ∃ q, parseDateString (A ++ 47 :: (B ++ rest)) fallbackYear nowYear = some q ∧
      (12 < parseInt A ∧ parseInt B ≤ 12 → q.day = parseInt A ∧ q.month = parseInt B) ∧
      (12 < parseInt B ∧ parseInt A ≤ 12 → q.day = parseInt B ∧ q.month = parseInt A) ∧
      (¬ (12 < parseInt A ∧ parseInt B ≤ 12) ∧ ¬ (12 < parseInt B ∧ parseInt A ≤ 12) →
        q.day = parseInt A ∧ q.month = parseInt B) := by
  obtain ⟨g3, hs⟩ := dateSearch_slash hA hB hr
  have ht := trim_eq_self (slash_text_no_space hA hB hr)
  have hne : A ++ 47 :: (B ++ rest) ≠ [] := by simp
  have ha0 : parseInt A ≠ 0 := by omega
  have hb0 : parseInt B ≠ 0 := by omega
  by_cases c1 : 12 < parseInt A ∧ parseInt B ≤ 12
  · have c2 : ¬ (12 < parseInt B ∧ parseInt A ≤ 12) := by omega
    cases g3 <;>
      simp [parseDateString, hne, ht, slashBlock, dotBlock, hs, falsy, ha0, hb0, c1, c2]
  · by_cases c2 : 12 < parseInt B ∧ parseInt A ≤ 12
    · cases g3 <;>
        simp [parseDateString, hne, ht, slashBlock, dotBlock, hs, falsy, ha0, hb0, c1, c2]
    · cases g3 <;>
        simp [parseDateString, hne, ht, slashBlock, dotBlock, hs, falsy, ha0, hb0, c1, c2]

theorem parseDateString_slash_day_month_witness :
    (isShortNumber (js "15") ∧ isShortNumber (js "03") ∧ isYearSuffix (js "/2024") ∧
      0 < parseInt (js "15") ∧ 0 < parseInt (js "03") ∧
      ∃ q, parseDateString (js "15/03/2024") 0 2026 = some q ∧ q.day = 15 ∧ q.month = 3) ∧
    (isShortNumber (js "03") ∧ isShortNumber (js "05") ∧ isYearSuffix [] ∧
      0 < parseInt (js "03") ∧ 0 < parseInt (js "05") ∧
      ∃ q, parseDateString (js "03/05") 0 2026 = some q ∧ q.day = 3 ∧ q.month = 5) := by
  refine ⟨⟨by decide, by decide, by decide, by decide, by decide, ?_⟩,
    ⟨by decide, by decide, by decide, by decide, by decide, ?_⟩⟩
  · obtain ⟨q, h1, h2, -, -⟩ := parseDateString_slash_day_month (js "15") (js "03") (js "/2024")
      0 2026 (by decide) (by decide) (by decide) (by decide) (by decide)
    exact ⟨q, h1, h2 (by decide)⟩
  · obtain ⟨q, h1, -, -, h2⟩ := parseDateString_slash_day_month (js "03") (js "05") []
      0 2026 (by decide) (by decide) (by decide) (by decide) (by decide)
    exact ⟨q, h1, h2 (by decide)⟩

/-! ## sanitizeFilename -/

theorem isUsOrSpace_false {c : Nat} (h : isUsOrSpace c = false) : c ≠ 95 ∧ isSpace c = false := by
  simpa [isUsOrSpace] using h

theorem replaceIllegal_mem (s : JsString) : ∀ c ∈ replaceIllegal s, isIllegal c = false := by
  intro c hc
  simp only [replaceIllegal, List.mem_map] at hc
  obtain ⟨x, -, rfl⟩ := hc
  by_cases hx : isIllegal x = true
  · simp only [hx, if_true]; decide
  · simp [hx]

theorem collapseRuns_mem_of (t : JsString) (ht : ∀ c ∈ t, isIllegal c = false) :
    ∀ b, ∀ c ∈ collapseRuns b t, isIllegal c = false ∧ isSpace c = false := by
  have h95 : isIllegal 95 = false ∧ isSpace 95 = false := by decide
  induction t with
  | nil => intro b c hc; simp [collapseRuns] at hc
  | cons x xs ih =>
    have ih1 := ih (fun c hc => ht c (List.mem_cons_of_mem _ hc))
    intro b c hc
    by_cases hx : isUsOrSpace x = true
    · cases b
      · simp only [collapseRuns, hx, if_true, Bool.false_eq_true, if_false] at hc
        rcases List.mem_cons.mp hc with rfl | hc
        · exact h95
        · exact ih1 _ c hc
      · simp only [collapseRuns, hx, if_true] at hc
        exact ih1 _ c hc
    · simp only [collapseRuns, hx, if_false] at hc
      rcases List.mem_cons.mp hc with rfl | hc
      · exact ⟨ht _ (List.mem_cons_self _ _), (isUsOrSpace_false (by simpa using hx)).2⟩
      · exact ih1 _ c hc

theorem collapseRuns_mem (s : JsString) :
    ∀ b, ∀ c ∈ collapseRuns b (replaceIllegal s), isIllegal c = false ∧ isSpace c = false :=
  collapseRuns_mem_of _ (replaceIllegal_mem s)

theorem collapseRuns_chain (s : JsString) :
    (∀ b, NoDoubleUnderscore (collapseRuns b s)) ∧ (collapseRuns true s).head? ≠ some 95 := by
  induction s with
  | nil => simp [collapseRuns, NoDoubleUnderscore]
  | cons x xs ih =>
    obtain ⟨ih1, ih2⟩ := ih
    by_cases hx : isUsOrSpace x = true
    · refine ⟨fun b => ?_, ?_⟩
      · cases b
        · simp only [collapseRuns, hx, if_true, Bool.false_eq_true, if_false]
          refine List.Chain'.cons' (ih1 true) ?_
          intro y hy h
          exact ih2 (by rw [hy, h.2])
        · simpa [collapseRuns, hx] using ih1 true
      · simpa [collapseRuns, hx] using ih2
    · have hx1 : x ≠ 95 := (isUsOrSpace_false (by simpa using hx)).1
      refine ⟨fun b => ?_, ?_⟩
      · simp only [collapseRuns, hx, if_false]
        refine List.Chain'.cons' (ih1 false) ?_
        intro y _ h
        exact hx1 h.1
      · simp [collapseRuns, hx, hx1]

theorem trimUnderscores_clean {s : JsString}
    (h1 : ∀ c ∈ s, isIllegal c = false ∧ isSpace c = false) (h2 : NoDoubleUnderscore s) :
    Clean (trimUnderscores s) := by
  have hpre : trimUnderscores s <+: s.dropWhile (fun c => c == 95) := List.rdropWhile_prefix _ _
  have hsuf : s.dropWhile (fun c => c == 95) <:+ s := List.dropWhile_suffix _
  have hinf : trimUnderscores s <:+: s := hpre.isInfix.trans hsuf.isInfix
  refine ⟨fun c hc => h1 c (hinf.subset hc), h2.infix hinf, ?_, ?_⟩
  · intro hh
    obtain ⟨t, ht⟩ := hpre
    cases hd : trimUnderscores s with
    | nil => rw [hd] at hh; simp at hh
    | cons a l =>
      rw [hd] at hh ht
      simp only [List.head?_cons, Option.some.injEq] at hh
      subst hh
      have hne : s.dropWhile (fun c => c == 95) ≠ [] := by rw [← ht]; simp
      have h0 := List.head_dropWhile_not (fun c => c == 95) s hne
      simp [← ht] at h0
  · intro hh
    have hne : trimUnderscores s ≠ [] := by
      intro e; rw [e] at hh; simp at hh
    have h0 := List.rdropWhile_last_not (fun c => c == 95) (s.dropWhile (fun c => c == 95)) hne
    rw [List.getLast?_eq_getLast _ hne] at hh
    simp only [Option.some.injEq] at hh
    apply h0
    simp only [trimUnderscores] at hh
    simp [hh]

theorem sanitize_core_clean (name : JsString) :
    Clean (trimUnderscores (collapseRuns false (replaceIllegal name))) :=
  trimUnderscores_clean (collapseRuns_mem name false) ((collapseRuns_chain _).1 false)

theorem replaceIllegal_eq_self {s : JsString} (h : ∀ c ∈ s, isIllegal c = false) :
    replaceIllegal s = s := by
  unfold replaceIllegal
  conv_rhs => rw [← List.map_id s]
  apply List.map_congr_left
  intro c hc
  simp [h c hc]

theorem collapseRuns_eq_self (s : JsString) (h1 : ∀ c ∈ s, isSpace c = false)
    (h2 : NoDoubleUnderscore s) :
    collapseRuns false s = s ∧ (s.head? ≠ some 95 → collapseRuns true s = s) := by
  induction s with
  | nil => simp [collapseRuns]
  | cons x xs ih =>
    have hxs : ∀ c ∈ xs, isSpace c = false := fun c hc => h1 c (List.mem_cons_of_mem _ hc)
    have hch : NoDoubleUnderscore xs := List.Chain'.tail (l := x :: xs) h2
    obtain ⟨ih1, ih2⟩ := ih hxs hch
    have hsp : isSpace x = false := h1 x (List.mem_cons_self _ _)
    by_cases hx : x = 95
    · subst hx
      have hhead : xs.head? ≠ some 95 := by
        intro hh
        have := List.Chain'.rel_head? h2 hh
        exact this ⟨rfl, rfl⟩
      refine ⟨?_, fun hh => ?_⟩
      · simp [collapseRuns, isUsOrSpace, ih2 hhead]
      · simp at hh
    · have hcls : isUsOrSpace x = false := by simp [isUsOrSpace, hx, hsp]
      refine ⟨?_, fun _ => ?_⟩ <;> simp [collapseRuns, hcls, ih1]

theorem trimUnderscores_eq_self {s : JsString} (h1 : s.head? ≠ some 95)
    (h2 : s.getLast? ≠ some 95) : trimUnderscores s = s := by
  have e1 : s.dropWhile (fun c => c == 95) = s := by
    rw [List.dropWhile_eq_self_iff]
    intro hl
    cases s with
    | nil => simp at hl
    | cons a l => simpa using h1
  unfold trimUnderscores
  rw [e1, List.rdropWhile_eq_self_iff]
  intro hl
  rw [List.getLast?_eq_getLast _ hl] at h2
  simpa using h2

/-- A non-empty clean name is a fixed point of `sanitizeFilename`. -/
theorem sanitizeFilename_of_clean {s : JsString} (h : Clean s) (hne : s ≠ []) :
    sanitizeFilename s = s := by
  obtain ⟨h1, h2, h3, h4⟩ := h
  simp [sanitizeFilename, orElseStr, hne, replaceIllegal_eq_self (fun c hc => (h1 c hc).1),
    (collapseRuns_eq_self s (fun c hc => (h1 c hc).2) h2).1, trimUnderscores_eq_self h3 h4]

theorem clean_document : Clean (js "document") := by
  refine ⟨by decide, ?_, by decide, by decide⟩
  have e : js "document" = [100, 111, 99, 117, 109, 101, 110, 116] := by decide
  rw [e]
  simp [NoDoubleUnderscore]

/-- The result of `sanitizeFilename` is clean and not empty. -/
theorem sanitizeFilename_clean (name : JsString) :
    Clean (sanitizeFilename name) ∧ sanitizeFilename name ≠ [] := by
  unfold sanitizeFilename
  generalize orElseStr name (js "download") = n
  have hc := sanitize_core_clean n
  by_cases he : trimUnderscores (collapseRuns false (replaceIllegal n)) = []
  · simp only [orElseStr, he, if_true]
    exact ⟨clean_document, by decide⟩
  · simp only [orElseStr, he, if_false]
    exact ⟨hc, he⟩

/-- C3. `sanitizeFilename` is idempotent on every input string, the empty one
included. -/
theorem sanitizeFilename_idempotent (x : JsString) :
    sanitizeFilename (sanitizeFilename x) = sanitizeFilename x :=
  sanitizeFilename_of_clean (sanitizeFilename_clean x).1 (sanitizeFilename_clean x).2

/-- C4. The output of `sanitizeFilename` contains none of `< > : " / \ | ? *`, no
control character (0x00..0x1F) and no whitespace, has no two consecutive
underscores and neither starts nor ends with an underscore. -/
theorem sanitizeFilename_output_safe (name : JsString) :
    (∀ c ∈ sanitizeFilename name,
      c ∉ [60, 62, 58, 34, 47, 92, 124, 63, 42] ∧ 31 < c ∧ isSpace c = false) ∧
    ¬ ([95, 95] <:+: sanitizeFilename name) ∧
    (sanitizeFilename name).head? ≠ some 95 ∧ (sanitizeFilename name).getLast? ≠ some 95 := by
  obtain ⟨⟨h1, h2, h3, h4⟩, -⟩ := sanitizeFilename_clean name
  refine ⟨fun c hc => ?_, fun hinf => ?_, h3, h4⟩
  · obtain ⟨hi, hs⟩ := h1 c hc
    refine ⟨?_, ?_, hs⟩
    · simp only [isIllegal, Bool.or_eq_false_iff, beq_eq_false_iff_ne, ne_eq,
        decide_eq_false_iff_not] at hi
      simp only [List.mem_cons, List.mem_singleton, List.not_mem_nil, or_false, not_or]
      omega
    · simp only [isIllegal, Bool.or_eq_false_iff, decide_eq_false_iff_not] at hi
      omega
  · have hch : List.Chain' (fun a b => ¬ (a = 95 ∧ b = 95)) [95, 95] := h2.infix hinf
    simp at hch

/-! ## Range resolution -/

theorem parseInputDate_field (today : Int) (nowYear : Nat) (val : JsString) (b1 b2 : Bool) :
    (parseInputDate today nowYear val b1).date = (parseInputDate today nowYear val b2).date ∧
    (parseInputDate today nowYear val b1).invalid = (parseInputDate today nowYear val b2).invalid := by
  unfold parseInputDate
  simp only
  split
  · exact ⟨rfl, rfl⟩
  · split
    · exact ⟨rfl, rfl⟩
    · split <;> exact ⟨rfl, rfl⟩

theorem parseInputDate_valid_of_date {today : Int} {nowYear : Nat} {val : JsString} {b : Bool}
    {d : Int} (h : (parseInputDate today nowYear val b).date = some d) :
    (parseInputDate today nowYear val b).invalid = false := by
  unfold parseInputDate at h ⊢
  simp only at h ⊢
  split
  · rfl
  · rename_i c1
    split
    · rfl
    · rename_i c2
      split
      · rename_i hp
        simp [hp, c1, c2] at h
      · rfl

/-- C5. Range resolution does not depend on the field a date was typed into: when
the "from" text gives the date `a` and the "to" text gives the date `b`, both
orders of the two texts resolve to the lower bound `min a b` and the upper bound
`max a b`, and the lower bound is at most the upper one. -/
theorem resolveRange_order_independent (today : Int) (nowYear : Nat) (A B : JsString) (a b : Int)
    (hA : (parseInputDate today nowYear A true).date = some a)
    (hB : (parseInputDate today nowYear B false).date = some b) :
    ∃ r1 r2, resolveRange today nowYear A B = some r1 ∧ resolveRange today nowYear B A = some r2 ∧
      r1.lowerDate = some (min a b) ∧ r1.upperDate = some (max a b) ∧
      r2.lowerDate = r1.lowerDate ∧ r2.upperDate = r1.upperDate ∧ min a b ≤ max a b := by
  have hA2 : (parseInputDate today nowYear A false).date = some a :=
    ((parseInputDate_field today nowYear A false true).1).trans hA
  have hB2 : (parseInputDate today nowYear B true).date = some b :=
    ((parseInputDate_field today nowYear B true false).1).trans hB
  have vA := parseInputDate_valid_of_date hA
  have vB := parseInputDate_valid_of_date hB
  have vA2 := parseInputDate_valid_of_date hA2
  have vB2 := parseInputDate_valid_of_date hB2
  simp only [resolveRange, vA, vB, vA2, vB2, Bool.or_self, Bool.false_eq_true, if_false,
    orderBounds, hA, hB, hA2, hB2]
  rcases lt_trichotomy a b with h | h | h
  · have h1 : a ≤ b := le_of_lt h
    have h2 : ¬ b ≤ a := not_le.mpr h
    simp [h1, h2]
  · subst h
    simp
  · have h1 : ¬ a ≤ b := not_le.mpr h
    have h2 : b ≤ a := le_of_lt h
    simp [h1, h2]

theorem resolveRange_order_independent_witness :
    (parseInputDate 20000 2026 (js "01.01.2024") true).date = some (jsDate 2024 1 1) ∧
    (parseInputDate 20000 2026 (js "01.06.2023") false).date = some (jsDate 2023 6 1) ∧
    ∃ r1 r2, resolveRange 20000 2026 (js "01.01.2024") (js "01.06.2023") = some r1 ∧
      resolveRange 20000 2026 (js "01.06.2023") (js "01.01.2024") = some r2 ∧
      r1.lowerDate = some (min (jsDate 2024 1 1) (jsDate 2023 6 1)) ∧
      r1.upperDate = some (max (jsDate 2024 1 1) (jsDate 2023 6 1)) ∧
      r2.lowerDate = r1.lowerDate ∧ r2.upperDate = r1.upperDate ∧
      min (jsDate 2024 1 1) (jsDate 2023 6 1) ≤ max (jsDate 2024 1 1) (jsDate 2023 6 1) :=
  ⟨by decide, by decide,
    resolveRange_order_independent 20000 2026 (js "01.01.2024") (js "01.06.2023")
      (jsDate 2024 1 1) (jsDate 2023 6 1) (by decide) (by decide)⟩

/-! ## The run loop -/

theorem openedItems_append (a b : List Event) :
    openedItems (a ++ b) = openedItems a ++ openedItems b := by
  simp [openedItems, List.filterMap_append]

theorem clickedDocs_append (a b : List Event) :
    clickedDocs (a ++ b) = clickedDocs a ++ clickedDocs b := by
  simp [clickedDocs, List.filterMap_append]

theorem openedItems_nil : openedItems [] = [] := rfl

theorem openedItems_status (s : Status) (l : List Event) :
    openedItems (Event.status s :: l) = openedItems l := rfl

theorem openedItems_openItem (i : Nat) (l : List Event) :
    openedItems (Event.openItem i :: l) = i :: openedItems l := rfl

theorem openedItems_closeOverlay (i : Nat) (l : List Event) :
    openedItems (Event.closeOverlay i :: l) = openedItems l := rfl

theorem clickedDocs_nil : clickedDocs [] = [] := rfl

theorem clickedDocs_status (s : Status) (l : List Event) :
    clickedDocs (Event.status s :: l) = clickedDocs l := rfl

theorem clickedDocs_openItem (i : Nat) (l : List Event) :
    clickedDocs (Event.openItem i :: l) = clickedDocs l := rfl

theorem clickedDocs_closeOverlay (i : Nat) (l : List Event) :
    clickedDocs (Event.closeOverlay i :: l) = clickedDocs l := rfl

theorem openedItems_docClicks (i n : Nat) : openedItems (docClicks i n) = [] := by
  simp [openedItems, docClicks, List.filterMap_map]

theorem clickedDocs_docClicks (i n : Nat) : ∀ x ∈ clickedDocs (docClicks i n), x.1 = i := by
  intro x hx
  simp only [clickedDocs, docClicks, List.filterMap_map, List.mem_filterMap, List.mem_range,
    Function.comp] at hx
  obtain ⟨k, -, hk⟩ := hx
  simp only [Option.some.injEq] at hk
  rw [← hk]

theorem decide_lt_int (a b : Int) : decide (a < b) = !decide (b ≤ a) := by
  by_cases h : a < b
  · simp [h, not_le.mpr h]
  · simp [h, not_lt.mp h]

theorem outsideRange_some (r : RunRange) (d : Int) :
    outsideRange r (some d) = !withinBounds r d := by
  cases hl : r.lowerDate <;> cases hu : r.upperDate <;>
    simp [outsideRange, withinBounds, hl, hu, Option.all, decide_lt_int]

theorem runLoop_opened (env : RunEnv) (r : RunRange) (endIdx : Nat)
    (hstop : ∀ i, env.stopFlagAt i = false) (hsess : ∀ i, env.sessionOk i = true)
    (items : List TimelineItem) (hres : ∀ it ∈ items, (itemDateObj env.nowYear it).isSome = true) :
    ∀ k m, openedItems (runLoop env r endIdx k items m).events
      = rowsWithinBounds env.nowYear r k items := by
  induction items with
  | nil => intro k m; simp [runLoop, openedItems, rowsWithinBounds]
  | cons it rest ih =>
    intro k m
    have ih1 := ih (fun x hx => hres x (List.mem_cons_of_mem _ hx))
    obtain ⟨d, hd⟩ := Option.isSome_iff_exists.mp (hres it (List.mem_cons_self _ _))
    have ht : rowsWithinBounds env.nowYear r k (it :: rest) =
        (if withinBounds r d = true then [k] else []) ++ rowsWithinBounds env.nowYear r (k + 1) rest := by
      by_cases hw : withinBounds r d = true <;>
        simp [rowsWithinBounds, List.enumFrom, List.filter_cons, hd, hw]
    rw [ht]
    by_cases hw : withinBounds r d = true
    · by_cases ho : env.overlayVisible k = true
      · simp [runLoop, hstop, hsess, hd, outsideRange_some, hw, ho, LoopResult.after,
          openedItems_append, openedItems_docClicks, ih1, openedItems_status,
          openedItems_openItem, openedItems_closeOverlay, openedItems_nil]
      · simp [runLoop, hstop, hsess, hd, outsideRange_some, hw, ho, LoopResult.after,
          openedItems_append, ih1, openedItems_status, openedItems_openItem, openedItems_nil]
    · simp [runLoop, hstop, hsess, hd, outsideRange_some, hw, ih1]

theorem mem_rowsWithinBounds (nowYear : Nat) (r : RunRange) (items : List TimelineItem) (i : Nat) :
    i ∈ rowsWithinBounds nowYear r 0 items ↔
      ∃ it d, items[i]? = some it ∧ itemDateObj nowYear it = some d ∧
        (∀ l, r.lowerDate = some l → l ≤ d) ∧ (∀ u, r.upperDate = some u → d ≤ u) := by
  have hw : ∀ d, withinBounds r d = true ↔
      (∀ l, r.lowerDate = some l → l ≤ d) ∧ (∀ u, r.upperDate = some u → d ≤ u) := by
    intro d
    cases hl : r.lowerDate <;> cases hu : r.upperDate <;> simp [withinBounds, hl, hu, Option.all]
  have ha : ∀ o : Option Int, o.any (withinBounds r) = true ↔
      ∃ d, o = some d ∧ withinBounds r d = true := by
    intro o
    cases o <;> simp [Option.any]
  simp only [rowsWithinBounds, List.mem_map, List.mem_filter, Prod.exists, exists_and_right,
    exists_eq_right, ha]
  constructor
  · rintro ⟨it, hmem, d, hd, hwd⟩
    exact ⟨it, d, List.mk_mem_enum_iff_getElem?.mp hmem, hd, (hw d).mp hwd⟩
  · rintro ⟨it, d, hget, hd, hb⟩
    exact ⟨it, List.mk_mem_enum_iff_getElem?.mpr hget, d, hd, (hw d).mpr hb⟩

/-- C6. With no stop request and a session that holds, on rows whose dates all
resolve the loop calls `openItemOverlay` exactly on the rows whose date `d`
satisfies `lowerDate <= d <= upperDate` (each bound only when present, both ends
inclusive), in list order and once each; no other row is opened. -/
theorem runLoop_opens_exactly_rows_in_range (env : RunEnv) (r : RunRange) (endIdx : Nat)
    (items : List TimelineItem)
    (hstop : ∀ i, env.stopFlagAt i = false) (hsess : ∀ i, env.sessionOk i = true)
    (hres : ∀ it ∈ items, (itemDateObj env.nowYear it).isSome = true) :
    openedItems (runLoop env r endIdx 0 items 0).events = rowsWithinBounds env.nowYear r 0 items ∧
    ∀ i, i ∈ openedItems (runLoop env r endIdx 0 items 0).events ↔
      ∃ it d, items[i]? = some it ∧ itemDateObj env.nowYear it = some d ∧
        (∀ l, r.lowerDate = some l → l ≤ d) ∧ (∀ u, r.upperDate = some u → d ≤ u) := by
  have h := runLoop_opened env r endIdx hstop hsess items hres 0 0
  refine ⟨h, fun i => ?_⟩
  rw [h]
  exact mem_rowsWithinBounds env.nowYear r items i

theorem runLoop_opens_exactly_rows_in_range_witness :
    (∀ i, (pageEnv fiveItems none).stopFlagAt i = false) ∧
    (∀ i, (pageEnv fiveItems none).sessionOk i = true) ∧
    (∀ it ∈ fiveItems, (itemDateObj (pageEnv fiveItems none).nowYear it).isSome = true) ∧
    openedItems (runLoop (pageEnv fiveItems none)
      { lowerDate := some (jsDate 2024 1 2), upperDate := some (jsDate 2024 1 4) } 4 0 fiveItems
      0).events = [1, 2, 3] :=
  ⟨fun _ => rfl, fun _ => rfl, by decide,
    (runLoop_opens_exactly_rows_in_range (pageEnv fiveItems none)
      { lowerDate := some (jsDate 2024 1 2), upperDate := some (jsDate 2024 1 4) } 4 fiveItems
      (fun _ => rfl) (fun _ => rfl) (by decide)).1.trans (by decide)⟩

theorem runLoop_session_lost (env : RunEnv) (r : RunRange) (endIdx i : Nat)
    (hlost : env.sessionOk i = false) (items : List TimelineItem) :
    ∀ k m, k ≤ i → i < k + items.length →
      (∀ j, k ≤ j → j ≤ i → env.stopFlagAt j = false) →
      (∀ j, k ≤ j → j < i → env.sessionOk j = true) →
      ∃ pre, (runLoop env r endIdx k items m).events
          = pre ++ [Event.status (Status.sessionLost i endIdx)] ∧
        (runLoop env r endIdx k items m).stopFlag = true ∧
        (∀ j ∈ openedItems pre, j < i) ∧ (∀ x ∈ clickedDocs pre, x.1 < i) := by
  induction items with
  | nil => intro k m h1 h2; simp at h2; omega
  | cons it rest ih =>
    intro k m h1 h2 hstop hsess
    have hs0 : env.stopFlagAt k = false := hstop k (le_refl _) h1
    rcases Nat.eq_or_lt_of_le h1 with rfl | hlt
    · refine ⟨[], ?_, ?_, ?_, ?_⟩ <;> simp [runLoop, hs0, hlost, openedItems_nil, clickedDocs_nil]
    · have hk : env.sessionOk k = true := hsess k (le_refl _) hlt
      have hlen : i < k + 1 + rest.length := by simp at h2; omega
      have ih1 := fun m => ih (k + 1) m hlt hlen
        (fun j hj1 hj2 => hstop j (by omega) hj2) (fun j hj1 hj2 => hsess j (by omega) hj2)
      by_cases hout : outsideRange r (itemDateObj env.nowYear it) = true
      · obtain ⟨pre, e1, e2, e3, e4⟩ := ih1 m
        exact ⟨pre, by simp [runLoop, hs0, hk, hout, e1], by simp [runLoop, hs0, hk, hout, e2], e3, e4⟩
      · obtain ⟨pre, e1, e2, e3, e4⟩ := ih1 (m + 1)
        by_cases ho : env.overlayVisible k = true
        · refine ⟨[Event.status (Status.openItem k endIdx), Event.openItem k,
              Event.status (Status.openDocs k endIdx)] ++ docClicks k (env.docCount k) ++
              [Event.status (Status.closeOverlay k endIdx), Event.closeOverlay k,
               Event.status (Status.doneItem k endIdx (env.docCount k))] ++ pre, ?_, ?_, ?_, ?_⟩
          · simp [runLoop, hs0, hk, hout, ho, LoopResult.after, e1]
          · simp [runLoop, hs0, hk, hout, ho, LoopResult.after, e2]
          · intro j hj
            simp only [openedItems_append, openedItems_status, openedItems_openItem,
              openedItems_closeOverlay, openedItems_docClicks, openedItems_nil, List.mem_append,
              List.mem_cons, List.not_mem_nil, or_false, false_or] at hj
            rcases hj with rfl | hj
            · exact hlt
            · exact e3 j hj
          · intro x hx
            simp only [clickedDocs_append, clickedDocs_status, clickedDocs_openItem,
              clickedDocs_closeOverlay, clickedDocs_nil, List.mem_append, List.not_mem_nil,
              or_false, false_or] at hx
            rcases hx with hx | hx
            · rw [clickedDocs_docClicks k _ x hx]; exact hlt
            · exact e4 x hx
        · refine ⟨[Event.status (Status.openItem k endIdx), Event.openItem k,
              Event.status (Status.noOverlay k endIdx)] ++ pre, ?_, ?_, ?_, ?_⟩
          · simp [runLoop, hs0, hk, hout, ho, LoopResult.after, e1]
          · simp [runLoop, hs0, hk, hout, ho, LoopResult.after, e2]
          · intro j hj
            simp only [openedItems_append, openedItems_status, openedItems_openItem,
              openedItems_nil, List.mem_append, List.mem_cons, List.not_mem_nil, or_false,
              false_or] at hj
            rcases hj with rfl | hj
            · exact hlt
            · exact e3 j hj
          · intro x hx
            simp only [clickedDocs_append, clickedDocs_status, clickedDocs_openItem,
              clickedDocs_nil, List.mem_append, List.not_mem_nil, false_or] at hx
            exact e4 x hx

/-- C7. If `checkSession()` first returns false at the top of iteration `i`, the
loop halts there: the session-lost status is its last event, the stop flag is
set, and every item opened and every document clicked has an index below `i`. -/
theorem runLoop_halts_on_session_loss (env : RunEnv) (r : RunRange) (endIdx i : Nat)
    (items : List TimelineItem) (hi : i < items.length)
    (hstop : ∀ j, j ≤ i → env.stopFlagAt j = false)
    (hsess : ∀ j, j < i → env.sessionOk j = true) (hlost : env.sessionOk i = false) :
    ∃ pre, (runLoop env r endIdx 0 items 0).events
        = pre ++ [Event.status (Status.sessionLost i endIdx)] ∧
      (runLoop env r endIdx 0 items 0).stopFlag = true ∧
      (∀ j ∈ openedItems (runLoop env r endIdx 0 items 0).events, j < i) ∧
      (∀ x ∈ clickedDocs (runLoop env r endIdx 0 items 0).events, x.1 < i) := by
  obtain ⟨pre, e1, e2, e3, e4⟩ := runLoop_session_lost env r endIdx i hlost items 0 0
    (Nat.zero_le _) (by omega) (fun j _ h => hstop j h) (fun j _ h => hsess j h)
  refine ⟨pre, e1, e2, ?_, ?_⟩
  · intro j hj
    rw [e1, openedItems_append, openedItems_status, openedItems_nil, List.append_nil] at hj
    exact e3 j hj
  · intro x hx
    rw [e1, clickedDocs_append, clickedDocs_status, clickedDocs_nil, List.append_nil] at hx
    exact e4 x hx

theorem runLoop_halts_on_session_loss_witness :
    (3 < tenItems.length ∧ (∀ j, j ≤ 3 → (pageEnv tenItems (some 3)).stopFlagAt j = false) ∧
      (∀ j, j < 3 → (pageEnv tenItems (some 3)).sessionOk j = true) ∧
      (pageEnv tenItems (some 3)).sessionOk 3 = false) ∧
    (∃ pre, (runLoop (pageEnv tenItems (some 3)) {} 9 0 tenItems 0).events
        = pre ++ [Event.status (Status.sessionLost 3 9)] ∧
      (runLoop (pageEnv tenItems (some 3)) {} 9 0 tenItems 0).stopFlag = true ∧
      (∀ j ∈ openedItems (runLoop (pageEnv tenItems (some 3)) {} 9 0 tenItems 0).events, j < 3) ∧
      (∀ x ∈ clickedDocs (runLoop (pageEnv tenItems (some 3)) {} 9 0 tenItems 0).events, x.1 < 3)) ∧
    openedItems (runLoop (pageEnv tenItems (some 3)) {} 9 0 tenItems 0).events = [0, 1, 2] :=
  ⟨⟨by decide, fun _ _ => rfl, fun j hj => by simp [pageEnv, hj], by decide⟩,
    runLoop_halts_on_session_loss (pageEnv tenItems (some 3)) {} 9 3 tenItems (by decide)
      (fun _ _ => rfl) (fun j hj => by simp [pageEnv, hj]) (by decide), by decide⟩

theorem lastStatus_append_status (evs : List Event) (st : Status) :
    lastStatus (evs ++ [Event.status st]) = some st := by
  simp [lastStatus, List.filterMap_append]

/-- Whenever the loop is left with the stop flag set, which is how a lost session
leaves it, the status `run` ends with is `aborted`. -/
theorem run_last_status_of_stopFlag (env : RunEnv) (fromVal toVal : JsString) (r : RunRange)
    (hr : resolveRange env.today env.nowYear fromVal toVal = some r) (hne : env.items ≠ [])
    (hstop : (runLoop env r (env.items.length - 1) 0 env.items 0).stopFlag = true) :
    lastStatus (run env fromVal toVal) = some Status.aborted := by
  unfold resolveRange at hr
  simp only at hr
  split at hr
  · simp at hr
  · rename_i hv
    simp only [Option.some.injEq] at hr
    have hfin : finalStatus (runLoop env r (env.items.length - 1) 0 env.items 0)
        = Status.aborted := by
      simp [finalStatus, hstop]
    unfold run
    simp only [hv, if_false, hne, hr]
    rw [hfin]
    exact lastStatus_append_status _ _

/-- C8 (evaluation). Session lost at index 3 of 10 items: the session-lost status
is set, but the status the run ends with is `aborted`. -/
theorem run_session_lost_last_status :
    Event.status (Status.sessionLost 3 9) ∈ run (pageEnv tenItems (some 3)) (js "Anfang") (js "Heute") ∧
    lastStatus (run (pageEnv tenItems (some 3)) (js "Anfang") (js "Heute")) = some Status.aborted ∧
    lastStatus (run (pageEnv tenItems (some 3)) (js "Anfang") (js "Heute"))
      ≠ some (Status.sessionLost 3 9) := by
  decide

/-! ## formatDateParts: separators -/

theorem collapseSeps_cons_cons (c d : Nat) (r : JsString) :
    collapseSeps (c :: d :: r) =
      if (isSep c && isSep d) = true then collapseSeps (d :: r) else c :: collapseSeps (d :: r) := by
  simp [collapseSeps]

/-- The first code unit of the collapsed text is a separator exactly when the
first code unit of the text is one. -/
theorem collapseSeps_head (s : JsString) :
    ∀ y, (collapseSeps s).head? = some y → ∃ x, s.head? = some x ∧ isSep y = isSep x := by
  induction s with
  | nil => intro y hy; simp [collapseSeps] at hy
  | cons c t ih =>
    cases t with
    | nil => intro y hy; exact ⟨c, rfl, by simp [collapseSeps] at hy; rw [hy]⟩
    | cons d r =>
      intro y hy
      rw [collapseSeps_cons_cons] at hy
      by_cases h : (isSep c && isSep d) = true
      · rw [if_pos h] at hy
        obtain ⟨x, hx, e⟩ := ih y hy
        simp only [List.head?_cons, Option.some.injEq] at hx
        subst hx
        simp only [Bool.and_eq_true] at h
        exact ⟨c, rfl, by rw [e, h.1, h.2]⟩
      · rw [if_neg h] at hy
        simp only [List.head?_cons, Option.some.injEq] at hy
        exact ⟨c, rfl, by rw [hy]⟩

theorem collapseSeps_noDoubleSep (s : JsString) : NoDoubleSep (collapseSeps s) := by
  induction s with
  | nil => simp [collapseSeps, NoDoubleSep]
  | cons c t ih =>
    cases t with
    | nil => simp [collapseSeps, NoDoubleSep]
    | cons d r =>
      rw [collapseSeps_cons_cons]
      by_cases h : (isSep c && isSep d) = true
      · rw [if_pos h]; exact ih
      · rw [if_neg h]
        refine List.Chain'.cons' ih ?_
        intro y hy hcy
        obtain ⟨x, hx, e⟩ := collapseSeps_head (d :: r) y hy
        simp only [List.head?_cons, Option.some.injEq] at hx
        subst hx
        apply h
        simp only [Bool.and_eq_true]
        exact ⟨hcy.1, by rw [← e]; exact hcy.2⟩

/-- Collapsing works on both sides of a code unit that is not a separator. -/
theorem collapseSeps_append_of_not_sep (A B : JsString) (x : Nat) (hx : isSep x = false) :
    collapseSeps (A ++ x :: B) = collapseSeps (A ++ [x]) ++ collapseSeps B := by
  induction A with
  | nil =>
    cases B with
    | nil => simp [collapseSeps]
    | cons d r => simp [collapseSeps, hx]
  | cons a A1 ih =>
    cases A1 with
    | nil =>
      simp only [List.cons_append, List.nil_append] at ih ⊢
      rw [collapseSeps_cons_cons, collapseSeps_cons_cons, ih]
      simp [hx, collapseSeps]
    | cons d A2 =>
      simp only [List.cons_append] at ih ⊢
      rw [collapseSeps_cons_cons, collapseSeps_cons_cons a d, ih]
      split <;> simp

theorem toDecCore_suffix (fuel n : Nat) (acc : JsString) :
    ∃ pre, toDecCore fuel n acc = pre ++ acc := by
  induction fuel generalizing n acc with
  | zero => exact ⟨[], rfl⟩
  | succ f ih =>
    by_cases h : n < 10
    · exact ⟨[48 + n], by simp [toDecCore, h]⟩
    · obtain ⟨pre, hp⟩ := ih (n / 10) ((48 + n % 10) :: acc)
      exact ⟨pre ++ [48 + n % 10], by simp [toDecCore, h, hp]⟩

/-- The decimal string of a number ends with its last digit. -/
theorem numToString_last (n : Nat) : ∃ pre, numToString n = pre ++ [48 + n % 10] := by
  unfold numToString
  by_cases h : n < 10
  · exact ⟨[], by simp [toDecCore, h, Nat.mod_eq_of_lt h]⟩
  · obtain ⟨pre, hp⟩ := toDecCore_suffix n (n / 10) [48 + n % 10]
    exact ⟨pre, by simp [toDecCore, h, hp]⟩

theorem pad_last (n : Nat) : ∃ pre, pad n = pre ++ [48 + n % 10] := by
  obtain ⟨pre, hp⟩ := numToString_last n
  exact ⟨List.replicate (2 - (numToString n).length) 48 ++ pre, by simp [pad, padStart2, hp]⟩

theorem js_iso_format : js "YYYY-MM-DD" = [89, 89, 89, 89, 45, 77, 77, 45, 68, 68] := by decide

theorem js_iso_time_format :
    js "YYYY-MM-DD_hhmm" = [89, 89, 89, 89, 45, 77, 77, 45, 68, 68, 95, 104, 104, 109, 109] := by
  decide

/-- Without hour and minute the default format gives what `YYYY-MM-DD` gives. -/
theorem formatDateParts_no_time (p : DateParts) (hh : p.hour = none) (hm : p.minute = none) :
    formatDateParts (some p) (js "YYYY-MM-DD_hhmm") = formatDateParts (some p) (js "YYYY-MM-DD") := by
  obtain ⟨pre, hp⟩ := pad_last p.day
  have hx : isSep (48 + p.day % 10) = false :=
    isSep_of_isDigit (isDigit_add (Nat.mod_lt _ (by decide)))
  have e1 : replaceTokens p [89, 89, 89, 89, 45, 77, 77, 45, 68, 68, 95, 104, 104, 109, 109] =
      (numToString p.year ++ 45 :: (pad p.month ++ 45 :: pre)) ++ (48 + p.day % 10) :: [95] := by
    simp [replaceTokens, hh, hm, hp]
  have e2 : replaceTokens p [89, 89, 89, 89, 45, 77, 77, 45, 68, 68] =
      (numToString p.year ++ 45 :: (pad p.month ++ 45 :: pre)) ++ [48 + p.day % 10] := by
    simp [replaceTokens, hp]
  have e3 : collapseSeps [95] = [95] := rfl
  have h95 : isSep 95 = true := by decide
  simp only [formatDateParts, js_iso_time_format, js_iso_format, e1, e2, stripTrailingSeps]
  rw [collapseSeps_append_of_not_sep _ [95] _ hx, e3, List.rdropWhile_concat, if_pos h95]

/-- C10. For every `DateParts` and every format string the output of
`formatDateParts` has no two consecutive separators of `.`, `_`, `-` and does not
end with such a separator; and for parts without hour and minute the format
`YYYY-MM-DD_hhmm` yields the same string as `YYYY-MM-DD`. -/
theorem formatDateParts_separators (p : DateParts) (format : JsString) :
    NoDoubleSep (formatDateParts (some p) format) ∧
    (∀ a b, ¬ ([a, b] <:+: formatDateParts (some p) format ∧ isSep a = true ∧ isSep b = true)) ∧
    (∀ c, (formatDateParts (some p) format).getLast? = some c → isSep c = false) ∧
    (p.hour = none ∧ p.minute = none →
      formatDateParts (some p) (js "YYYY-MM-DD_hhmm") = formatDateParts (some p) (js "YYYY-MM-DD")) := by
  have hpre : formatDateParts (some p) format <+: collapseSeps (replaceTokens p format) :=
    List.rdropWhile_prefix _ _
  have hch : NoDoubleSep (formatDateParts (some p) format) :=
    List.Chain'.infix (collapseSeps_noDoubleSep _) hpre.isInfix
  refine ⟨hch, ?_, ?_, fun h => formatDateParts_no_time p h.1 h.2⟩
  · rintro a b ⟨hinf, ha, hb⟩
    have h2 : List.Chain' (fun a b => ¬ (isSep a = true ∧ isSep b = true)) [a, b] :=
      List.Chain'.infix hch hinf
    simp only [List.chain'_cons, List.chain'_singleton, and_true] at h2
    exact h2 ⟨ha, hb⟩
  · intro c hc
    have hne : formatDateParts (some p) format ≠ [] := by
      intro e; rw [e] at hc; simp at hc
    rw [List.getLast?_eq_getLast _ hne] at hc
    simp only [Option.some.injEq] at hc
    have h0 := List.rdropWhile_last_not isSep (collapseSeps (replaceTokens p format)) hne
    have h1 : (formatDateParts (some p) format).getLast hne = c := hc
    simp only [formatDateParts, stripTrailingSeps] at h1
    rw [h1] at h0
    simpa using h0

theorem formatDateParts_separators_witness :
    ((({ day := 5, month := 3, year := 2024 } : DateParts).hour = none) ∧
      (({ day := 5, month := 3, year := 2024 } : DateParts).minute = none)) ∧
    formatDateParts (some { day := 5, month := 3, year := 2024 }) (js "YYYY-MM-DD_hhmm")
        = formatDateParts (some { day := 5, month := 3, year := 2024 }) (js "YYYY-MM-DD") ∧
    formatDateParts (some { day := 5, month := 3, year := 2024 }) (js "YYYY-MM-DD") = js "2024-03-05" :=
  ⟨⟨rfl, rfl⟩,
    (formatDateParts_separators { day := 5, month := 3, year := 2024 } []).2.2.2 ⟨rfl, rfl⟩,
    by decide⟩

/-! ## downloadTracker -/

theorem trackerInv_init : TrackerInv TrackerState.init := by
  simp [TrackerInv, TrackerState.init]

theorem clearTimerIfSet_live {s : TrackerState} (h : TrackerInv s) :
    (clearTimerIfSet s).liveTimers = [] ∧ (clearTimerIfSet s).nextTimerId = s.nextTimerId := by
  obtain ⟨h1, h2, -⟩ := h
  cases ht : s.timer with
  | none => simp [clearTimerIfSet, ht, h1]
  | some t =>
    have h0 := (h2 t ht).1
    simp [clearTimerIfSet, ht, h1, h0]

theorem trackerInv_step {s : TrackerState} (h : TrackerInv s) (e : TrackerEvent) :
    TrackerInv (trackerStep s e) := by
  have hn := h.2.2
  cases e with
  | set m =>
    have hc := clearTimerIfSet_live (s := { s with pending := some m }) h
    refine ⟨?_, ?_, ?_⟩
    · simp [trackerStep, downloadTracker.set, hc.1]
    · intro t ht
      simp only [trackerStep, downloadTracker.set, Option.some.injEq] at ht
      rw [hc.2] at ht
      subst ht
      refine ⟨by simp only [ne_eq]; omega, ?_⟩
      simp [trackerStep, downloadTracker.set, hc.2]
    · simp [trackerStep, downloadTracker.set]
  | consume =>
    have hc := clearTimerIfSet_live (s := { s with pending := none }) h
    refine ⟨?_, ?_, ?_⟩
    · simp [trackerStep, downloadTracker.consume, closePendingPopups, hc.1]
    · intro t ht
      simp [trackerStep, downloadTracker.consume, closePendingPopups] at ht
    · simpa [trackerStep, downloadTracker.consume, closePendingPopups, hc.2] using hn
  | timeout t =>
    by_cases hm : t ∈ s.liveTimers
    · have h1 := h.1
      cases ht : s.timer with
      | none => rw [h1, ht] at hm; simp at hm
      | some t0 =>
        rw [h1, ht] at hm
        simp only [Option.toList_some, List.mem_singleton] at hm
        subst hm
        refine ⟨?_, ?_, ?_⟩
        · simp [trackerStep, h1, ht, trackerTimeout, closePendingPopups]
        · intro t1 ht1
          simp [trackerStep, h1, ht, trackerTimeout, closePendingPopups] at ht1
        · simpa [trackerStep, h1, ht, trackerTimeout, closePendingPopups] using hn
    · simpa [trackerStep, hm] using h

theorem trackerInv_foldl (evs : List TrackerEvent) :
    ∀ s, TrackerInv s → TrackerInv (evs.foldl trackerStep s) := by
  induction evs with
  | nil => intro s h; exact h
  | cons e es ih => intro s h; exact ih _ (trackerInv_step h e)

/-- C9. In every state reached by a sequence of set / consume / timeout events the
tracker holds at most one pending record and at most one live expiry timer, the
live timer is the one started by the most recent `set`, and a `set` replaces the
record: `peek` and the next `consume` return the record just set. -/
theorem downloadTracker_single_slot (evs : List TrackerEvent) :
    (trackerRun evs).pending.toList.length ≤ 1 ∧
    (trackerRun evs).liveTimers.length ≤ 1 ∧
    (∀ t ∈ (trackerRun evs).liveTimers,
      (trackerRun evs).timer = some t ∧ (trackerRun evs).lastStarted = some t) ∧
    (∀ m, downloadTracker.peek (trackerStep (trackerRun evs) (TrackerEvent.set m)) = some m ∧
      (downloadTracker.consume (trackerStep (trackerRun evs) (TrackerEvent.set m))).1 = some m ∧
      (trackerStep (trackerRun evs) (TrackerEvent.set m)).liveTimers
        = [(trackerRun evs).nextTimerId]) := by
  have h : TrackerInv (trackerRun evs) := trackerInv_foldl evs _ trackerInv_init
  obtain ⟨h1, h2, h3⟩ := h
  refine ⟨?_, ?_, ?_, ?_⟩
  · cases (trackerRun evs).pending <;> simp
  · rw [h1]; cases (trackerRun evs).timer <;> simp
  · intro t ht
    rw [h1] at ht
    cases hti : (trackerRun evs).timer with
    | none => rw [hti] at ht; simp at ht
    | some t0 =>
      rw [hti] at ht
      simp only [Option.toList_some, List.mem_singleton] at ht
      subst ht
      exact ⟨rfl, (h2 t hti).2⟩
  · intro m
    have hc := clearTimerIfSet_live (s := { trackerRun evs with pending := some m }) ⟨h1, h2, h3⟩
    refine ⟨?_, ?_, ?_⟩
    · simp only [downloadTracker.peek, trackerStep, downloadTracker.set]
      cases hti : (trackerRun evs).timer with
      | none => simp [clearTimerIfSet, hti]
      | some t0 => by_cases h0 : t0 = 0 <;> simp [clearTimerIfSet, hti, h0]
    · simp only [downloadTracker.consume, trackerStep, downloadTracker.set]
      cases hti : (trackerRun evs).timer with
      | none => simp [clearTimerIfSet, hti]
      | some t0 => by_cases h0 : t0 = 0 <;> simp [clearTimerIfSet, hti, h0]
    · simp [trackerStep, downloadTracker.set, hc.1, hc.2]

/-! ## formatDateParts: the ISO format -/

/-- C11. For a four-digit year, month in 1..12 and day in 1..31 the format
`YYYY-MM-DD` gives the four digits of the year, the month on two digits and the
day on two digits (zero-padded), joined by hyphens. -/
theorem formatDateParts_iso (p : DateParts) (hy : 1000 ≤ p.year ∧ p.year ≤ 9999)
    (hm : 1 ≤ p.month ∧ p.month ≤ 12) (hd : 1 ≤ p.day ∧ p.day ≤ 31) :
    formatDateParts (some p) (js "YYYY-MM-DD") =
      [48 + p.year / 1000, 48 + p.year / 100 % 10, 48 + p.year / 10 % 10, 48 + p.year % 10, 45,
       48 + p.month / 10, 48 + p.month % 10, 45, 48 + p.day / 10, 48 + p.day % 10] ∧
    formatDateParts (some p) (js "YYYY-MM-DD") = numToString p.year ++ js "-" ++ pad p.month ++ js "-" ++ pad p.day ∧
    (numToString p.year).length = 4 ∧ (pad p.month).length = 2 ∧ (pad p.day).length = 2 := by
  have d1 := isSep_of_isDigit (isDigit_add (k := p.day / 10) (by omega))
  have d2 := isSep_of_isDigit (isDigit_add (k := p.day % 10) (by omega))
  have d3 := isSep_of_isDigit (isDigit_add (k := p.month / 10) (by omega))
  have d4 := isSep_of_isDigit (isDigit_add (k := p.month % 10) (by omega))
  have d5 := isSep_of_isDigit (isDigit_add (k := p.year / 1000) (by omega))
  have d6 := isSep_of_isDigit (isDigit_add (k := p.year / 100 % 10) (by omega))
  have d7 := isSep_of_isDigit (isDigit_add (k := p.year / 10 % 10) (by omega))
  have d8 := isSep_of_isDigit (isDigit_add (k := p.year % 10) (by omega))
  have hminus : js "-" = [45] := by decide
  have s45 : isSep 45 = true := by decide
  have e : formatDateParts (some p) (js "YYYY-MM-DD") =
      [48 + p.year / 1000, 48 + p.year / 100 % 10, 48 + p.year / 10 % 10, 48 + p.year % 10, 45,
       48 + p.month / 10, 48 + p.month % 10, 45, 48 + p.day / 10, 48 + p.day % 10] := by
    simp [formatDateParts, js_iso_format, replaceTokens, pad_lt_hundred (by omega : p.day < 100),
      pad_lt_hundred (by omega : p.month < 100),
      numToString_four hy.1 (by omega : p.year < 10000), collapseSeps, stripTrailingSeps,
      List.rdropWhile, List.dropWhile, d1, d2, d3, d4, d5, d6, d7, d8, s45]
  refine ⟨e, ?_, ?_, ?_, ?_⟩
  · rw [e, numToString_four hy.1 (by omega), pad_lt_hundred (by omega : p.day < 100),
      pad_lt_hundred (by omega : p.month < 100), hminus]
    simp
  · rw [numToString_four hy.1 (by omega)]; rfl
  · rw [pad_lt_hundred (by omega : p.month < 100)]; rfl
  · rw [pad_lt_hundred (by omega : p.day < 100)]; rfl

theorem formatDateParts_iso_witness :
    ((1000 ≤ 2024 ∧ 2024 ≤ 9999) ∧ (1 ≤ 3 ∧ 3 ≤ 12) ∧ (1 ≤ 5 ∧ 5 ≤ 31)) ∧
    formatDateParts (some { day := 5, month := 3, year := 2024 }) (js "YYYY-MM-DD") = js "2024-03-05" :=
  ⟨by decide,
    (formatDateParts_iso { day := 5, month := 3, year := 2024 } (by decide) (by decide)
      (by decide)).1.trans (by decide)⟩

/-! ## parseDateString: null or complete -/

theorem parseDateString_eq (str : JsString) (fb now : Nat) :
    parseDateString str fb now =
      if str = [] then none
      else if (falsy (parsedVars str).day || falsy (parsedVars str).month) = true then none
      else some { day := (parsedVars str).day.getD 0, month := (parsedVars str).month.getD 0,
                  year := orElseNat ((parsedVars str).year.getD 0) (orElseNat fb now) } := rfl

theorem falsy_eq_false {o : Option Nat} (h : falsy o = false) : ∃ n, o = some n ∧ n ≠ 0 := by
  cases o with
  | none => simp [falsy] at h
  | some n => exact ⟨n, rfl, by simpa [falsy] using h⟩

theorem takeDigits_head {k : Nat} {s g r : JsString} (hk : 1 ≤ k)
    (h : takeDigits k s = some (g, r)) : ∃ d t, s = d :: t ∧ isDigit d = true := by
  obtain ⟨hg, -, hl, hd⟩ := takeDigits_eq_some h
  cases s with
  | nil => simp at hg; rw [hg] at hl; simp at hl; omega
  | cons d t =>
    refine ⟨d, t, rfl, hd d ?_⟩
    rw [hg]
    obtain ⟨k1, rfl⟩ : ∃ k1, k = k1 + 1 := ⟨k - 1, by omega⟩
    simp

theorem takeDigits_last {k : Nat} {s g r : JsString} (hk : 1 ≤ k)
    (h : takeDigits k s = some (g, r)) :
    ∃ pre d, g = pre ++ [d] ∧ isDigit d = true ∧ s = pre ++ d :: r := by
  obtain ⟨hg, hr, hl, hd⟩ := takeDigits_eq_some h
  have hne : g ≠ [] := by intro e; rw [e] at hl; simp at hl; omega
  refine ⟨g.dropLast, g.getLast hne, (List.dropLast_append_getLast hne).symm,
    hd _ (List.getLast_mem hne), ?_⟩
  have e1 : s = g ++ r := by rw [hg, hr, List.take_append_drop]
  rw [e1]
  conv_lhs => rw [← List.dropLast_append_getLast hne]
  simp

theorem afterGroup1_shape {sep : Nat} {g1 r : JsString} {m : DateMatch}
    (h : afterGroup1 sep g1 r = some m) :
    m.g1 = g1 ∧ ∃ k, (k = 1 ∨ k = 2) ∧ ∃ r1 r2, r = sep :: r1 ∧ takeDigits k r1 = some (m.g2, r2) := by
  cases r with
  | nil => simp [afterGroup1] at h
  | cons c r1 =>
    by_cases hc : c = sep
    · subst hc
      simp only [afterGroup1, if_true] at h
      split at h
      · rename_i g2 r2 h2
        simp only [Option.some.injEq] at h
        subst h
        exact ⟨rfl, 2, Or.inr rfl, r1, r2, rfl, h2⟩
      · split at h
        · rename_i g2 r2 h2
          simp only [Option.some.injEq] at h
          subst h
          exact ⟨rfl, 1, Or.inl rfl, r1, r2, rfl, h2⟩
        · simp at h
    · simp [afterGroup1, hc] at h

/-- A match at the head of `s`: group 1 and group 2 are one or two digits each,
with the separator between them. -/
theorem dateMatchAt_shape {sep : Nat} {s : JsString} {m : DateMatch}
    (h : dateMatchAt sep s = some m) :
    ∃ k1 k2, (k1 = 1 ∨ k1 = 2) ∧ (k2 = 1 ∨ k2 = 2) ∧ ∃ r r1 r2,
      takeDigits k1 s = some (m.g1, r) ∧ r = sep :: r1 ∧ takeDigits k2 r1 = some (m.g2, r2) := by
  have key : ∀ k, (k = 1 ∨ k = 2) → ∀ g r, takeDigits k s = some (g, r) →
      afterGroup1 sep g r = some m →
      ∃ k1 k2, (k1 = 1 ∨ k1 = 2) ∧ (k2 = 1 ∨ k2 = 2) ∧ ∃ r r1 r2,
        takeDigits k1 s = some (m.g1, r) ∧ r = sep :: r1 ∧ takeDigits k2 r1 = some (m.g2, r2) := by
    intro k hk g r h1 h2
    obtain ⟨e1, k2, hk2, r1, r2, hr, h3⟩ := afterGroup1_shape h2
    exact ⟨k, k2, hk, hk2, r, r1, r2, by rw [e1]; exact h1, hr, h3⟩
  unfold dateMatchAt at h
  simp only at h
  split at h
  · rename_i g1 r h2
    split at h
    · rename_i m1 h3
      simp only [Option.some.injEq] at h
      subst h
      exact key 2 (Or.inr rfl) g1 r h2 h3
    · split at h
      · rename_i g r1 h4
        exact key 1 (Or.inl rfl) g r1 h4 h
      · simp at h
  · split at h
    · rename_i g r1 h4
      exact key 1 (Or.inl rfl) g r1 h4 h
    · simp at h

theorem dateSearch_some {sep : Nat} {s : JsString} {m : DateMatch}
    (h : dateSearch sep s = some m) : ∃ pre t, s = pre ++ t ∧ dateMatchAt sep t = some m := by
  induction s with
  | nil => simp [dateSearch] at h
  | cons c cs ih =>
    simp only [dateSearch] at h
    split at h
    · rename_i m1 h1
      simp only [Option.some.injEq] at h
      subst h
      exact ⟨[], c :: cs, rfl, h1⟩
    · obtain ⟨pre, t, e, ht⟩ := ih h
      exact ⟨c :: pre, t, by rw [e]; rfl, ht⟩

theorem hasDayMonthPattern_cons {sep c : Nat} {s : JsString}
    (h : hasDayMonthPattern sep s = true) : hasDayMonthPattern sep (c :: s) = true := by
  match s, h with
  | d1 :: x :: d2 :: r, h =>
    rw [hasDayMonthPattern, h]
    simp

theorem hasDayMonthPattern_of_infix {sep d1 d2 : Nat} (h1 : isDigit d1 = true)
    (h2 : isDigit d2 = true) (pre post : JsString) :
    hasDayMonthPattern sep (pre ++ d1 :: sep :: d2 :: post) = true := by
  induction pre with
  | nil => simp [hasDayMonthPattern, h1, h2]
  | cons c pre ih => exact hasDayMonthPattern_cons ih

/-- A match of the date pattern needs a digit, the separator and a digit in a row. -/
theorem hasDayMonthPattern_of_dateSearch {sep : Nat} {s : JsString} {m : DateMatch}
    (h : dateSearch sep s = some m) : hasDayMonthPattern sep s = true := by
  obtain ⟨pre, t, rfl, ht⟩ := dateSearch_some h
  obtain ⟨k1, k2, hk1, hk2, r, r1, r2, h1, rfl, h2⟩ := dateMatchAt_shape ht
  obtain ⟨p1, d1, -, hd1, e1⟩ := takeDigits_last (by omega) h1
  obtain ⟨d2, t2, e2, hd2⟩ := takeDigits_head (by omega) h2
  rw [e1, e2, ← List.append_assoc]
  exact hasDayMonthPattern_of_infix hd1 hd2 _ _

theorem hasDayMonthPattern_append_left {sep : Nat} (a b : JsString)
    (h : hasDayMonthPattern sep b = true) : hasDayMonthPattern sep (a ++ b) = true := by
  induction a with
  | nil => exact h
  | cons c a ih => exact hasDayMonthPattern_cons ih

theorem hasDayMonthPattern_append_right {sep : Nat} (a b : JsString)
    (h : hasDayMonthPattern sep a = true) : hasDayMonthPattern sep (a ++ b) = true := by
  induction a with
  | nil => simp [hasDayMonthPattern] at h
  | cons d1 a ih =>
    match a, h, ih with
    | x :: d2 :: r, h, ih =>
      simp only [hasDayMonthPattern, Bool.or_eq_true] at h
      rcases h with h | h
      · simp [hasDayMonthPattern, h]
      · have := ih h
        simp only [List.cons_append] at this ⊢
        simp [hasDayMonthPattern, this]

theorem hasDayMonthPattern_of_trim {sep : Nat} {s : JsString}
    (h : hasDayMonthPattern sep (trim s) = true) : hasDayMonthPattern sep s = true := by
  obtain ⟨t, ht⟩ : trim s <+: s.dropWhile isSpace := List.rdropWhile_prefix _ _
  obtain ⟨u, hu⟩ : s.dropWhile isSpace <:+ s := List.dropWhile_suffix _
  rw [← hu, ← ht]
  exact hasDayMonthPattern_append_left _ _ (hasDayMonthPattern_append_right _ _ h)

theorem parsedVars_of_no_pattern {str : JsString} (h1 : hasDayMonthPattern 47 str = false)
    (h2 : hasDayMonthPattern 46 str = false) : parsedVars str = {} := by
  have n1 : dateSearch 47 (trim str) = none := by
    cases hs : dateSearch 47 (trim str) with
    | none => rfl
    | some m =>
      have := hasDayMonthPattern_of_trim (hasDayMonthPattern_of_dateSearch hs)
      rw [h1] at this; simp at this
  have n2 : dateSearch 46 (trim str) = none := by
    cases hs : dateSearch 46 (trim str) with
    | none => rfl
    | some m =>
      have := hasDayMonthPattern_of_trim (hasDayMonthPattern_of_dateSearch hs)
      rw [h2] at this; simp at this
  simp [parsedVars, slashBlock, dotBlock, n1, n2, falsy]

/-- C13. `parseDateString` never returns a partially valid result: a result has a
non-zero day, month and year (the current year being a positive number), and the
result is null when the text is empty or holds neither a `D/M` nor a `D.M` digit
pattern. -/
theorem parseDateString_null_or_complete (str : JsString) (fallbackYear nowYear : Nat)
    (hnow : 0 < nowYear) :
    (parseDateString str fallbackYear nowYear = none ∨
      ∃ p, parseDateString str fallbackYear nowYear = some p ∧
        p.day ≠ 0 ∧ p.month ≠ 0 ∧ p.year ≠ 0) ∧
    (str = [] → parseDateString str fallbackYear nowYear = none) ∧
    (hasDayMonthPattern 47 str = false ∧ hasDayMonthPattern 46 str = false →
      parseDateString str fallbackYear nowYear = none) := by
  refine ⟨?_, ?_, ?_⟩
  · rw [parseDateString_eq]
    by_cases h0 : str = []
    · simp [h0]
    · by_cases hf : (falsy (parsedVars str).day || falsy (parsedVars str).month) = true
      · simp [h0, hf]
      · right
        simp only [Bool.or_eq_true, not_or, Bool.not_eq_true] at hf
        obtain ⟨d, hd, hd0⟩ := falsy_eq_false hf.1
        obtain ⟨mo, hm, hm0⟩ := falsy_eq_false hf.2
        refine ⟨DateParts.mk d mo
            (orElseNat ((parsedVars str).year.getD 0) (orElseNat fallbackYear nowYear)) none none,
          by simp [h0, hd, hm, falsy, hd0, hm0], hd0, hm0, ?_⟩
        simp only [orElseNat]
        split
        · split <;> omega
        · assumption
  · intro h0
    simp [parseDateString, h0]
  · rintro ⟨h1, h2⟩
    rw [parseDateString_eq, parsedVars_of_no_pattern h1 h2]
    simp [falsy]

theorem parseDateString_null_or_complete_witness :
    0 < 2026 ∧
    (∃ p, parseDateString (js "20.12.") 0 2026 = some p ∧ p.day ≠ 0 ∧ p.month ≠ 0 ∧ p.year ≠ 0) ∧
    parseDateString (js "12. Juni") 2024 2026 = none := by
  obtain ⟨h1, -, h3⟩ := parseDateString_null_or_complete (js "20.12.") 0 2026 (by decide)
  obtain ⟨-, -, h4⟩ := parseDateString_null_or_complete (js "12. Juni") 2024 2026 (by decide)
  refine ⟨by decide, ?_, h4 (by decide)⟩
  rcases h1 with h | h
  · exact absurd h (by decide)
  · exact h

/-! ## parseDateString: ranges and years -/

theorem parseInt_short {g : JsString} (h : isShortNumber g) : parseInt g ≤ 99 := by
  obtain ⟨hl, hd⟩ := h
  rcases hl with hl | hl
  · obtain ⟨a, rfl⟩ := List.length_eq_one.mp hl
    have ha := (isDigit_iff a).mp (hd a (by simp))
    simp [parseInt]; omega
  · obtain ⟨a, b, rfl⟩ := List.length_eq_two.mp hl
    have ha := (isDigit_iff a).mp (hd a (by simp))
    have hb := (isDigit_iff b).mp (hd b (by simp))
    simp [parseInt]; omega

theorem takeDigits_short {k : Nat} {s g r : JsString} (hk : k = 1 ∨ k = 2)
    (h : takeDigits k s = some (g, r)) : isShortNumber g := by
  obtain ⟨-, -, hl, hd⟩ := takeDigits_eq_some h
  exact ⟨by rw [hl]; exact hk, hd⟩

/-- The first two groups of a match are one or two digits each. -/
theorem dateSearch_groups {sep : Nat} {s : JsString} {m : DateMatch}
    (h : dateSearch sep s = some m) : isShortNumber m.g1 ∧ isShortNumber m.g2 := by
  obtain ⟨pre, t, -, ht⟩ := dateSearch_some h
  obtain ⟨k1, k2, hk1, hk2, r, r1, r2, h1, -, h2⟩ := dateMatchAt_shape ht
  exact ⟨takeDigits_short hk1 h1, takeDigits_short hk2 h2⟩

theorem slashBlock_small (text : JsString) :
    (∀ n, (slashBlock text {}).day = some n → n ≤ 99) ∧
    (∀ n, (slashBlock text {}).month = some n → n ≤ 99) := by
  cases hs : dateSearch 47 text with
  | none => simp [slashBlock, hs]
  | some m =>
    obtain ⟨h1, h2⟩ := dateSearch_groups hs
    have b1 := parseInt_short h1
    have b2 := parseInt_short h2
    simp only [slashBlock, hs]
    constructor <;> intro n hn <;> split at hn <;> split_ifs at hn <;>
      simp only [Option.some.injEq] at hn <;> omega

theorem dotBlock_small (text : JsString) (v : DateVars)
    (hv : (∀ n, v.day = some n → n ≤ 99) ∧ (∀ n, v.month = some n → n ≤ 99)) :
    (∀ n, (dotBlock text v).day = some n → n ≤ 99) ∧
    (∀ n, (dotBlock text v).month = some n → n ≤ 99) := by
  unfold dotBlock
  split
  · cases hs : dateSearch 46 text with
    | none => simpa [hs] using hv
    | some m =>
      obtain ⟨h1, h2⟩ := dateSearch_groups hs
      have b1 := parseInt_short h1
      have b2 := parseInt_short h2
      simp only [hs]
      constructor <;> intro n hn <;> split at hn <;>
        simp only [Option.some.injEq] at hn <;> omega
  · exact hv

/-- C14 (as amended). `parseDateString` checks no calendar range: a result has a
day and a month between 1 and 99, as the one or two digits of the text give
them. -/
theorem parseDateString_day_month_bounds (str : JsString) (fallbackYear nowYear : Nat)
    (p : DateParts) (h : parseDateString str fallbackYear nowYear = some p) :
    1 ≤ p.day ∧ p.day ≤ 99 ∧ 1 ≤ p.month ∧ p.month ≤ 99 := by
  obtain ⟨s1, s2⟩ := dotBlock_small (trim str) _ (slashBlock_small (trim str))
  rw [parseDateString_eq] at h
  split at h
  · simp at h
  · split at h
    · simp at h
    · rename_i hf
      simp only [Bool.or_eq_true, not_or, Bool.not_eq_true] at hf
      obtain ⟨d, hd, hd0⟩ := falsy_eq_false hf.1
      obtain ⟨mo, hm, hm0⟩ := falsy_eq_false hf.2
      simp only [Option.some.injEq] at h
      subst h
      have b1 := s1 d hd
      have b2 := s2 mo hm
      simp only [hd, hm, Option.getD_some]
      omega

theorem parseDateString_day_month_bounds_witness :
    parseDateString (js "45.13.2024") 0 2026 = some { day := 45, month := 13, year := 2024 } ∧
    (1 ≤ 45 ∧ 45 ≤ 99 ∧ 1 ≤ 13 ∧ 13 ≤ 99) :=
  ⟨by decide,
    parseDateString_day_month_bounds (js "45.13.2024") 0 2026
      { day := 45, month := 13, year := 2024 } (by decide)⟩

/-- C14 (counterexample). The texts `45.13.2024` and `15/20` are not rejected: they
parse to day 45, month 13 and to day 15, month 20. -/
theorem parseDateString_out_of_range_not_null :
    parseDateString (js "45.13.2024") 0 2026 = some { day := 45, month := 13, year := 2024 } ∧
    parseDateString (js "15/20") 0 2026 = some { day := 15, month := 20, year := 2026 } ∧
    ¬ (∀ str fb now p, parseDateString str fb now = some p →
        1 ≤ p.day ∧ p.day ≤ 31 ∧ 1 ≤ p.month ∧ p.month ≤ 12) := by
  refine ⟨by decide, by decide, fun h => ?_⟩
  have := h (js "45.13.2024") 0 2026 { day := 45, month := 13, year := 2024 } (by decide)
  simp at this

theorem dateSearch_full {sep : Nat} (hsep : isDigit sep = false) {A B : JsString}
    (hA : isShortNumber A) (hB : isShortNumber B) (y : JsString) :
    dateSearch sep (A ++ sep :: (B ++ sep :: y)) = some ⟨A, B, yearGroup y⟩ := by
  obtain ⟨hAl, hAd⟩ := hA
  obtain ⟨hBl, hBd⟩ := hB
  rcases hAl with hAl | hAl <;> rcases hBl with hBl | hBl
  · obtain ⟨a1, rfl⟩ := List.length_eq_one.mp hAl
    obtain ⟨b1, rfl⟩ := List.length_eq_one.mp hBl
    have ha := hAd a1 (by simp)
    have hb := hBd b1 (by simp)
    simp [dateSearch, dateMatchAt, takeDigits, afterGroup1, skipSep, ha, hb, hsep]
  · obtain ⟨a1, rfl⟩ := List.length_eq_one.mp hAl
    obtain ⟨b1, b2, rfl⟩ := List.length_eq_two.mp hBl
    have ha := hAd a1 (by simp)
    have hb1 := hBd b1 (by simp)
    have hb2 := hBd b2 (by simp)
    simp [dateSearch, dateMatchAt, takeDigits, afterGroup1, skipSep, ha, hb1, hb2, hsep]
  · obtain ⟨a1, a2, rfl⟩ := List.length_eq_two.mp hAl
    obtain ⟨b1, rfl⟩ := List.length_eq_one.mp hBl
    have ha1 := hAd a1 (by simp)
    have ha2 := hAd a2 (by simp)
    have hb := hBd b1 (by simp)
    simp [dateSearch, dateMatchAt, takeDigits, afterGroup1, skipSep, ha1, ha2, hb, hsep]
  · obtain ⟨a1, a2, rfl⟩ := List.length_eq_two.mp hAl
    obtain ⟨b1, b2, rfl⟩ := List.length_eq_two.mp hBl
    have ha1 := hAd a1 (by simp)
    have ha2 := hAd a2 (by simp)
    have hb1 := hBd b1 (by simp)
    have hb2 := hBd b2 (by simp)
    simp [dateSearch, dateMatchAt, takeDigits, afterGroup1, skipSep, ha1, ha2, hb1, hb2, hsep]

theorem yearGroup_of_digits {y : JsString} (hd : ∀ c ∈ y, isDigit c = true)
    (hl : 2 ≤ y.length ∧ y.length ≤ 4) : yearGroup y = some y := by
  have hall : ∀ k, ((y.take k).all isDigit) = true := by
    intro k
    rw [List.all_eq_true]
    intro c hc
    exact hd c (List.mem_of_mem_take hc)
  have h4 : y.length = 2 ∨ y.length = 3 ∨ y.length = 4 := by omega
  rcases h4 with h | h | h <;>
    simp [yearGroup, takeDigits, hall, h, List.take_of_length_le] <;> rw [if_pos hd]

/-- The parse of `A sep B sep Y` for the separators `.` and `/`: the year is the
year group `Y`, with 2000 added when its value is below 100. -/
theorem parseDateString_with_year {sep : Nat} (hsep : sep = 46 ∨ sep = 47) {A B Y : JsString}
    (hA : isShortNumber A) (hB : isShortNumber B) (ha : 0 < parseInt A) (hb : 0 < parseInt B)
    (hY : ∀ c ∈ Y, isDigit c = true) (hl : 2 ≤ Y.length ∧ Y.length ≤ 4) (fb now : Nat) :
    ∃ p, parseDateString (A ++ sep :: (B ++ sep :: Y)) fb now = some p ∧ p.year = yearOfGroup Y := by
  have hsd : isDigit sep = false := by rcases hsep with rfl | rfl <;> decide
  have hss : isSpace sep = false := by rcases hsep with rfl | rfl <;> decide
  have hs := dateSearch_full hsd hA hB Y
  rw [yearGroup_of_digits hY hl] at hs
  have hnosp : ∀ c ∈ A ++ sep :: (B ++ sep :: Y), isSpace c = false := by
    intro c hc
    simp only [List.mem_append, List.mem_cons] at hc
    rcases hc with hc | rfl | hc | rfl | hc
    · exact isSpace_of_isDigit (hA.2 c hc)
    · exact hss
    · exact isSpace_of_isDigit (hB.2 c hc)
    · exact hss
    · exact isSpace_of_isDigit (hY c hc)
  have ht := trim_eq_self hnosp
  have hne : A ++ sep :: (B ++ sep :: Y) ≠ [] := by simp
  have ha0 : parseInt A ≠ 0 := by omega
  have hb0 : parseInt B ≠ 0 := by omega
  have hy0 : yearOfGroup Y ≠ 0 := by unfold yearOfGroup; split <;> omega
  rcases hsep with rfl | rfl
  · have hno : dateSearch 47 (A ++ 46 :: (B ++ 46 :: Y)) = none := by
      apply dateSearch_eq_none_of_not_mem
      intro hc
      simp only [List.mem_append, List.mem_cons] at hc
      have h47 : isDigit 47 = false := by decide
      rcases hc with hc | hc | hc | hc | hc
      · rw [hA.2 47 hc] at h47; simp at h47
      · simp at hc
      · rw [hB.2 47 hc] at h47; simp at h47
      · simp at hc
      · rw [hY 47 hc] at h47; simp at h47
    simp [parseDateString, hne, ht, slashBlock, dotBlock, hno, hs, falsy, ha0, hb0, orElseNat, hy0]
  · by_cases c1 : 12 < parseInt A ∧ parseInt B ≤ 12
    · simp [parseDateString, hne, ht, slashBlock, dotBlock, hs, falsy, ha0, hb0, c1, orElseNat, hy0]
    · by_cases c2 : 12 < parseInt B ∧ parseInt A ≤ 12
      · simp [parseDateString, hne, ht, slashBlock, dotBlock, hs, falsy, ha0, hb0, c1, c2,
          orElseNat, hy0]
      · simp [parseDateString, hne, ht, slashBlock, dotBlock, hs, falsy, ha0, hb0, c1, c2,
          orElseNat, hy0]

/-- C15 (as amended). For a dotted or slash date text `a.b.y` or `a/b/y` the year
rule goes by the value of the year group: a year written with two digits `yy`
is returned as 2000 + yy, whatever the fallback year; a year written with four
digits is returned unchanged when its value is at least 100 and has 2000 added
when its value is below 100. -/
theorem parseDateString_year_rule (sep : Nat) (A B Y : JsString) (fallbackYear nowYear : Nat)
    (hsep : sep = 46 ∨ sep = 47) (hA : isShortNumber A) (hB : isShortNumber B)
    (ha : 0 < parseInt A) (hb : 0 < parseInt B) (hY : ∀ c ∈ Y, isDigit c = true) :
    (Y.length = 2 → ∃ p, parseDateString (A ++ sep :: (B ++ sep :: Y)) fallbackYear nowYear = some p ∧
      p.year = 2000 + parseInt Y) ∧
    (Y.length = 4 → ∃ p, parseDateString (A ++ sep :: (B ++ sep :: Y)) fallbackYear nowYear = some p ∧
      p.year = if parseInt Y < 100 then 2000 + parseInt Y else parseInt Y) := by
  constructor
  · intro hl
    obtain ⟨p, hp, hy⟩ := parseDateString_with_year hsep hA hB ha hb hY (by omega) fallbackYear nowYear
    have h100 : parseInt Y < 100 := by
      have := parseInt_short (g := Y) ⟨Or.inr hl, hY⟩
      omega
    exact ⟨p, hp, by rw [hy, yearOfGroup, if_pos h100]; omega⟩
  · intro hl
    obtain ⟨p, hp, hy⟩ := parseDateString_with_year hsep hA hB ha hb hY (by omega) fallbackYear nowYear
    refine ⟨p, hp, ?_⟩
    rw [hy, yearOfGroup]
    split <;> omega

theorem parseDateString_year_rule_witness :
    ((46 = 46 ∨ 46 = 47) ∧ isShortNumber (js "5") ∧ isShortNumber (js "03") ∧
      0 < parseInt (js "5") ∧ 0 < parseInt (js "03")) ∧
    (∃ p, parseDateString (js "5.03.24") 1999 2026 = some p ∧ p.year = 2024) ∧
    (∃ p, parseDateString (js "5.03.1987") 1999 2026 = some p ∧ p.year = 1987) := by
  refine ⟨by decide, ?_, ?_⟩
  · obtain ⟨p, hp, hy⟩ := (parseDateString_year_rule 46 (js "5") (js "03") (js "24") 1999 2026
      (by decide) (by decide) (by decide) (by decide) (by decide) (by decide)).1 (by decide)
    exact ⟨p, hp, hy.trans (by decide)⟩
  · obtain ⟨p, hp, hy⟩ := (parseDateString_year_rule 46 (js "5") (js "03") (js "1987") 1999 2026
      (by decide) (by decide) (by decide) (by decide) (by decide) (by decide)).2 (by decide)
    exact ⟨p, hp, hy.trans (by decide)⟩

/-- C15 (counterexample). The year written with the four digits `0050` is not
returned unchanged: the result has the year 2050. -/
theorem parseDateString_four_digit_year_changed :
    parseDateString (js "01.01.0050") 1999 2026 = some { day := 1, month := 1, year := 2050 } ∧
    parseDateString (js "01/01/0050") 1999 2026 = some { day := 1, month := 1, year := 2050 } ∧
    parseInt (js "0050") = 50 := by
  decide

/-! ## resolveDateParts -/

/-- C16. For a meta whose `itemDate` is a day and month text without a year,
`resolveDateParts` returns the year `modalYear` when that is present, whatever
`itemYear` is, and `itemYear` when `modalYear` is absent; the hour and minute of
the result are `modalHour` and `modalMinute` when these are defined (the value 0
included) and absent otherwise. -/
theorem resolveDateParts_year_and_time (m : Meta) (nowYear : Nat)
    (hdate : isDayMonthOnly (m.itemDate.getD [])) :
    ∃ p, resolveDateParts m nowYear = some p ∧
      (∀ y, m.modalYear = some y → y ≠ 0 → p.year = y) ∧
      (m.modalYear = none → ∀ y, m.itemYear = some y → y ≠ 0 → p.year = y) ∧
      p.hour = m.modalHour ∧ p.minute = m.modalMinute := by
  obtain ⟨hne, hd, hm, hy⟩ := hdate
  have hp : ∀ fb, parseDateString (m.itemDate.getD []) fb nowYear =
      some { day := (parsedVars (m.itemDate.getD [])).day.getD 0,
             month := (parsedVars (m.itemDate.getD [])).month.getD 0,
             year := orElseNat fb nowYear } := by
    intro fb
    have h0 : orElseNat 0 (orElseNat fb nowYear) = orElseNat fb nowYear := by simp [orElseNat]
    rw [parseDateString_eq]
    simp [hne, hd, hm, hy, h0]
  have hyear : ∀ fb, fb ≠ 0 → orElseNat fb nowYear = fb := by
    intro fb h; simp [orElseNat, h]
  unfold resolveDateParts
  simp only [hp]
  cases hh : m.modalHour <;> cases hmi : m.modalMinute <;>
    refine ⟨_, rfl, ?_, ?_, rfl, rfl⟩
  all_goals first
    | (intro y hy1 hy0
       simp [hy1, orElseNat, hy0])
    | (intro hn y hy1 hy0
       simp [hn, hy1, orElseNat, hy0])

theorem resolveDateParts_year_and_time_witness :
    isDayMonthOnly (modalMeta.itemDate.getD []) ∧
    resolveDateParts modalMeta 2026
      = some { day := 20, month := 12, year := 2025, hour := some 0, minute := some 0 } ∧
    ∃ p, resolveDateParts modalMeta 2026 = some p ∧
      p.year = 2025 ∧ p.hour = some 0 ∧ p.minute = some 0 := by
  obtain ⟨p, hp, h1, -, h3, h4⟩ := resolveDateParts_year_and_time modalMeta 2026 (by decide)
  exact ⟨by decide, by decide, p, hp, h1 2025 rfl (by decide), h3, h4⟩

/-! ## sanitizeFilename: the default name -/

theorem collapseRuns_filler (s : JsString) (h : ∀ c ∈ s, isUsOrSpace c = true) :
    collapseRuns true s = [] ∧ (s ≠ [] → collapseRuns false s = [95]) := by
  induction s with
  | nil => simp [collapseRuns]
  | cons c r ih =>
    have hc := h c (List.mem_cons_self _ _)
    have ih1 := (ih (fun x hx => h x (List.mem_cons_of_mem _ hx))).1
    simp [collapseRuns, hc, ih1]

theorem replaceIllegal_filler {s : JsString} (h : isOnlyFiller s) :
    ∀ c ∈ replaceIllegal s, isUsOrSpace c = true := by
  intro c hc
  simp only [replaceIllegal, List.mem_map] at hc
  obtain ⟨x, hx, rfl⟩ := hc
  by_cases hi : isIllegal x = true
  · simp only [hi, if_true]; decide
  · rcases h x hx with h1 | h1
    · exact absurd h1 hi
    · simpa [hi] using h1

/-- C19 (as amended). A non-empty input made only of filesystem-illegal
characters, whitespace and underscores is sanitized to `document`; the empty
input is first replaced by `download` and gives `download`. -/
theorem sanitizeFilename_default (name : JsString) (hfill : isOnlyFiller name) :
    (name ≠ [] → sanitizeFilename name = js "document") ∧
    (name = [] → sanitizeFilename name = js "download") := by
  constructor
  · intro hne
    have h1 := replaceIllegal_filler hfill
    have hne2 : replaceIllegal name ≠ [] := by simpa [replaceIllegal] using hne
    have h2 := (collapseRuns_filler _ h1).2 hne2
    have h3 : trimUnderscores [95] = [] := by decide
    simp [sanitizeFilename, orElseStr, hne, h2, h3]
  · intro he
    subst he
    decide

theorem sanitizeFilename_default_witness :
    (isOnlyFiller (js " _:/?* _") ∧ sanitizeFilename (js " _:/?* _") = js "document") ∧
    (isOnlyFiller [] ∧ sanitizeFilename [] = js "download") :=
  ⟨⟨by decide, (sanitizeFilename_default (js " _:/?* _") (by decide)).1 (by decide)⟩,
    ⟨by decide, (sanitizeFilename_default [] (by decide)).2 rfl⟩⟩

/-- C19 (counterexample). The empty input is not sanitized to `document`: the
result is `download`. -/
theorem sanitizeFilename_empty_is_download :
    sanitizeFilename [] = js "download" ∧ sanitizeFilename [] ≠ js "document" := by
  decide

/-! ## buildDownloadName: the suffix -/

theorem endsWithPdf_append_pdf (s : JsString) : endsWithPdf (s ++ js ".pdf") = true := by
  have e : js ".pdf" = [46, 112, 100, 102] := by decide
  simp [endsWithPdf, e]

theorem endsWithPdf_ensurePdf (base : JsString) : endsWithPdf (ensurePdf base) = true := by
  unfold ensurePdf
  split
  · assumption
  · exact endsWithPdf_append_pdf base

/-- C18. For every meta, url and settings the name returned by `buildDownloadName`
ends with `.pdf` in some letter case; the suffix is appended only when the
sanitized base does not end with `.pdf` already, and a base that does is
returned unchanged. -/
theorem buildDownloadName_pdf_suffix (cfg : Settings) (m : Meta) (url : JsString) (nowYear : Nat) :
    endsWithPdf (buildDownloadName cfg m url nowYear) = true ∧
    (endsWithPdf (downloadBase cfg m url nowYear) = true →
      buildDownloadName cfg m url nowYear = downloadBase cfg m url nowYear) ∧
    (endsWithPdf (downloadBase cfg m url nowYear) = false →
      buildDownloadName cfg m url nowYear = downloadBase cfg m url nowYear ++ js ".pdf") ∧
    (∃ n, (buildDownloadName cfg m url nowYear).length = n + 4 ∧
      toLowerCase ((buildDownloadName cfg m url nowYear).drop n) = js ".pdf") := by
  have h := endsWithPdf_ensurePdf (downloadBase cfg m url nowYear)
  refine ⟨h, ?_, ?_, ?_⟩
  · intro hb; simp [buildDownloadName, ensurePdf, hb]
  · intro hb; simp [buildDownloadName, ensurePdf, hb]
  · have e : js ".pdf" = [46, 112, 100, 102] := by decide
    change endsWithPdf (buildDownloadName cfg m url nowYear) = true at h
    generalize buildDownloadName cfg m url nowYear = s at h
    unfold endsWithPdf at h
    split at h
    · rename_i f d p dot rest hrev
      have hs : s = rest.reverse ++ [dot, p, d, f] := by
        have := congrArg List.reverse hrev
        simpa using this
      refine ⟨rest.length, by simp [hs], ?_⟩
      simp only [Bool.and_eq_true, Bool.or_eq_true, beq_iff_eq] at h
      obtain ⟨⟨⟨hf, hd⟩, hp⟩, hdot⟩ := h
      have hdrop : List.drop rest.length s = [dot, p, d, f] := by
        rw [hs, ← List.length_reverse rest, List.drop_left]
      rw [hdrop, e]
      rcases hf with rfl | rfl <;> rcases hd with rfl | rfl <;> rcases hp with rfl | rfl <;>
        subst hdot <;> decide
    · simp at h

theorem buildDownloadName_pdf_suffix_witness :
    (endsWithPdf (downloadBase plainSettings modalMeta (js "https://a.b/c/d e.PDF?x=1") 2026) = true ∧
      buildDownloadName plainSettings modalMeta (js "https://a.b/c/d e.PDF?x=1") 2026
        = downloadBase plainSettings modalMeta (js "https://a.b/c/d e.PDF?x=1") 2026 ∧
      downloadBase plainSettings modalMeta (js "https://a.b/c/d e.PDF?x=1") 2026 = js "d_e.PDF") ∧
    (endsWithPdf (downloadBase defaultSettings modalMeta (js "https://a.b/c/d.pdf") 2026) = false ∧
      buildDownloadName defaultSettings modalMeta (js "https://a.b/c/d.pdf") 2026
        = downloadBase defaultSettings modalMeta (js "https://a.b/c/d.pdf") 2026 ++ js ".pdf" ∧
      downloadBase defaultSettings modalMeta (js "https://a.b/c/d.pdf") 2026
        = js "2025-12-20_0000_Kauf_x_d") :=
  ⟨⟨by decide,
      (buildDownloadName_pdf_suffix plainSettings modalMeta (js "https://a.b/c/d e.PDF?x=1")
        2026).2.1 (by decide),
      by decide⟩,
    ⟨by decide,
      (buildDownloadName_pdf_suffix defaultSettings modalMeta (js "https://a.b/c/d.pdf")
        2026).2.2.1 (by decide),
      by decide⟩⟩

/-! ## buildDownloadName: custom naming switched off -/

theorem beforeQuery_append (a q : JsString) (ha : 63 ∉ a) :
    beforeQuery (a ++ 63 :: q) = a ∧ beforeQuery a = a := by
  have h1 : ∀ c ∈ a, (c != 63) = true := by
    intro c hc
    simp only [bne_iff_ne, ne_eq]
    rintro rfl
    exact ha hc
  constructor
  · unfold beforeQuery
    rw [List.takeWhile_append_of_pos h1]
    simp [List.takeWhile_eq_self_iff.mpr h1]
  · exact List.takeWhile_eq_self_iff.mpr h1

theorem lastSegment_append (pre seg : JsString) (hs : 47 ∉ seg) :
    lastSegment (pre ++ 47 :: seg) = seg ∧ lastSegment seg = seg := by
  have h1 : ∀ c ∈ seg.reverse, (c != 47) = true := by
    intro c hc
    simp only [bne_iff_ne, ne_eq]
    rintro rfl
    exact hs (List.mem_reverse.mp hc)
  constructor
  · unfold lastSegment
    have e : (pre ++ 47 :: seg).reverse = seg.reverse ++ 47 :: pre.reverse := by simp
    rw [e, List.takeWhile_append_of_pos h1]
    simp [List.takeWhile_eq_self_iff.mpr h1]
  · unfold lastSegment
    rw [List.takeWhile_eq_self_iff.mpr h1, List.reverse_reverse]

/-- C20. With custom naming disabled `buildDownloadName(meta, url)` is derived
from the URL alone: for a URL whose trailing path segment is `seg` (after the
last `/`, a query string `?q` removed) the name is the sanitized segment with
`.pdf` enforced, and `document.pdf` when the segment is empty; it is the same
for every meta. -/
theorem buildDownloadName_plain (cfg : Settings) (hcfg : cfg.useCustomNames = false)
    (m : Meta) (url : JsString) (nowYear : Nat) :
    buildDownloadName cfg m url nowYear =
      (if lastSegment (beforeQuery url) = [] then js "document.pdf"
       else ensurePdf (sanitizeFilename (lastSegment (beforeQuery url)))) ∧
    (∀ m2 : Meta, buildDownloadName cfg m2 url nowYear = buildDownloadName cfg m url nowYear) ∧
    (∀ pre seg q : JsString, 63 ∉ pre → 63 ∉ seg → 47 ∉ seg →
      (url = pre ++ 47 :: (seg ++ 63 :: q) ∨ url = pre ++ 47 :: seg ∨ url = seg ++ 63 :: q ∨
        url = seg) →
      lastSegment (beforeQuery url) = seg) := by
  have hne := (sanitizeFilename_clean (urlFallback url)).2
  have hdoc : ensurePdf (sanitizeFilename (js "document.pdf")) = js "document.pdf" := by decide
  refine ⟨?_, ?_, ?_⟩
  · by_cases h : lastSegment (beforeQuery url) = []
    · have hsd : sanitizeFilename (js "document.pdf") ≠ [] := by decide
      simp [buildDownloadName, downloadBase, hcfg, urlFallback, orElseStr, h, hsd, hdoc]
    · have h2 : urlFallback url = lastSegment (beforeQuery url) := by simp [urlFallback, orElseStr, h]
      rw [h2] at hne
      simp [buildDownloadName, downloadBase, hcfg, orElseStr, h, h2, hne]
  · intro m2
    simp [buildDownloadName, downloadBase, hcfg]
  · intro pre seg q hp hs1 hs2 hurl
    rcases hurl with rfl | rfl | rfl | h
    · have hq : 63 ∉ pre ++ 47 :: seg := by
        simp only [List.mem_append, List.mem_cons, not_or]
        exact ⟨hp, by decide, hs1⟩
      have e : pre ++ 47 :: (seg ++ 63 :: q) = (pre ++ 47 :: seg) ++ 63 :: q := by simp
      rw [e, (beforeQuery_append _ q hq).1, (lastSegment_append pre seg hs2).1]
    · have hq : 63 ∉ pre ++ 47 :: seg := by
        simp only [List.mem_append, List.mem_cons, not_or]
        exact ⟨hp, by decide, hs1⟩
      rw [(beforeQuery_append _ [] hq).2, (lastSegment_append pre seg hs2).1]
    · rw [(beforeQuery_append _ q hs1).1, (lastSegment_append [] seg hs2).2]
    · rw [h, (beforeQuery_append _ [] hs1).2, (lastSegment_append [] seg hs2).2]

theorem buildDownloadName_plain_witness :
    plainSettings.useCustomNames = false ∧
    buildDownloadName plainSettings modalMeta (js "https://a.b/c/d e.PDF?x=1") 2026 = js "d_e.PDF" ∧
    buildDownloadName plainSettings modalMeta (js "https://a.b/c/?x=1") 2026 = js "document.pdf" ∧
    buildDownloadName plainSettings {} (js "https://a.b/c/d e.PDF?x=1") 2026
      = buildDownloadName plainSettings modalMeta (js "https://a.b/c/d e.PDF?x=1") 2026 :=
  ⟨rfl,
    (buildDownloadName_plain plainSettings rfl modalMeta (js "https://a.b/c/d e.PDF?x=1") 2026).1.trans
      (by decide),
    by decide,
    (buildDownloadName_plain plainSettings rfl modalMeta (js "https://a.b/c/d e.PDF?x=1") 2026).2.1 {}⟩

/-! ## buildDownloadName: the template tokens -/

theorem tokenWord_lower (n : TokenName) : isLowerWord n.word := by
  cases n <;> decide

theorem eqIgnoreCase_iff {c l : Nat} (hl : 97 ≤ l ∧ l ≤ 122) :
    eqIgnoreCase c l = true ↔ (if 65 ≤ c ∧ c ≤ 90 then c + 32 else c) = l := by
  simp only [eqIgnoreCase, Bool.or_eq_true, beq_iff_eq]
  split <;> omega

theorem matchWord_append_brace (w : JsString) (hw : isLowerWord w) (x : JsString) :
    ∀ a, matchWord w (a ++ 123 :: x) = (matchWord w a).map (fun r => r ++ 123 :: x) := by
  induction w with
  | nil => intro a; simp [matchWord]
  | cons l w ih =>
    have hl := hw l (List.mem_cons_self _ _)
    have ih1 := ih (fun y hy => hw y (List.mem_cons_of_mem _ hy))
    intro a
    cases a with
    | nil =>
      have h1 : eqIgnoreCase 123 l = false := by
        simp only [eqIgnoreCase, Bool.or_eq_false_iff, beq_eq_false_iff_ne, ne_eq]
        omega
      simp [matchWord, h1]
    | cons c a =>
      by_cases hc : eqIgnoreCase c l = true
      · simp [matchWord, hc, ih1]
      · simp [matchWord, hc]

theorem matchWord_length {w s rest : JsString} (h : matchWord w s = some rest) :
    s.length = w.length + rest.length := by
  induction w generalizing s with
  | nil => simp [matchWord] at h; subst h; simp
  | cons l w ih =>
    cases s with
    | nil => simp [matchWord] at h
    | cons c s =>
      by_cases hc : eqIgnoreCase c l = true
      · simp only [matchWord, hc, if_true] at h
        have := ih h
        simp only [List.length_cons]
        omega
      · simp [matchWord, hc] at h

theorem nameThenBrace_append_brace (n : TokenName) (a x : JsString) :
    nameThenBrace n (a ++ 123 :: x) = nameThenBrace n a := by
  unfold nameThenBrace
  rw [matchWord_append_brace _ (tokenWord_lower n)]
  cases matchWord n.word a with
  | none => rfl
  | some r =>
    cases r with
    | nil => rfl
    | cons c r =>
      by_cases hc : c = 125
      · subst hc; rfl
      · simp only [Option.map_some', List.cons_append]
        split
        · rename_i heq
          simp only [Option.some.injEq, List.cons.injEq] at heq
          exact absurd heq.1 hc
        · split
          · rename_i heq
            simp only [Option.some.injEq, List.cons.injEq] at heq
            exact absurd heq.1 hc
          · rfl

theorem tokenAt_append_brace (c : Nat) (a x : JsString) :
    tokenAt (c :: a ++ 123 :: x) = tokenAt (c :: a) := by
  by_cases hc : c = 123
  · subst hc
    simp only [List.cons_append, tokenAt, nameThenBrace_append_brace]
  · have h1 : ∀ s, tokenAt (c :: s) = none := by
      intro s
      unfold tokenAt
      split
      · rename_i r heq
        simp only [List.cons.injEq] at heq
        exact absurd heq.1 hc
      · rfl
    simp only [List.cons_append, h1]

theorem tokenAt_some {s : JsString} {n : TokenName} (h : tokenAt s = some n) :
    ∃ r, s = 123 :: r ∧ nameThenBrace n r = true := by
  unfold tokenAt at h
  split at h
  · rename_i r
    refine ⟨r, rfl, ?_⟩
    split_ifs at h with h1 h2 h3 h4 <;> simp only [Option.some.injEq] at h <;> subst h <;>
      assumption
  · simp at h

theorem nameThenBrace_length {n : TokenName} {r : JsString} (h : nameThenBrace n r = true) :
    n.word.length + 1 ≤ r.length := by
  unfold nameThenBrace at h
  split at h
  · rename_i rest hm
    have := matchWord_length hm
    simp only [List.length_cons] at this
    omega
  · simp at h

theorem fillFrom_nil (t : Tokens) (k : Nat) : fillFrom t k [] = [] := by
  cases k <;> rfl

theorem fillFrom_succ_cons (t : Tokens) (k c : Nat) (r : JsString) :
    fillFrom t (k + 1) (c :: r) = fillFrom t k r := rfl

theorem fillFrom_zero_cons (t : Tokens) (c : Nat) (r : JsString) :
    fillFrom t 0 (c :: r) =
      match tokenAt (c :: r) with
      | some n => t.value n ++ fillFrom t (n.word.length + 1) r
      | none => c :: fillFrom t 0 r := rfl

/-- The scan of the text before an opening brace does not depend on what follows
the brace. -/
theorem fillFrom_append_brace (t : Tokens) (x : JsString) :
    ∀ a k, k ≤ a.length →
      fillFrom t k (a ++ 123 :: x) = fillFrom t k a ++ fillFrom t 0 (123 :: x) := by
  intro a
  induction a with
  | nil =>
    intro k hk
    have : k = 0 := by simpa using hk
    subst this
    simp [fillFrom_nil]
  | cons c a ih =>
    intro k hk
    cases k with
    | succ j =>
      rw [List.cons_append, fillFrom_succ_cons, fillFrom_succ_cons]
      exact ih j (by simpa using hk)
    | zero =>
      have ht := tokenAt_append_brace c a x
      simp only [List.cons_append] at ht
      rw [List.cons_append, fillFrom_zero_cons, fillFrom_zero_cons t c a, ht]
      cases hn : tokenAt (c :: a) with
      | none =>
        simp only []
        rw [ih 0 (Nat.zero_le _)]
        rfl
      | some n =>
        obtain ⟨r, hr, hb⟩ := tokenAt_some hn
        simp only [List.cons.injEq] at hr
        have hlen := nameThenBrace_length hb
        rw [← hr.2] at hlen
        simp only []
        rw [ih _ hlen, List.append_assoc]

theorem fillFrom_skip (t : Tokens) (a b : JsString) :
    fillFrom t a.length (a ++ b) = fillFrom t 0 b := by
  induction a with
  | nil => rfl
  | cons c a ih =>
    rw [List.cons_append, List.length_cons, fillFrom_succ_cons]
    exact ih

theorem fillFrom_copy (t : Tokens) (x s : JsString) (hx : 123 ∉ x) :
    fillFrom t 0 (x ++ s) = x ++ fillFrom t 0 s := by
  induction x with
  | nil => rfl
  | cons c x ih =>
    have hc : c ≠ 123 := fun h => hx (by simp [h])
    have h1 : tokenAt (c :: (x ++ s)) = none := by
      unfold tokenAt
      split
      · rename_i r heq
        simp only [List.cons.injEq] at heq
        exact absurd heq.1 hc
      · rfl
    rw [List.cons_append, fillFrom_zero_cons, h1]
    simp only []
    rw [ih (fun h => hx (List.mem_cons_of_mem _ h))]
    rfl

theorem matchWord_of_lower (w : JsString) (hw : isLowerWord w) :
    ∀ x s, toLowerCase x = w → matchWord w (x ++ s) = some s := by
  induction w with
  | nil =>
    intro x s hx
    have : x = [] := by simpa [toLowerCase] using hx
    subst this
    simp [matchWord]
  | cons l w ih =>
    have hl := hw l (List.mem_cons_self _ _)
    intro x s hx
    cases x with
    | nil => simp [toLowerCase] at hx
    | cons c x =>
      simp only [toLowerCase, List.map_cons, List.cons.injEq] at hx
      have hc : eqIgnoreCase c l = true := (eqIgnoreCase_iff hl).mpr hx.1
      simp only [List.cons_append, matchWord, hc, if_true]
      exact ih (fun y hy => hw y (List.mem_cons_of_mem _ hy)) x s hx.2

theorem lower_of_matchWord (w : JsString) (hw : isLowerWord w) :
    ∀ x post rest, 125 ∉ x → matchWord w (x ++ 125 :: post) = some (125 :: rest) →
      toLowerCase x = w := by
  induction w with
  | nil =>
    intro x post rest hx h
    cases x with
    | nil => rfl
    | cons c x =>
      simp only [matchWord, List.cons_append, Option.some.injEq, List.cons.injEq] at h
      exact absurd h.1 (fun e => hx (by simp [e]))
  | cons l w ih =>
    have hl := hw l (List.mem_cons_self _ _)
    intro x post rest hx h
    cases x with
    | nil =>
      have h1 : eqIgnoreCase 125 l = false := by
        simp only [eqIgnoreCase, Bool.or_eq_false_iff, beq_eq_false_iff_ne, ne_eq]
        omega
      simp [matchWord, h1] at h
    | cons c x =>
      by_cases hc : eqIgnoreCase c l = true
      · simp only [List.cons_append, matchWord, hc, if_true] at h
        have h2 := ih (fun y hy => hw y (List.mem_cons_of_mem _ hy)) x post rest
          (fun hm => hx (List.mem_cons_of_mem _ hm)) h
        simp only [toLowerCase, List.map_cons, List.cons.injEq]
        exact ⟨(eqIgnoreCase_iff hl).mp hc, h2⟩
      · simp [matchWord, hc] at h

theorem nameThenBrace_iff (n : TokenName) (x post : JsString) (hx : 125 ∉ x) :
    nameThenBrace n (x ++ 125 :: post) = true ↔ toLowerCase x = n.word := by
  constructor
  · intro h
    unfold nameThenBrace at h
    split at h
    · rename_i rest hm
      exact lower_of_matchWord _ (tokenWord_lower n) x post rest hx hm
    · simp at h
  · intro h
    simp [nameThenBrace, matchWord_of_lower _ (tokenWord_lower n) x (125 :: post) h]

theorem tokenAt_brace_name (x post : JsString) (hx : 125 ∉ x) :
    (∀ n : TokenName, toLowerCase x = n.word → tokenAt (123 :: (x ++ 125 :: post)) = some n) ∧
    (toLowerCase x ∉ tokenWords → tokenAt (123 :: (x ++ 125 :: post)) = none) := by
  have hi := fun n => nameThenBrace_iff n x post hx
  constructor
  · intro n hn
    cases n <;>
      simp [tokenAt, hi, hn, TokenName.word] <;> decide
  · intro hnot
    simp only [tokenWords, List.mem_cons, List.mem_singleton, List.not_mem_nil, or_false,
      not_or] at hnot
    obtain ⟨h1, h2, h3, h4⟩ := hnot
    simp [tokenAt, hi, h1, h2, h3, h4]

/-- The expansion of a template around one brace token whose name holds no brace. -/
theorem fillTemplate_brace_token (t : Tokens) (pre x post : JsString) (hx1 : 123 ∉ x)
    (hx2 : 125 ∉ x) :
    (∀ n : TokenName, toLowerCase x = n.word →
      fillTemplate t (pre ++ 123 :: (x ++ 125 :: post)) =
        fillTemplate t pre ++ t.value n ++ fillTemplate t post) ∧
    (toLowerCase x ∉ tokenWords →
      fillTemplate t (pre ++ 123 :: (x ++ 125 :: post)) =
        fillTemplate t pre ++ 123 :: (x ++ 125 :: fillTemplate t post)) := by
  obtain ⟨h1, h2⟩ := tokenAt_brace_name x post hx2
  have hpre := fillFrom_append_brace t (x ++ 125 :: post) pre 0 (Nat.zero_le _)
  constructor
  · intro n hn
    have hlen : n.word.length = x.length := by rw [← hn]; simp [toLowerCase]
    have e : x ++ 125 :: post = (x ++ [125]) ++ post := by simp
    have hskip : fillFrom t (n.word.length + 1) (x ++ 125 :: post) = fillFrom t 0 post := by
      rw [e, hlen, ← fillFrom_skip t (x ++ [125]) post]
      simp
    unfold fillTemplate
    rw [hpre, fillFrom_zero_cons, h1 n hn]
    simp only []
    rw [hskip, List.append_assoc]
  · intro hn
    have h125 : tokenAt (125 :: post) = none := rfl
    unfold fillTemplate
    rw [hpre, fillFrom_zero_cons, h2 hn]
    simp only []
    rw [fillFrom_copy t x _ hx1, fillFrom_zero_cons, h125]

/-- C17 (as amended). With custom naming enabled the template expansion replaces
only the recognised tokens: a brace token `{x}` whose name is one of `title`,
`date`, `subtitle`, `docname` in any letter case is replaced by the value of that
token, and a brace token with any other name stays in the expanded text as
written. -/
theorem filledTemplate_tokens (cfg : Settings) (m : Meta) (url : JsString) (nowYear : Nat)
    (pre x post : JsString) (htpl : cfg.filenameTemplate = pre ++ 123 :: (x ++ 125 :: post))
    (hx1 : 123 ∉ x) (hx2 : 125 ∉ x) :
    (∀ n : TokenName, toLowerCase x = n.word →
      filledTemplate cfg m url nowYear =
        fillTemplate (downloadTokens cfg m url nowYear) pre ++
          (downloadTokens cfg m url nowYear).value n ++
          fillTemplate (downloadTokens cfg m url nowYear) post) ∧
    (toLowerCase x ∉ tokenWords →
      filledTemplate cfg m url nowYear =
        fillTemplate (downloadTokens cfg m url nowYear) pre ++
          123 :: (x ++ 125 :: fillTemplate (downloadTokens cfg m url nowYear) post) ∧
      (123 :: (x ++ [125])) <:+: filledTemplate cfg m url nowYear) := by
  have hne : cfg.filenameTemplate ≠ [] := by rw [htpl]; simp
  have e : filledTemplate cfg m url nowYear =
      fillTemplate (downloadTokens cfg m url nowYear) (pre ++ 123 :: (x ++ 125 :: post)) := by
    simp [filledTemplate, orElseStr, hne, htpl]
  obtain ⟨h1, h2⟩ := fillTemplate_brace_token (downloadTokens cfg m url nowYear) pre x post hx1 hx2
  refine ⟨fun n hn => by rw [e, h1 n hn], fun hn => ?_⟩
  have h3 := h2 hn
  refine ⟨by rw [e, h3], ?_⟩
  rw [e, h3]
  exact ⟨fillTemplate (downloadTokens cfg m url nowYear) pre,
    fillTemplate (downloadTokens cfg m url nowYear) post, by simp⟩

theorem filledTemplate_tokens_witness :
    (docTemplateSettings.filenameTemplate = [] ++ 123 :: (js "doc" ++ 125 :: js "_\x7bTITLE\x7d") ∧
      123 ∉ js "doc" ∧ 125 ∉ js "doc" ∧ toLowerCase (js "doc") ∉ tokenWords) ∧
    (123 :: (js "doc" ++ [125])) <:+:
      filledTemplate docTemplateSettings modalMeta (js "https://a.b/c/d.pdf?x=1") 2026 ∧
    (docTemplateSettings.filenameTemplate = js "\x7bdoc\x7d_" ++ 123 :: (js "TITLE" ++ 125 :: []) ∧
      toLowerCase (js "TITLE") = TokenName.title.word) ∧
    filledTemplate docTemplateSettings modalMeta (js "https://a.b/c/d.pdf?x=1") 2026
      = js "\x7bdoc\x7d_Kauf" :=
  ⟨by decide,
    ((filledTemplate_tokens docTemplateSettings modalMeta (js "https://a.b/c/d.pdf?x=1") 2026
      [] (js "doc") (js "_\x7bTITLE\x7d") (by decide) (by decide) (by decide)).2 (by decide)).2,
    by decide,
    ((filledTemplate_tokens docTemplateSettings modalMeta (js "https://a.b/c/d.pdf?x=1") 2026
      (js "\x7bdoc\x7d_") (js "TITLE") [] (by decide) (by decide) (by decide)).1 TokenName.title
      (by decide)).trans (by decide)⟩

/-- C17 (counterexample). The template `{doc}_{TITLE}` names the unknown token
`doc`: the text `{doc}` does not vanish, it is part of the expanded text and of
the name returned. -/
theorem buildDownloadName_unknown_token_stays :
    docTemplateSettings.useCustomNames = true ∧
    toLowerCase (js "doc") ∉ tokenWords ∧
    filledTemplate docTemplateSettings modalMeta (js "https://a.b/c/d.pdf?x=1") 2026
      = js "\x7bdoc\x7d_Kauf" ∧
    buildDownloadName docTemplateSettings modalMeta (js "https://a.b/c/d.pdf?x=1") 2026
      = js "\x7bdoc\x7d_Kauf.pdf" ∧
    js "\x7bdoc\x7d" <+: buildDownloadName docTemplateSettings modalMeta
      (js "https://a.b/c/d.pdf?x=1") 2026 := by
  refine ⟨rfl, by decide, by decide, by decide, ?_⟩
  exact ⟨js "_Kauf.pdf", by decide⟩

/-! ## Version 2.0: the month-name form -/

set_option maxRecDepth 100000 in
theorem V2.parsedVars_plain_month :
    ∀ d ∈ List.range' 1 31, ∀ nm ∈ V2.plainMonthNames,
      V2.parsedVars (numToString d ++ js ". " ++ nm.1) = { day := some d, month := some nm.2 } := by
  decide

/-- The eleven German month names without an umlaut are accepted in the form
"d. Name" for every day 1..31: the result has the day, the number of the month
and the fallback year. -/
theorem V2.parseDateString_plain_month (d : Nat) (nm : JsString × Nat) (fallbackYear nowYear : Nat)
    (hd : 1 ≤ d ∧ d ≤ 31) (hnm : nm ∈ V2.plainMonthNames) (hfb : fallbackYear ≠ 0) :
    V2.parseDateString (numToString d ++ js ". " ++ nm.1) fallbackYear nowYear =
      some { day := d, month := nm.2, year := fallbackYear } := by
  have hv := V2.parsedVars_plain_month d (List.mem_range'_1.mpr ⟨by omega, by omega⟩) nm hnm
  have hne : numToString d ++ js ". " ++ nm.1 ≠ [] := by
    have : js ". " = [46, 32] := by decide
    simp [this]
  have hm0 : nm.2 ≠ 0 := by
    have hall : ∀ x ∈ V2.plainMonthNames, x.2 ≠ 0 := by decide
    exact hall nm hnm
  have hd0 : d ≠ 0 := by omega
  unfold V2.parseDateString
  rw [if_neg hne, hv]
  simp [falsy, hd0, hm0, orElseNat, hfb]

/-- C12 (evaluation). The name `März` written with an umlaut is not accepted by
version 2.0: `normalizeMonthName` turns it into `marz`, which is no key of
`MONTH_MAP` (the keys are `maerz` and `märz`), so `parseDateString` returns null
for every day. -/
theorem V2.parseDateString_maerz_null :
    V2.normalizeMonthName (js "März") = js "marz" ∧
    V2.MONTH_MAP.lookup (js "marz") = none ∧
    V2.MONTH_MAP.lookup (js "märz") = some 3 ∧ V2.MONTH_MAP.lookup (js "maerz") = some 3 ∧
    V2.parseDateString (js "5. März") 2024 2026 = none ∧
    V2.parseDateString (js "5. Maerz") 2024 2026 = some { day := 5, month := 3, year := 2024 } := by
  decide

/-! ## buildDownloadName: the date token -/

/-- C21 (as amended). With custom naming enabled the value of the `{date}` token is
`formatDateParts(resolveDateParts(meta), dateFormat)` when the item's date text
parses and that text is not empty; when it is empty the trimmed item date text
is used; when parsing fails the value is the raw `meta.itemDate`. -/
theorem downloadTokens_date (cfg : Settings) (m : Meta) (url : JsString) (nowYear : Nat) :
    (∀ p, resolveDateParts m nowYear = some p →
      (formatDateParts (some p) (orElseStr cfg.dateFormat DEFAULT_DATE_FORMAT) ≠ [] →
        (downloadTokens cfg m url nowYear).value TokenName.date =
          formatDateParts (some p) (orElseStr cfg.dateFormat DEFAULT_DATE_FORMAT)) ∧
      (formatDateParts (some p) (orElseStr cfg.dateFormat DEFAULT_DATE_FORMAT) = [] →
        (downloadTokens cfg m url nowYear).value TokenName.date = trimmedOrEmpty m.itemDate)) ∧
    (resolveDateParts m nowYear = none →
      (downloadTokens cfg m url nowYear).value TokenName.date = m.itemDate.getD []) := by
  constructor
  · intro p hp
    have e : (downloadTokens cfg m url nowYear).value TokenName.date =
        orElseStr (formatDateParts (some p) (orElseStr cfg.dateFormat DEFAULT_DATE_FORMAT))
          (trimmedOrEmpty m.itemDate) := by
      simp only [downloadTokens, Tokens.value, hp]
    rw [e]
    generalize formatDateParts (some p) (orElseStr cfg.dateFormat DEFAULT_DATE_FORMAT) = f
    constructor
    · intro hne
      simp [orElseStr, hne]
    · intro he
      simp [orElseStr, he]
  · intro hn
    cases hd : m.itemDate with
    | none => simp [downloadTokens, Tokens.value, hn, hd, orElseStr, trimmedOrEmpty]
    | some s =>
      by_cases hs : s = []
      · subst hs
        have : trim [] = [] := rfl
        simp [downloadTokens, Tokens.value, hn, hd, orElseStr, trimmedOrEmpty, this]
      · simp [downloadTokens, Tokens.value, hn, hd, orElseStr, hs]

theorem downloadTokens_date_witness :
    (resolveDateParts modalMeta 2026
        = some { day := 20, month := 12, year := 2025, hour := some 0, minute := some 0 } ∧
      (downloadTokens defaultSettings modalMeta (js "https://a.b/c/d.pdf") 2026).value TokenName.date
        = js "2025-12-20_0000") ∧
    (resolveDateParts { itemDate := some (js " bald ") } 2026 = none ∧
      (downloadTokens defaultSettings { itemDate := some (js " bald ") } (js "https://a.b/c/d.pdf")
        2026).value TokenName.date = js " bald ") :=
  ⟨⟨by decide,
      (((downloadTokens_date defaultSettings modalMeta (js "https://a.b/c/d.pdf") 2026).1
        (DateParts.mk 20 12 2025 (some 0) (some 0)) (by decide)).1 (by decide)).trans (by decide)⟩,
    ⟨by decide,
      ((downloadTokens_date defaultSettings { itemDate := some (js " bald ") }
        (js "https://a.b/c/d.pdf") 2026).2 (by decide)).trans (by decide)⟩⟩

/-- C21 (counterexample). With the date format `hhmm` and no time known the date
text `20.12.` parses and `formatDateParts` gives the empty text, yet the value of
the `{date}` token is `20.12.`, which also shows in the name. -/
theorem downloadTokens_date_not_formatted :
    resolveDateParts rowMeta 2026 = some { day := 20, month := 12, year := 2024 } ∧
    formatDateParts (resolveDateParts rowMeta 2026) timeOnlySettings.dateFormat = [] ∧
    (downloadTokens timeOnlySettings rowMeta (js "https://a.b/c/d.pdf") 2026).value TokenName.date
      = js "20.12." ∧
    buildDownloadName timeOnlySettings rowMeta (js "https://a.b/c/d.pdf") 2026
      = js "20.12._Kauf.pdf" := by
  decide

/-! ## buildDownloadName: the calendar year -/

theorem parseDateString_year_free (str : JsString) (fb y1 y2 : Nat) (hfb : fb ≠ 0) :
    parseDateString str fb y1 = parseDateString str fb y2 := by
  have h : ∀ y, orElseNat fb y = fb := by intro y; simp [orElseNat, hfb]
  rw [parseDateString_eq, parseDateString_eq, h, h]

theorem resolveDateParts_year_free (m : Meta) (y1 y2 : Nat)
    (hy : (∃ a, m.itemYear = some a ∧ a ≠ 0) ∨ (∃ b, m.modalYear = some b ∧ b ≠ 0)) :
    resolveDateParts m y1 = resolveDateParts m y2 := by
  have key : ∃ fb, fb ≠ 0 ∧ ∀ y, orElseNat (m.modalYear.getD 0) (orElseNat (m.itemYear.getD 0) y) = fb := by
    rcases hy with ⟨a, ha, ha0⟩ | ⟨b, hb, hb0⟩
    · by_cases hm : m.modalYear.getD 0 = 0
      · exact ⟨a, ha0, fun y => by simp [orElseNat, hm, ha, ha0]⟩
      · exact ⟨m.modalYear.getD 0, hm, fun y => by simp [orElseNat, hm]⟩
    · exact ⟨b, hb0, fun y => by simp [orElseNat, hb, hb0]⟩
  obtain ⟨fb, hfb, hk⟩ := key
  unfold resolveDateParts
  simp only [hk]
  rw [parseDateString_year_free _ fb y1 y2 hfb]

/-- C22 (as amended). For fixed settings the name is a function of meta, url and
the current calendar year; it does not depend on the calendar year when custom
naming is disabled or when the meta carries a year (`itemYear` or `modalYear`),
as every meta built from a timeline item does. -/
theorem buildDownloadName_year_free (cfg : Settings) (m : Meta) (url : JsString) (y1 y2 : Nat)
    (h : cfg.useCustomNames = false ∨ (∃ a, m.itemYear = some a ∧ a ≠ 0) ∨
      (∃ b, m.modalYear = some b ∧ b ≠ 0)) :
    buildDownloadName cfg m url y1 = buildDownloadName cfg m url y2 := by
  rcases h with h | h
  · simp [buildDownloadName, downloadBase, h]
  · have hr := resolveDateParts_year_free m y1 y2 h
    have ht : downloadTokens cfg m url y1 = downloadTokens cfg m url y2 := by
      simp only [downloadTokens, hr]
    simp only [buildDownloadName, downloadBase, filledTemplate, ht]

theorem buildDownloadName_year_free_witness :
    (defaultSettings.useCustomNames = false ∨ (∃ a, rowMeta.itemYear = some a ∧ a ≠ 0) ∨
      (∃ b, rowMeta.modalYear = some b ∧ b ≠ 0)) ∧
    buildDownloadName defaultSettings rowMeta (js "https://a.b/c/d.pdf") 2026
      = buildDownloadName defaultSettings rowMeta (js "https://a.b/c/d.pdf") 2027 ∧
    buildDownloadName defaultSettings rowMeta (js "https://a.b/c/d.pdf") 2026
      = js "2024-12-20_Kauf_x_d.pdf" :=
  ⟨Or.inr (Or.inl ⟨2024, rfl, by decide⟩),
    buildDownloadName_year_free defaultSettings rowMeta (js "https://a.b/c/d.pdf") 2026 2027
      (Or.inr (Or.inl ⟨2024, rfl, by decide⟩)),
    by decide⟩

/-- C22 (counterexample). For a meta without any year the same meta and url give
two different names in the calendar years 2026 and 2027. -/
theorem buildDownloadName_depends_on_year :
    buildDownloadName defaultSettings yearlessMeta (js "https://a.b/c/d.pdf") 2026
      = js "2026-12-20_Kauf_d.pdf" ∧
    buildDownloadName defaultSettings yearlessMeta (js "https://a.b/c/d.pdf") 2027
      = js "2027-12-20_Kauf_d.pdf" ∧
    buildDownloadName defaultSettings yearlessMeta (js "https://a.b/c/d.pdf") 2026
      ≠ buildDownloadName defaultSettings yearlessMeta (js "https://a.b/c/d.pdf") 2027 := by
  decide

/-! ## Range resolution: a single bound -/

theorem parseInputDate_open {today : Int} {nowYear : Nat} {val : JsString} (b : Bool)
    (h : isOpenSentinel val) :
    (parseInputDate today nowYear val b).date = none ∧
    (parseInputDate today nowYear val b).invalid = false := by
  have hc : toLowerCase (trim val) = [] ∨ toLowerCase (trim val) = js "ende" ∨
      toLowerCase (trim val) = js "end" ∨ toLowerCase (trim val) = js "anfang" ∨
      toLowerCase (trim val) = js "start" := by
    simpa [isOpenSentinel] using h
  unfold parseInputDate
  simp only [hc, if_true, and_self]

/-- C29. When one range field holds a date `D` and the other is empty or one of the
sentinels `anfang`, `start`, `ende`, `end` (any letter case), the range has one
bound, on the side of the field that holds `D`: typed into "from" it is the lower
bound and there is no upper bound, typed into "to" it is the upper bound and
there is no lower bound. -/
theorem resolveRange_single_bound (today : Int) (nowYear : Nat) (D S : JsString) (d : Int)
    (hD : (parseInputDate today nowYear D true).date = some d) (hS : isOpenSentinel S) :
    (∃ r, resolveRange today nowYear D S = some r ∧ r.lowerDate = some d ∧ r.upperDate = none) ∧
    (∃ r, resolveRange today nowYear S D = some r ∧ r.lowerDate = none ∧ r.upperDate = some d) := by
  have hD2 : (parseInputDate today nowYear D false).date = some d :=
    ((parseInputDate_field today nowYear D false true).1).trans hD
  have vD := parseInputDate_valid_of_date hD
  have vD2 := parseInputDate_valid_of_date hD2
  obtain ⟨s1, s2⟩ := @parseInputDate_open today nowYear S true hS
  obtain ⟨s3, s4⟩ := @parseInputDate_open today nowYear S false hS
  constructor
  · simp [resolveRange, vD, s4, orderBounds, hD, s3]
  · simp [resolveRange, vD2, s2, orderBounds, hD2, s1]

theorem resolveRange_single_bound_witness :
    ((parseInputDate 20000 2026 (js "01.06.2023") true).date = some (jsDate 2023 6 1) ∧
      isOpenSentinel (js " ENDE ")) ∧
    (∃ r, resolveRange 20000 2026 (js "01.06.2023") (js " ENDE ") = some r ∧
      r.lowerDate = some (jsDate 2023 6 1) ∧ r.upperDate = none) ∧
    (∃ r, resolveRange 20000 2026 (js " ENDE ") (js "01.06.2023") = some r ∧
      r.lowerDate = none ∧ r.upperDate = some (jsDate 2023 6 1)) :=
  ⟨by decide,
    (resolveRange_single_bound 20000 2026 (js "01.06.2023") (js " ENDE ") (jsDate 2023 6 1)
      (by decide) (by decide)).1,
    (resolveRange_single_bound 20000 2026 (js "01.06.2023") (js " ENDE ") (jsDate 2023 6 1)
      (by decide) (by decide)).2⟩

/-! ## The run loop: rows without a date -/

theorem runLoop_matched_mono (env : RunEnv) (r : RunRange) (endIdx : Nat)
    (items : List TimelineItem) :
    ∀ k m, m ≤ (runLoop env r endIdx k items m).matchedItems := by
  induction items with
  | nil => intro k m; simp [runLoop]
  | cons it rest ih =>
    intro k m
    simp only [runLoop]
    split_ifs
    · exact Nat.le_refl _
    · exact Nat.le_refl _
    · exact ih _ _
    · exact Nat.le_trans (Nat.le_succ m) (ih (k + 1) (m + 1))
    · exact Nat.le_trans (Nat.le_succ m) (ih (k + 1) (m + 1))

theorem runLoop_opens_undated (env : RunEnv) (r : RunRange) (endIdx : Nat)
    (items : List TimelineItem) :
    ∀ k m i it, items[i]? = some it → itemDateObj env.nowYear it = none →
      (∀ j, k ≤ j → j ≤ k + i → env.stopFlagAt j = false) →
      (∀ j, k ≤ j → j ≤ k + i → env.sessionOk j = true) →
      (k + i) ∈ openedItems (runLoop env r endIdx k items m).events ∧
        m < (runLoop env r endIdx k items m).matchedItems := by
  induction items with
  | nil => intro k m i it h; simp at h
  | cons x rest ih =>
    intro k m i it hget hnone hstop hsess
    have hs0 := hstop k (Nat.le_refl _) (Nat.le_add_right _ _)
    have hk0 := hsess k (Nat.le_refl _) (Nat.le_add_right _ _)
    cases i with
    | zero =>
      simp only [List.getElem?_cons_zero, Option.some.injEq] at hget
      subst hget
      have ho : outsideRange r (itemDateObj env.nowYear x) = false := by rw [hnone]; rfl
      have hmono := runLoop_matched_mono env r endIdx rest (k + 1) (m + 1)
      by_cases hv : env.overlayVisible k = true
      · refine ⟨?_, ?_⟩
        · simp [runLoop, hs0, hk0, ho, hv, LoopResult.after, openedItems_append,
            openedItems_status, openedItems_openItem]
        · simp only [runLoop, hs0, hk0, ho, hv, LoopResult.after]
          simp only [Bool.false_eq_true, if_false, Bool.not_true, Bool.not_false]
          omega
      · refine ⟨?_, ?_⟩
        · simp [runLoop, hs0, hk0, ho, hv, LoopResult.after, openedItems_append,
            openedItems_status, openedItems_openItem]
        · simp only [runLoop, hs0, hk0, ho, hv, LoopResult.after]
          simp only [Bool.false_eq_true, if_false, Bool.not_true, Bool.not_false, if_true]
          omega
    | succ i =>
      simp only [List.getElem?_cons_succ] at hget
      have ih1 := fun m => ih (k + 1) m i it hget hnone
        (fun j h1 h2 => hstop j (by omega) (by omega))
        (fun j h1 h2 => hsess j (by omega) (by omega))
      have e : k + (i + 1) = k + 1 + i := by omega
      rw [e]
      by_cases ho : outsideRange r (itemDateObj env.nowYear x) = true
      · simpa [runLoop, hs0, hk0, ho] using ih1 m
      · obtain ⟨h1, h2⟩ := ih1 (m + 1)
        by_cases hv : env.overlayVisible k = true
        · refine ⟨?_, ?_⟩
          · simp [runLoop, hs0, hk0, ho, hv, LoopResult.after, openedItems_append,
              openedItems_status, openedItems_openItem, openedItems_closeOverlay,
              openedItems_docClicks, h1]
          · simp only [runLoop, hs0, hk0, ho, hv, LoopResult.after]
            simp only [Bool.false_eq_true, if_false, Bool.not_true, Bool.not_false]
            omega
        · refine ⟨?_, ?_⟩
          · simp [runLoop, hs0, hk0, ho, hv, LoopResult.after, openedItems_append,
              openedItems_status, openedItems_openItem, h1]
          · simp only [runLoop, hs0, hk0, ho, hv, LoopResult.after]
            simp only [Bool.false_eq_true, if_false, Bool.not_true, Bool.not_false, if_true]
            omega

theorem runLoop_none_matched (env : RunEnv) (r : RunRange) (endIdx : Nat)
    (items : List TimelineItem) :
    ∀ k m, (runLoop env r endIdx k items m).stopFlag = false →
      (runLoop env r endIdx k items m).matchedItems = m →
      (∀ it ∈ items, ∃ d, itemDateObj env.nowYear it = some d ∧ outsideRange r (some d) = true) ∧
      (∀ j, k ≤ j → j ≤ k + items.length → env.stopFlagAt j = false) ∧
      (∀ j, k ≤ j → j < k + items.length → env.sessionOk j = true) := by
  induction items with
  | nil =>
    intro k m hs _
    refine ⟨by simp, ?_, ?_⟩
    · intro j h1 h2
      have : j = k := by simp at h2; omega
      subst this
      simpa [runLoop] using hs
    · intro j h1 h2
      simp at h2; omega
  | cons x rest ih =>
    intro k m hs hm
    by_cases hs0 : env.stopFlagAt k = true
    · simp [runLoop, hs0] at hs
    · by_cases hk0 : env.sessionOk k = true
      · by_cases ho : outsideRange r (itemDateObj env.nowYear x) = true
        · simp only [runLoop, hs0, hk0, ho, Bool.false_eq_true, if_false, Bool.not_true,
            if_true] at hs hm
          obtain ⟨h1, h2, h3⟩ := ih (k + 1) m hs hm
          have hx : ∃ d, itemDateObj env.nowYear x = some d ∧ outsideRange r (some d) = true := by
            cases hd : itemDateObj env.nowYear x with
            | none => rw [hd] at ho; simp [outsideRange] at ho
            | some d => exact ⟨d, rfl, by rw [← hd]; exact ho⟩
          refine ⟨?_, ?_, ?_⟩
          · intro it hit
            rcases List.mem_cons.mp hit with rfl | hit
            · exact hx
            · exact h1 it hit
          · intro j hj1 hj2
            by_cases e : j = k
            · subst e; simpa using hs0
            · exact h2 j (by omega) (by simp at hj2; omega)
          · intro j hj1 hj2
            by_cases e : j = k
            · subst e; exact hk0
            · exact h3 j (by omega) (by simp at hj2; omega)
        · have hmono := runLoop_matched_mono env r endIdx rest (k + 1) (m + 1)
          by_cases hv : env.overlayVisible k = true
          · simp only [runLoop, hs0, hk0, ho, hv, LoopResult.after, Bool.false_eq_true, if_false,
              Bool.not_true] at hm
            omega
          · simp only [runLoop, hs0, hk0, ho, hv, LoopResult.after, Bool.false_eq_true, if_false,
              Bool.not_true, Bool.not_false, if_true] at hm
            omega
      · simp [runLoop, hs0, hk0] at hs

/-- C30. A row whose date cannot be resolved is never filtered out: whatever the
bounds, when the loop reaches it the row counts as matched and is opened. So the
status "no entries in date range" is set only if every row has a resolvable date
outside the bounds, no stop was requested and the session held. -/
theorem runLoop_undated_rows (env : RunEnv) (r : RunRange) (endIdx : Nat)
    (items : List TimelineItem) :
    (∀ i it, items[i]? = some it → itemDateObj env.nowYear it = none →
      (∀ j, j ≤ i → env.stopFlagAt j = false) → (∀ j, j ≤ i → env.sessionOk j = true) →
      i ∈ openedItems (runLoop env r endIdx 0 items 0).events ∧
        0 < (runLoop env r endIdx 0 items 0).matchedItems ∧
        finalStatus (runLoop env r endIdx 0 items 0) ≠ Status.noRange) ∧
    (finalStatus (runLoop env r endIdx 0 items 0) = Status.noRange →
      (∀ it ∈ items, ∃ d, itemDateObj env.nowYear it = some d ∧ outsideRange r (some d) = true) ∧
      (∀ j, j ≤ items.length → env.stopFlagAt j = false) ∧
      (∀ j, j < items.length → env.sessionOk j = true)) := by
  constructor
  · intro i it hget hnone hstop hsess
    obtain ⟨h1, h2⟩ := runLoop_opens_undated env r endIdx items 0 0 i it hget hnone
      (fun j _ h => hstop j (by omega)) (fun j _ h => hsess j (by omega))
    rw [Nat.zero_add] at h1
    refine ⟨h1, h2, ?_⟩
    have h3 : ((runLoop env r endIdx 0 items 0).matchedItems == 0) = false := by
      simp only [beq_eq_false_iff_ne, ne_eq]; omega
    unfold finalStatus
    rw [h3]
    simp only [Bool.and_false, Bool.false_eq_true, if_false]
    split <;> simp
  · intro hf
    have h : (runLoop env r endIdx 0 items 0).stopFlag = false ∧
        (runLoop env r endIdx 0 items 0).matchedItems = 0 := by
      unfold finalStatus at hf
      split at hf
      · rename_i hc
        simpa using hc
      · split at hf <;> simp at hf
    obtain ⟨h1, h2, h3⟩ := runLoop_none_matched env r endIdx items 0 0 h.1 h.2
    exact ⟨h1, fun j hj => h2 j (Nat.zero_le _) (by omega), fun j hj => h3 j (Nat.zero_le _) (by omega)⟩


theorem runLoop_undated_rows_witness :
    (undatedItems[1]? = some ⟨js "B", js "", js "bald", 2024⟩ ∧
      itemDateObj (pageEnv undatedItems none).nowYear ⟨js "B", js "", js "bald", 2024⟩ = none) ∧
    (1 ∈ openedItems (runLoop (pageEnv undatedItems none)
        { lowerDate := some (jsDate 2025 1 1) } 1 0 undatedItems 0).events ∧
      0 < (runLoop (pageEnv undatedItems none)
        { lowerDate := some (jsDate 2025 1 1) } 1 0 undatedItems 0).matchedItems ∧
      finalStatus (runLoop (pageEnv undatedItems none)
        { lowerDate := some (jsDate 2025 1 1) } 1 0 undatedItems 0) ≠ Status.noRange) ∧
    openedItems (runLoop (pageEnv undatedItems none)
      { lowerDate := some (jsDate 2025 1 1) } 1 0 undatedItems 0).events = [1] :=
  ⟨by decide,
    (runLoop_undated_rows (pageEnv undatedItems none) { lowerDate := some (jsDate 2025 1 1) } 1
      undatedItems).1 1 ⟨js "B", js "", js "bald", 2024⟩ (by decide) (by decide)
      (fun _ _ => rfl) (fun _ _ => rfl),
    by decide⟩
/-! ## extractModalTimeInfo -/

theorem searchFirst_eq_some_iff {α : Type} (f : JsString → Option α) (s : JsString) (x : α) :
    searchFirst f s = some x ↔ ∃ n, FirstMatchAt f s n x := by
  induction s with
  | nil =>
    simp only [searchFirst, FirstMatchAt, List.length_nil, Nat.le_zero_eq, List.drop_nil]
    constructor
    · intro h; exact ⟨0, rfl, h, fun k hk => absurd hk (Nat.not_lt_zero _)⟩
    · rintro ⟨n, -, h, -⟩; exact h
  | cons c cs ih =>
    cases hf : f (c :: cs) with
    | some y =>
      simp only [searchFirst, hf]
      constructor
      · intro h
        exact ⟨0, Nat.zero_le _, by simpa [hf] using h, fun k hk => absurd hk (Nat.not_lt_zero _)⟩
      · rintro ⟨n, -, h1, h2⟩
        cases n with
        | zero => simpa [hf] using h1
        | succ n =>
          have := h2 0 (Nat.succ_pos _)
          simp [hf] at this
    | none =>
      simp only [searchFirst, hf]
      rw [ih]
      constructor
      · rintro ⟨n, h0, h1, h2⟩
        refine ⟨n + 1, by simpa using h0, by simpa using h1, ?_⟩
        intro k hk
        cases k with
        | zero => simpa using hf
        | succ k => simpa using h2 k (by omega)
      · rintro ⟨n, h0, h1, h2⟩
        cases n with
        | zero => simp [hf] at h1
        | succ n =>
          refine ⟨n, by simpa using h0, by simpa using h1, ?_⟩
          intro k hk
          simpa using h2 (k + 1) (by omega)

theorem searchFirst_eq_none_iff {α : Type} (f : JsString → Option α) (s : JsString) :
    searchFirst f s = none ↔ ∀ n, n ≤ s.length → f (s.drop n) = none := by
  induction s with
  | nil =>
    simp only [searchFirst, List.length_nil, Nat.le_zero_eq, List.drop_nil]
    constructor
    · intro h n _; exact h
    · intro h; exact h 0 rfl
  | cons c cs ih =>
    cases hf : f (c :: cs) with
    | some y =>
      simp only [searchFirst, hf]
      constructor
      · intro h; simp at h
      · intro h
        have := h 0 (Nat.zero_le _)
        simp [hf] at this
    | none =>
      simp only [searchFirst, hf]
      rw [ih]
      constructor
      · intro h n hn
        cases n with
        | zero => simpa using hf
        | succ n => simpa using h n (by simpa using hn)
      · intro h n hn
        simpa using h (n + 1) (by simpa using hn)

/-- A match of the year pattern: `19` or `20`, two digits, and no colon after
optional whitespace; the value is the number written. -/
theorem yearAt_eq_some_iff (s : JsString) (y : Nat) :
    yearAt s = some y ↔
      ∃ a b c d rest, s = a :: b :: c :: d :: rest ∧ ([a, b] = js "19" ∨ [a, b] = js "20") ∧
        isDigit c = true ∧ isDigit d = true ∧ colonAhead rest = false ∧
        y = parseInt [a, b, c, d] := by
  have e19 : js "19" = [49, 57] := by decide
  have e20 : js "20" = [50, 48] := by decide
  constructor
  · intro h
    match s, h with
    | a :: b :: c :: d :: rest, h =>
      simp only [yearAt] at h
      split at h
      · rename_i hc
        simp only [Bool.and_eq_true, Bool.or_eq_true, beq_iff_eq, Bool.not_eq_true'] at hc
        obtain ⟨⟨⟨hab, hc1⟩, hd1⟩, hco⟩ := hc
        simp only [Option.some.injEq] at h
        refine ⟨a, b, c, d, rest, rfl, ?_, hc1, hd1, hco, h.symm⟩
        rcases hab with ⟨rfl, rfl⟩ | ⟨rfl, rfl⟩
        · left; rw [e19]
        · right; rw [e20]
      · simp at h
  · rintro ⟨a, b, c, d, rest, rfl, hab, hc, hd, hco, rfl⟩
    rw [e19, e20] at hab
    have hab2 : (a = 49 ∧ b = 57) ∨ (a = 50 ∧ b = 48) := by
      rcases hab with h | h <;> simp only [List.cons.injEq, and_true] at h
      · exact Or.inl h
      · exact Or.inr h
    simp [yearAt, hab2, hc, hd, hco]

theorem yearAt_range {s : JsString} {y : Nat} (h : yearAt s = some y) : 1900 ≤ y ∧ y ≤ 2099 := by
  obtain ⟨a, b, c, d, rest, -, hab, hc, hd, -, rfl⟩ := (yearAt_eq_some_iff s y).mp h
  have e19 : js "19" = [49, 57] := by decide
  have e20 : js "20" = [50, 48] := by decide
  rw [isDigit_iff] at hc hd
  rw [e19, e20] at hab
  rcases hab with h | h <;> simp only [List.cons.injEq, and_true] at h <;>
    obtain ⟨rfl, rfl⟩ := h <;> simp [parseInt] <;> omega

theorem minuteAfter_some {r g2 : JsString} (h : minuteAfter r = some g2) :
    g2.length = 2 ∧ (∀ c ∈ g2, isDigit c = true) ∧ ∃ rest, r = 58 :: (g2 ++ rest) := by
  unfold minuteAfter at h
  split at h
  · rename_i r1
    split at h
    · rename_i g r2 ht
      simp only [Option.some.injEq] at h
      subst h
      obtain ⟨hg, hr, hl, hd⟩ := takeDigits_eq_some ht
      refine ⟨hl, hd, r2, ?_⟩
      rw [hg, hr, List.take_append_drop]
    · simp at h
  · simp at h

/-- A match of the time pattern: one or two digits, a colon and two digits. -/
theorem timeAt_some {s : JsString} {g : JsString × JsString} (h : timeAt s = some g) :
    isShortNumber g.1 ∧ g.2.length = 2 ∧ (∀ c ∈ g.2, isDigit c = true) ∧
      ∃ rest, s = g.1 ++ 58 :: (g.2 ++ rest) := by
  have key : ∀ k, (k = 1 ∨ k = 2) → ∀ g1 r g2, takeDigits k s = some (g1, r) →
      minuteAfter r = some g2 →
      isShortNumber g1 ∧ g2.length = 2 ∧ (∀ c ∈ g2, isDigit c = true) ∧
        ∃ rest, s = g1 ++ 58 :: (g2 ++ rest) := by
    intro k hk g1 r g2 h1 h2
    obtain ⟨hl, hd, rest, hr⟩ := minuteAfter_some h2
    obtain ⟨hg, hr1, -, -⟩ := takeDigits_eq_some h1
    refine ⟨takeDigits_short hk h1, hl, hd, rest, ?_⟩
    rw [← hr, hg, hr1, List.take_append_drop]
  have one : ∀ g1 r, takeDigits 1 s = some (g1, r) →
      (minuteAfter r).map (fun g2 => (g1, g2)) = some g →
      isShortNumber g.1 ∧ g.2.length = 2 ∧ (∀ c ∈ g.2, isDigit c = true) ∧
        ∃ rest, s = g.1 ++ 58 :: (g.2 ++ rest) := by
    intro g1 r h1 h2
    cases hm : minuteAfter r with
    | none => rw [hm] at h2; simp at h2
    | some g2 =>
      rw [hm] at h2
      simp only [Option.map_some', Option.some.injEq] at h2
      subst h2
      exact key 1 (Or.inl rfl) g1 r g2 h1 hm
  unfold timeAt at h
  simp only at h
  split at h
  · rename_i g1 r h1
    split at h
    · rename_i g2 h2
      simp only [Option.some.injEq] at h
      subst h
      exact key 2 (Or.inr rfl) g1 r g2 h1 h2
    · split at h
      · rename_i g1b rb h1b
        exact one g1b rb h1b h
      · simp at h
  · split at h
    · rename_i g1b rb h1b
      exact one g1b rb h1b h
    · simp at h

/-- C28. As a function of the modal header text, `extractModalTimeInfo` returns as
`modalYear` the first 19xx/20xx four-digit number that is not followed by a colon
(unset when the text has none), and as `modalHour` and `modalMinute` the first
`H:MM` or `HH:MM` time. -/
theorem extractModalTimeInfo_first_matches (raw : JsString) (htext : trim raw ≠ []) :
    (∀ y, (extractModalTimeInfo (some raw)).modalYear = some y ↔
      ∃ n, FirstMatchAt yearAt (trim raw) n y) ∧
    ((extractModalTimeInfo (some raw)).modalYear = none ↔
      ∀ n, n ≤ (trim raw).length → yearAt ((trim raw).drop n) = none) ∧
    (∀ h mi, ((extractModalTimeInfo (some raw)).modalHour = some h ∧
        (extractModalTimeInfo (some raw)).modalMinute = some mi) ↔
      ∃ n g, FirstMatchAt timeAt (trim raw) n g ∧ h = parseInt g.1 ∧ mi = parseInt g.2) ∧
    (∀ s y, yearAt s = some y ↔
      ∃ a b c d rest, s = a :: b :: c :: d :: rest ∧ ([a, b] = js "19" ∨ [a, b] = js "20") ∧
        isDigit c = true ∧ isDigit d = true ∧ colonAhead rest = false ∧
        y = parseInt [a, b, c, d]) ∧
    (∀ s g, timeAt s = some g →
      isShortNumber g.1 ∧ g.2.length = 2 ∧ (∀ c ∈ g.2, isDigit c = true) ∧
        ∃ rest, s = g.1 ++ 58 :: (g.2 ++ rest)) := by
  have e : extractModalTimeInfo (some raw) =
      { modalYear := searchFirst yearAt (trim raw)
        modalHour := (searchFirst timeAt (trim raw)).map (fun g => parseInt g.1)
        modalMinute := (searchFirst timeAt (trim raw)).map (fun g => parseInt g.2) } := by
    simp [extractModalTimeInfo, htext]
  refine ⟨?_, ?_, ?_, yearAt_eq_some_iff, fun s g h => timeAt_some h⟩
  · intro y
    rw [e]
    exact searchFirst_eq_some_iff yearAt (trim raw) y
  · rw [e]
    exact searchFirst_eq_none_iff yearAt (trim raw)
  · intro h mi
    rw [e]
    simp only
    constructor
    · rintro ⟨h1, h2⟩
      cases hs : searchFirst timeAt (trim raw) with
      | none => rw [hs] at h1; simp at h1
      | some g =>
        rw [hs] at h1 h2
        simp only [Option.map_some', Option.some.injEq] at h1 h2
        obtain ⟨n, hn⟩ := (searchFirst_eq_some_iff timeAt (trim raw) g).mp hs
        exact ⟨n, g, hn, h1.symm, h2.symm⟩
    · rintro ⟨n, g, hn, rfl, rfl⟩
      have hs := (searchFirst_eq_some_iff timeAt (trim raw) g).mpr ⟨n, hn⟩
      rw [hs]
      simp

theorem extractModalTimeInfo_first_matches_witness :
    (trim (js "24. Juni um 16:41") ≠ [] ∧
      extractModalTimeInfo (some (js "24. Juni um 16:41"))
        = { modalYear := none, modalHour := some 16, modalMinute := some 41 } ∧
      ∀ n, n ≤ (trim (js "24. Juni um 16:41")).length →
        yearAt ((trim (js "24. Juni um 16:41")).drop n) = none) ∧
    (trim (js "25. Juni 2025 um 10:39") ≠ [] ∧
      extractModalTimeInfo (some (js "25. Juni 2025 um 10:39"))
        = { modalYear := some 2025, modalHour := some 10, modalMinute := some 39 } ∧
      ∃ n, FirstMatchAt yearAt (trim (js "25. Juni 2025 um 10:39")) n 2025) :=
  ⟨⟨by decide, by decide,
      (extractModalTimeInfo_first_matches (js "24. Juni um 16:41") (by decide)).2.1.mp (by decide)⟩,
    ⟨by decide, by decide,
      ((extractModalTimeInfo_first_matches (js "25. Juni 2025 um 10:39") (by decide)).1 2025).mp
        (by decide)⟩⟩

/-! ## The download interceptor -/

theorem trackerInv_windows {s : TrackerState} (h : TrackerInv s) (p c : List Nat) (n : Nat)
    (hn : s.nextTimerId ≤ n) :
    TrackerInv { s with pendingPopups := p, closedWindows := c, nextTimerId := n } := by
  obtain ⟨h1, h2, h3⟩ := h
  exact ⟨h1, h2, le_trans h3 hn⟩

theorem queueGmDownload_cases (h : Host) (m : Meta) (u : JsString) (fb : Fallback) (s : PageState) :
    queueGmDownload h m u fb s = (false, s) ∨
    (h.gm = GmMode.accepts ∧ queueGmDownload h m u fb s = (true, { s with
      downloads := s.downloads ++
        [{ url := u, name := buildDownloadName h.cfg m u h.nowYear, saveAs := false,
           fallback := fb }]
      tracker := (downloadTracker.consume s.tracker).2 })) := by
  unfold queueGmDownload
  cases h.gm <;> simp

theorem queueGmDownload_accepts (h : Host) (m : Meta) (u : JsString) (fb : Fallback) (s : PageState)
    (hg : h.gm = GmMode.accepts) :
    queueGmDownload h m u fb s = (true, { s with
      downloads := s.downloads ++
        [{ url := u, name := buildDownloadName h.cfg m u h.nowYear, saveAs := false,
           fallback := fb }]
      tracker := (downloadTracker.consume s.tracker).2 }) := by
  unfold queueGmDownload
  rw [hg]

theorem consume_fields (s : TrackerState) :
    (downloadTracker.consume s).2.pending = none ∧ (downloadTracker.consume s).2.timer = none ∧
    (downloadTracker.consume s).2.pendingPopups = [] ∧
    (downloadTracker.consume s).2.closedWindows = s.closedWindows ++ s.pendingPopups ∧
    (downloadTracker.consume s).2.hooksEnabled = false := by
  unfold downloadTracker.consume clearTimerIfSet closePendingPopups
  cases ht : s.timer with
  | none => simp
  | some t => by_cases h0 : t = 0 <;> simp [h0]

theorem runFallback_tracker (fb : Fallback) (s : PageState) :
    (runFallback fb s).tracker = s.tracker ∧ (runFallback fb s).downloads = s.downloads := by
  cases fb <;> simp only [runFallback] <;> try split
  all_goals simp

theorem hookedNavigation_shape (h : Host) (loc : Nat) (url : UrlArg) (fb : Fallback) (s : PageState) :
    ((hookedNavigation h loc url fb s).downloads = s.downloads ∧
      (hookedNavigation h loc url fb s).tracker = s.tracker) ∨
    (∃ r c, s.tracker.pending.isSome = true ∧
      (hookedNavigation h loc url fb s).downloads = s.downloads ++ [r] ∧
      (hookedNavigation h loc url fb s).tracker
        = { (downloadTracker.consume s.tracker).2 with closedWindows := c }) := by
  unfold hookedNavigation interceptLocationNavigation downloadTracker.peek
  cases hp : s.tracker.pending with
  | none => left; simp [runFallback_tracker]
  | some m =>
    by_cases hl : loc ∈ s.trackedLocations
    · cases hu : nonBlankString url with
      | none => left; simp [hl, runFallback_tracker]
      | some u =>
        rcases queueGmDownload_cases h m u fb s with hq | ⟨-, hq⟩
        · left; simp [hl, hq, runFallback_tracker]
        · right
          refine ⟨DownloadRequest.mk u (buildDownloadName h.cfg m u h.nowYear) false fb,
            (downloadTracker.consume s.tracker).2.closedWindows ++ [loc], rfl, ?_, ?_⟩
          · simp only [hl, hq, if_true]
          · simp only [hl, hq, if_true]
    · left; simp [hl, runFallback_tracker]

theorem trackPopup_shape (w : Nat) (s : PageState) :
    (trackPopup w s).downloads = s.downloads ∧
    ∃ p n, s.tracker.nextTimerId ≤ n ∧
      (trackPopup w s).tracker = { s.tracker with pendingPopups := p, nextTimerId := n } := by
  unfold trackPopup downloadTracker.hasPending
  cases hp : s.tracker.pending with
  | none =>
    exact ⟨by simp [hp], setAdd w s.tracker.pendingPopups, s.tracker.nextTimerId + 1, Nat.le_succ _,
      by simp [hp]⟩
  | some m =>
    exact ⟨by simp [hp], setAdd w s.tracker.pendingPopups, s.tracker.nextTimerId, le_refl _,
      by simp [hp]⟩

theorem openOriginal_shape (url : UrlArg) (opens : Bool) (s : PageState) :
    (openOriginal url opens s).2.downloads = s.downloads ∧
    ∃ p n, s.tracker.nextTimerId ≤ n ∧
      (openOriginal url opens s).2.tracker = { s.tracker with pendingPopups := p, nextTimerId := n } := by
  unfold openOriginal
  cases opens with
  | false => exact ⟨by simp, s.tracker.pendingPopups, s.tracker.nextTimerId, le_refl _, by simp⟩
  | true =>
    simp only [if_true]
    exact trackPopup_shape _ _

theorem hookedOpen_shape (h : Host) (url : UrlArg) (opens : Bool) (s : PageState) :
    ((hookedOpen h url opens s).2.downloads = s.downloads ∧
      ∃ p n, s.tracker.nextTimerId ≤ n ∧
        (hookedOpen h url opens s).2.tracker = { s.tracker with pendingPopups := p, nextTimerId := n }) ∨
    (∃ r, s.tracker.pending.isSome = true ∧
      (hookedOpen h url opens s).2.downloads = s.downloads ++ [r] ∧
      (hookedOpen h url opens s).2.tracker = (downloadTracker.consume s.tracker).2) := by
  unfold hookedOpen downloadTracker.peek
  cases hp : s.tracker.pending with
  | none => left; exact openOriginal_shape url opens s
  | some m =>
    cases hu : nonBlankString url with
    | none => left; exact openOriginal_shape url opens s
    | some u =>
      rcases queueGmDownload_cases h m u (Fallback.prevOpen url) s with hq | ⟨-, hq⟩
      · left; simp only [hq]; exact openOriginal_shape url opens s
      · right
        exact ⟨DownloadRequest.mk u (buildDownloadName h.cfg m u h.nowYear) false
          (Fallback.prevOpen url), rfl, by simp only [hq], by simp only [hq]⟩

theorem set_pending (m : Meta) (s : TrackerState) : (downloadTracker.set m s).pending = some m := by
  unfold downloadTracker.set clearTimerIfSet
  cases ht : s.timer with
  | none => simp
  | some t => by_cases h0 : t = 0 <;> simp [h0]

theorem pending_toList_le (s : TrackerState) : s.pending.toList.length ≤ 1 := by
  cases s.pending <;> simp

theorem timeout_pending_le (t : Nat) (s : TrackerState) :
    (trackerStep s (TrackerEvent.timeout t)).pending.toList.length ≤ s.pending.toList.length := by
  unfold trackerStep
  by_cases h : t ∈ s.liveTimers
  · simp [h, trackerTimeout, closePendingPopups]
  · simp [h]

theorem captureInv_of_nav {k : Nat} {s s1 : PageState} (h : CaptureInv k s)
    (hs : (s1.downloads = s.downloads ∧ s1.tracker = s.tracker) ∨
      (∃ r c, s.tracker.pending.isSome = true ∧ s1.downloads = s.downloads ++ [r] ∧
        s1.tracker = { (downloadTracker.consume s.tracker).2 with closedWindows := c })) :
    CaptureInv k s1 := by
  obtain ⟨hi, hk⟩ := h
  rcases hs with ⟨hd, ht⟩ | ⟨r, c, hp, hd, ht⟩
  · exact ⟨by rw [ht]; exact hi, by rw [hd, ht]; exact hk⟩
  · have hc := consume_fields s.tracker
    have hi2 : TrackerInv (downloadTracker.consume s.tracker).2 :=
      trackerInv_step hi TrackerEvent.consume
    refine ⟨?_, ?_⟩
    · rw [ht]
      exact trackerInv_windows hi2 _ c _ (le_refl _)
    · rw [hd, ht]
      cases hpp : s.tracker.pending with
      | none => rw [hpp] at hp; simp at hp
      | some m =>
        rw [hpp] at hk
        simp only [hc.1, List.length_append, List.length_singleton, Option.toList_none,
          List.length_nil, Option.toList_some] at hk ⊢
        omega

theorem captureInv_step {k : Nat} {s : PageState} (h : CaptureInv k s) (e : PageEvent) :
    CaptureInv (k + armCount [e]) (pageStep s e) := by
  have hi := h.1
  have hk := h.2
  cases e with
  | arm m =>
    refine ⟨trackerInv_step hi (TrackerEvent.set m), ?_⟩
    have := pending_toList_le s.tracker
    simp only [pageStep, set_pending, armCount, List.filter, List.length_singleton,
      Option.toList_some]
    omega
  | windowOpen h0 url opens =>
    simp only [armCount, List.filter, List.length_nil, Nat.add_zero, pageStep]
    rcases hookedOpen_shape h0 url opens s with ⟨hd, p, n, hn, ht⟩ | ⟨r, hp, hd, ht⟩
    · refine ⟨?_, ?_⟩
      · rw [ht]; exact trackerInv_windows hi p _ n hn
      · rw [hd, ht]; exact hk
    · exact captureInv_of_nav h (Or.inr ⟨r, _, hp, hd, by rw [ht]⟩)
  | assign h0 loc url =>
    simp only [armCount, List.filter, List.length_nil, Nat.add_zero, pageStep, locationAssign]
    split
    · exact captureInv_of_nav h (hookedNavigation_shape _ _ _ _ _)
    · exact captureInv_of_nav h (Or.inl ⟨rfl, rfl⟩)
  | replace h0 loc url =>
    simp only [armCount, List.filter, List.length_nil, Nat.add_zero, pageStep, locationReplace]
    split
    · exact captureInv_of_nav h (hookedNavigation_shape _ _ _ _ _)
    · exact captureInv_of_nav h (Or.inl ⟨rfl, rfl⟩)
  | href h0 loc url =>
    simp only [armCount, List.filter, List.length_nil, Nat.add_zero, pageStep, locationHref]
    split
    · exact captureInv_of_nav h (hookedNavigation_shape _ _ _ _ _)
    · exact captureInv_of_nav h (Or.inl ⟨rfl, rfl⟩)
  | timeout t =>
    refine ⟨trackerInv_step hi (TrackerEvent.timeout t), ?_⟩
    have := timeout_pending_le t s.tracker
    simp only [armCount, List.filter, List.length_nil, Nat.add_zero, pageStep]
    omega
  | graceTimeout t =>
    simp only [armCount, List.filter, List.length_nil, Nat.add_zero, pageStep, graceTimeout]
    split
    · exact h
    · split
      · exact ⟨hi, hk⟩
      · exact ⟨trackerInv_windows hi _ _ _ (le_refl _), hk⟩
  | beforeUnload w =>
    simp only [armCount, List.filter, List.length_nil, Nat.add_zero, pageStep, popupUnload]
    exact ⟨trackerInv_windows hi _ _ _ (le_refl _), hk⟩
  | gmError j =>
    simp only [armCount, List.filter, List.length_nil, Nat.add_zero, pageStep, downloadFailed]
    split
    · exact captureInv_of_nav h (Or.inl ⟨(runFallback_tracker _ _).2, (runFallback_tracker _ _).1⟩)
    · exact h
  | gmTimeout j =>
    simp only [armCount, List.filter, List.length_nil, Nat.add_zero, pageStep, downloadFailed]
    split
    · exact captureInv_of_nav h (Or.inl ⟨(runFallback_tracker _ _).2, (runFallback_tracker _ _).1⟩)
    · exact h

theorem armCount_cons (e : PageEvent) (es : List PageEvent) :
    armCount (e :: es) = armCount [e] + armCount es := by
  unfold armCount
  (cases e <;> simp [List.filter]); omega

theorem captureInv_foldl (evs : List PageEvent) :
    ∀ k s, CaptureInv k s → CaptureInv (k + armCount evs) (evs.foldl pageStep s) := by
  induction evs with
  | nil => intro k s h; simpa [armCount] using h
  | cons e es ih =>
    intro k s h
    have := ih _ _ (captureInv_step h e)
    rw [armCount_cons, ← Nat.add_assoc]
    exact this

theorem captureInv_run (evs : List PageEvent) : CaptureInv (armCount evs) (pageRun evs) := by
  have h0 : CaptureInv 0 PageState.init := ⟨trackerInv_init, by simp [PageState.init]⟩
  simpa using captureInv_foldl evs 0 _ h0
/-- C23. With a record pending and `GM_download` taking the request, the hooked
`open` called with a non-blank string returns `null`, does not call the original
`open` and creates no window, asks for exactly one managed download with that
address, the name `buildDownloadName(pending, url)`, `saveAs` false and the
original `open` as fallback, and leaves the slot empty, with no live timer and
the hooks disabled. -/
theorem hookedOpen_redirects (h : Host) (m : Meta) (u : JsString) (opens : Bool) (s : PageState)
    (hp : s.tracker.pending = some m) (hu : trim u ≠ []) (hg : h.gm = GmMode.accepts) :
    (hookedOpen h (some u) opens s).1 = none ∧
    (hookedOpen h (some u) opens s).2.origCalls = s.origCalls ∧
    (hookedOpen h (some u) opens s).2.nextWin = s.nextWin ∧
    (hookedOpen h (some u) opens s).2.downloads = s.downloads ++
      [DownloadRequest.mk u (buildDownloadName h.cfg m u h.nowYear) false (Fallback.prevOpen (some u))] ∧
    downloadTracker.hasPending (hookedOpen h (some u) opens s).2.tracker = false ∧
    (hookedOpen h (some u) opens s).2.tracker.timer = none ∧
    (hookedOpen h (some u) opens s).2.tracker.hooksEnabled = false := by
  have hc := consume_fields s.tracker
  have hq := queueGmDownload_accepts h m u (Fallback.prevOpen (some u)) s hg
  have e : hookedOpen h (some u) opens s = (none, (queueGmDownload h m u (Fallback.prevOpen (some u)) s).2) := by
    simp only [hookedOpen, downloadTracker.peek, hp, nonBlankString, hu, if_false, hq]
  rw [e, hq]
  simp [downloadTracker.hasPending, hc.1, hc.2.1, hc.2.2.2.2]

theorem hookedOpen_redirects_witness :
    (pageRun [PageEvent.arm modalMeta]).tracker.pending = some modalMeta ∧ trim docUrl ≠ [] ∧
    (hookedOpen acceptingHost (some docUrl) true (pageRun [PageEvent.arm modalMeta])).1 = none ∧
    (hookedOpen acceptingHost (some docUrl) true (pageRun [PageEvent.arm modalMeta])).2.origCalls = [] ∧
    (hookedOpen acceptingHost (some docUrl) true (pageRun [PageEvent.arm modalMeta])).2.nextWin = 0 ∧
    (hookedOpen acceptingHost (some docUrl) true (pageRun [PageEvent.arm modalMeta])).2.downloads =
      [DownloadRequest.mk docUrl (js "2025-12-20_0000_Kauf_x_doc.pdf") false
        (Fallback.prevOpen (some docUrl))] ∧
    downloadTracker.hasPending
      (hookedOpen acceptingHost (some docUrl) true (pageRun [PageEvent.arm modalMeta])).2.tracker = false :=
  have h := hookedOpen_redirects acceptingHost modalMeta docUrl true (pageRun [PageEvent.arm modalMeta])
    (by decide) (by decide) rfl
  ⟨by decide, by decide, h.1, h.2.1, h.2.2.1, by decide, h.2.2.2.2.1⟩
theorem pageStep_downloads (s : PageState) (e : PageEvent) :
    (pageStep s e).downloads = s.downloads ∨
    (∃ r, (pageStep s e).downloads = s.downloads ++ [r] ∧ s.tracker.pending.isSome = true ∧
      (pageStep s e).tracker.pending = none) := by
  have hc := consume_fields s.tracker
  have nav : ∀ s1 : PageState,
      ((s1.downloads = s.downloads ∧ s1.tracker = s.tracker) ∨
        (∃ r c, s.tracker.pending.isSome = true ∧ s1.downloads = s.downloads ++ [r] ∧
          s1.tracker = { (downloadTracker.consume s.tracker).2 with closedWindows := c })) →
      (s1.downloads = s.downloads ∨
        (∃ r, s1.downloads = s.downloads ++ [r] ∧ s.tracker.pending.isSome = true ∧
          s1.tracker.pending = none)) := by
    intro s1 hs
    rcases hs with ⟨hd, -⟩ | ⟨r, c, hp, hd, ht⟩
    · exact Or.inl hd
    · exact Or.inr ⟨r, hd, hp, by rw [ht]; exact hc.1⟩
  cases e with
  | arm m => left; rfl
  | windowOpen h0 url opens =>
    rcases hookedOpen_shape h0 url opens s with ⟨hd, -⟩ | ⟨r, hp, hd, ht⟩
    · exact Or.inl hd
    · exact Or.inr ⟨r, hd, hp, by simp only [pageStep]; rw [ht]; exact hc.1⟩
  | assign h0 loc url =>
    simp only [pageStep, locationAssign]
    split
    · exact nav _ (hookedNavigation_shape _ _ _ _ _)
    · exact Or.inl rfl
  | replace h0 loc url =>
    simp only [pageStep, locationReplace]
    split
    · exact nav _ (hookedNavigation_shape _ _ _ _ _)
    · exact Or.inl rfl
  | href h0 loc url =>
    simp only [pageStep, locationHref]
    split
    · exact nav _ (hookedNavigation_shape _ _ _ _ _)
    · exact Or.inl rfl
  | timeout t => left; rfl
  | graceTimeout t =>
    left
    simp only [pageStep, graceTimeout]
    split
    · rfl
    · split <;> rfl
  | beforeUnload w => left; rfl
  | gmError j =>
    left
    simp only [pageStep, downloadFailed]
    split
    · exact (runFallback_tracker _ _).2
    · rfl
  | gmTimeout j =>
    left
    simp only [pageStep, downloadFailed]
    split
    · exact (runFallback_tracker _ _).2
    · rfl

theorem trackPopup_calls (w : Nat) (s : PageState) :
    (trackPopup w s).origCalls = s.origCalls ∧ (trackPopup w s).thrown = s.thrown := by
  unfold trackPopup downloadTracker.hasPending
  cases hp : s.tracker.pending <;> simp [hp]

theorem hookedNavigation_idle (h : Host) (loc : Nat) (url : UrlArg) (fb : Fallback) (s : PageState)
    (hc : s.tracker.pending = none ∨ loc ∉ s.trackedLocations ∨ nonBlankString url = none) :
    interceptLocationNavigation h loc url fb s = (false, s) ∧
    hookedNavigation h loc url fb s = runFallback fb s := by
  have e : interceptLocationNavigation h loc url fb s = (false, s) := by
    unfold interceptLocationNavigation downloadTracker.peek
    cases hp : s.tracker.pending with
    | none => rfl
    | some m =>
      by_cases hl : loc ∈ s.trackedLocations
      · rcases hc with h1 | h1 | h1
        · rw [hp] at h1; cases h1
        · exact absurd hl h1
        · simp only [hl, if_true, h1]
      · simp only [hl, if_false]
  exact ⟨e, by unfold hookedNavigation; rw [e]⟩

/-- C24. Over every sequence of arm, window-open, location assign / replace / href,
expiry, popup and download-callback events the managed downloads requested, plus
one while a record is pending, never exceed the number of arm calls. A step
that requests a download requests exactly one, happens only with a record pending
and leaves the slot empty; and with the slot empty the hooked open and the
location calls request nothing and call the original function with the same
argument. -/
theorem capture_once_per_arm (evs : List PageEvent) :
    (pageRun evs).downloads.length + (pageRun evs).tracker.pending.toList.length ≤ armCount evs ∧
    (∀ (s : PageState) (e : PageEvent), (pageStep s e).downloads = s.downloads ∨
      (∃ r, (pageStep s e).downloads = s.downloads ++ [r] ∧ s.tracker.pending.isSome = true ∧
        (pageStep s e).tracker.pending = none)) ∧
    (∀ (s : PageState) (h : Host) (loc : Nat) (url : UrlArg) (opens : Bool),
      s.tracker.pending = none →
      ((pageStep s (PageEvent.windowOpen h url opens)).downloads = s.downloads ∧
        (pageStep s (PageEvent.windowOpen h url opens)).origCalls
          = s.origCalls ++ [OrigCall.open url]) ∧
      pageStep s (PageEvent.assign h loc url)
        = { s with origCalls := s.origCalls ++ [OrigCall.assign loc url] } ∧
      pageStep s (PageEvent.replace h loc url)
        = { s with origCalls := s.origCalls ++ [OrigCall.replace loc url] } ∧
      pageStep s (PageEvent.href h loc url)
        = { s with origCalls := s.origCalls ++ [OrigCall.href loc url] }) := by
  refine ⟨(captureInv_run evs).2, pageStep_downloads, ?_⟩
  intro s h loc url opens hp
  refine ⟨?_, ?_, ?_, ?_⟩
  · have e : hookedOpen h url opens s = openOriginal url opens s := by
      simp only [hookedOpen, downloadTracker.peek, hp]
    simp only [pageStep, e]
    refine ⟨(openOriginal_shape url opens s).1, ?_⟩
    unfold openOriginal
    cases opens with
    | false => simp
    | true => simp only [if_true]; rw [(trackPopup_calls _ _).1]
  · simp only [pageStep, locationAssign]
    split
    next he =>
      rw [(hookedNavigation_idle h loc url _ s (Or.inl hp)).2]
      simp [runFallback, navigationHooks.origSaved, he]
    next => rfl
  · simp only [pageStep, locationReplace]
    split
    next he =>
      rw [(hookedNavigation_idle h loc url _ s (Or.inl hp)).2]
      simp [runFallback, navigationHooks.origSaved, he]
    next => rfl
  · simp only [pageStep, locationHref]
    split
    next he =>
      rw [(hookedNavigation_idle h loc url _ s (Or.inl hp)).2]
      simp [runFallback]
    next => rfl
/-- C25. Whenever no record is pending, or the location does not belong to a
tracked popup, or the argument is not a non-blank string,
`interceptLocationNavigation` returns false and leaves the whole state as it was
(no request, the slot unchanged), and a call of `assign`, `replace` or the `href`
setter performs the original navigation with the same argument and nothing else. -/
theorem interceptLocationNavigation_untracked (h : Host) (loc : Nat) (url : UrlArg)
    (fb : Fallback) (s : PageState)
    (hc : s.tracker.pending = none ∨ loc ∉ s.trackedLocations ∨ nonBlankString url = none) :
    interceptLocationNavigation h loc url fb s = (false, s) ∧
    locationAssign h loc url s = { s with origCalls := s.origCalls ++ [OrigCall.assign loc url] } ∧
    locationReplace h loc url s = { s with origCalls := s.origCalls ++ [OrigCall.replace loc url] } ∧
    locationHref h loc url s = { s with origCalls := s.origCalls ++ [OrigCall.href loc url] } := by
  refine ⟨(hookedNavigation_idle h loc url fb s hc).1, ?_, ?_, ?_⟩
  · unfold locationAssign
    split
    next he =>
      rw [(hookedNavigation_idle h loc url _ s hc).2]
      simp [runFallback, navigationHooks.origSaved, he]
    next => rfl
  · unfold locationReplace
    split
    next he =>
      rw [(hookedNavigation_idle h loc url _ s hc).2]
      simp [runFallback, navigationHooks.origSaved, he]
    next => rfl
  · unfold locationHref
    split
    next he =>
      rw [(hookedNavigation_idle h loc url _ s hc).2]
      simp [runFallback]
    next => rfl

theorem interceptLocationNavigation_untracked_witness :
    (pageRun [PageEvent.arm modalMeta, PageEvent.windowOpen acceptingHost none true]).trackedLocations
      = [0] ∧
    (pageRun [PageEvent.arm modalMeta, PageEvent.windowOpen acceptingHost none true]).tracker.hooksEnabled
      = true ∧
    interceptLocationNavigation acceptingHost 7 (some docUrl) (Fallback.origAssign 7 (some docUrl))
        (pageRun [PageEvent.arm modalMeta, PageEvent.windowOpen acceptingHost none true])
      = (false, pageRun [PageEvent.arm modalMeta, PageEvent.windowOpen acceptingHost none true]) ∧
    (locationAssign acceptingHost 7 (some docUrl)
        (pageRun [PageEvent.arm modalMeta, PageEvent.windowOpen acceptingHost none true])).origCalls
      = [OrigCall.open none, OrigCall.assign 7 (some docUrl)] :=
  have h := interceptLocationNavigation_untracked acceptingHost 7 (some docUrl)
    (Fallback.origAssign 7 (some docUrl))
    (pageRun [PageEvent.arm modalMeta, PageEvent.windowOpen acceptingHost none true])
    (Or.inr (Or.inl (by decide)))
  ⟨by decide, by decide, h.1, by rw [h.2.1]; decide⟩

/-- The capture of an `assign` on a tracked popup and the later failure of the
download, in general: the request is made and the hooks are disabled, after which
the fallback closure finds `state.origAssign` set to `null` and throws, and no
original navigation is performed; the same call through the `href` setter, whose
closure holds the descriptor itself, performs the original navigation. -/
theorem origAssign_fallback_throws (h : Host) (m : Meta) (loc : Nat) (u : JsString) (s : PageState)
    (hp : s.tracker.pending = some m) (he : s.tracker.hooksEnabled = true)
    (hl : loc ∈ s.trackedLocations) (hu : trim u ≠ []) (hg : h.gm = GmMode.accepts) :
    (locationAssign h loc (some u) s).downloads = s.downloads ++
      [DownloadRequest.mk u (buildDownloadName h.cfg m u h.nowYear) false
        (Fallback.origAssign loc (some u))] ∧
    (locationAssign h loc (some u) s).tracker.hooksEnabled = false ∧
    (locationAssign h loc (some u) s).origCalls = s.origCalls ∧
    downloadFailed s.downloads.length (locationAssign h loc (some u) s)
      = { locationAssign h loc (some u) s with
          thrown := s.thrown ++ [Fallback.origAssign loc (some u)] } ∧
    downloadFailed s.downloads.length (locationHref h loc (some u) s)
      = { locationHref h loc (some u) s with
          origCalls := s.origCalls ++ [OrigCall.href loc (some u)] } := by
  have hc := consume_fields s.tracker
  have e1 : locationAssign h loc (some u) s =
      { (queueGmDownload h m u (Fallback.origAssign loc (some u)) s).2 with
        trackedLocations := s.trackedLocations.filter (fun x => x != loc)
        tracker := { (downloadTracker.consume s.tracker).2 with
          closedWindows := (downloadTracker.consume s.tracker).2.closedWindows ++ [loc] } } := by
    simp only [locationAssign, he, if_true, hookedNavigation, interceptLocationNavigation,
      downloadTracker.peek, hp, hl, nonBlankString, hu, if_false,
      queueGmDownload_accepts h m u _ s hg]
  have e2 : locationHref h loc (some u) s =
      { (queueGmDownload h m u (Fallback.descSet loc (some u)) s).2 with
        trackedLocations := s.trackedLocations.filter (fun x => x != loc)
        tracker := { (downloadTracker.consume s.tracker).2 with
          closedWindows := (downloadTracker.consume s.tracker).2.closedWindows ++ [loc] } } := by
    simp only [locationHref, he, if_true, hookedNavigation, interceptLocationNavigation,
      downloadTracker.peek, hp, hl, nonBlankString, hu, if_false,
      queueGmDownload_accepts h m u _ s hg]
  rw [e1, e2, queueGmDownload_accepts h m u _ s hg, queueGmDownload_accepts h m u _ s hg]
  refine ⟨rfl, hc.2.2.2.2, rfl, ?_, ?_⟩
  · simp [downloadFailed, runFallback, navigationHooks.origSaved, hc.2.2.2.2]
  · simp [downloadFailed, runFallback]

/-- C26. The failing run: a record is armed, the page opens an empty popup
(window 0, tracked), the popup's `location.assign(url)` is captured as a managed
download, which consumes the slot and disables the hooks, and the download then
reports an error or a timeout. The fallback throws instead of calling the
original `assign`: the only original call on record is the `open` of the popup.
The same holds for `replace`; through the `href` setter the original navigation
is performed. -/
theorem assign_fallback_lost :
    (pageRun [PageEvent.arm modalMeta, PageEvent.windowOpen acceptingHost none true,
      PageEvent.assign acceptingHost 0 (some docUrl)]).downloads.map (fun r => r.fallback)
      = [Fallback.origAssign 0 (some docUrl)] ∧
    (pageRun [PageEvent.arm modalMeta, PageEvent.windowOpen acceptingHost none true,
      PageEvent.assign acceptingHost 0 (some docUrl)]).tracker.hooksEnabled = false ∧
    (pageRun [PageEvent.arm modalMeta, PageEvent.windowOpen acceptingHost none true,
      PageEvent.assign acceptingHost 0 (some docUrl), PageEvent.gmError 0]).origCalls
      = [OrigCall.open none] ∧
    (pageRun [PageEvent.arm modalMeta, PageEvent.windowOpen acceptingHost none true,
      PageEvent.assign acceptingHost 0 (some docUrl), PageEvent.gmError 0]).thrown
      = [Fallback.origAssign 0 (some docUrl)] ∧
    (pageRun [PageEvent.arm modalMeta, PageEvent.windowOpen acceptingHost none true,
      PageEvent.assign acceptingHost 0 (some docUrl), PageEvent.gmTimeout 0]).origCalls
      = [OrigCall.open none] ∧
    (pageRun [PageEvent.arm modalMeta, PageEvent.windowOpen acceptingHost none true,
      PageEvent.replace acceptingHost 0 (some docUrl), PageEvent.gmError 0]).origCalls
      = [OrigCall.open none] ∧
    (pageRun [PageEvent.arm modalMeta, PageEvent.windowOpen acceptingHost none true,
      PageEvent.replace acceptingHost 0 (some docUrl), PageEvent.gmError 0]).thrown
      = [Fallback.origReplace 0 (some docUrl)] ∧
    (pageRun [PageEvent.arm modalMeta, PageEvent.windowOpen acceptingHost none true,
      PageEvent.href acceptingHost 0 (some docUrl), PageEvent.gmError 0]).origCalls
      = [OrigCall.open none, OrigCall.href 0 (some docUrl)] ∧
    (pageRun [PageEvent.arm modalMeta, PageEvent.windowOpen acceptingHost (some docUrl) true,
      PageEvent.gmError 0]).origCalls
      = [OrigCall.open (some docUrl)] := by
  decide
theorem pageStep_live (s : PageState) (e : PageEvent) (ha : ∀ m, e ≠ PageEvent.arm m)
    (ht : ∀ t, e ≠ PageEvent.timeout t) (hd : (pageStep s e).downloads = s.downloads) :
    (pageStep s e).tracker.liveTimers = s.tracker.liveTimers ∧
    (pageStep s e).tracker.pending = s.tracker.pending := by
  have nav : ∀ s1 : PageState, s1.downloads = s.downloads →
      ((s1.downloads = s.downloads ∧ s1.tracker = s.tracker) ∨
        (∃ r c, s.tracker.pending.isSome = true ∧ s1.downloads = s.downloads ++ [r] ∧
          s1.tracker = { (downloadTracker.consume s.tracker).2 with closedWindows := c })) →
      s1.tracker.liveTimers = s.tracker.liveTimers ∧ s1.tracker.pending = s.tracker.pending := by
    intro s1 h1 hs
    rcases hs with ⟨-, ht⟩ | ⟨r, c, -, hd2, -⟩
    · rw [ht]; exact ⟨rfl, rfl⟩
    · rw [h1] at hd2; simp at hd2
  cases e with
  | arm m => exact absurd rfl (ha m)
  | timeout t => exact absurd rfl (ht t)
  | windowOpen h0 url opens =>
    rcases hookedOpen_shape h0 url opens s with ⟨-, p, n, -, h2⟩ | ⟨r, -, hd2, -⟩
    · simp only [pageStep]; rw [h2]; exact ⟨rfl, rfl⟩
    · simp only [pageStep] at hd; rw [hd] at hd2; simp at hd2
  | assign h0 loc url =>
    simp only [pageStep, locationAssign] at hd ⊢
    split
    next he => rw [if_pos he] at hd; exact nav _ hd (hookedNavigation_shape _ _ _ _ _)
    next => exact ⟨rfl, rfl⟩
  | replace h0 loc url =>
    simp only [pageStep, locationReplace] at hd ⊢
    split
    next he => rw [if_pos he] at hd; exact nav _ hd (hookedNavigation_shape _ _ _ _ _)
    next => exact ⟨rfl, rfl⟩
  | href h0 loc url =>
    simp only [pageStep, locationHref] at hd ⊢
    split
    next he => rw [if_pos he] at hd; exact nav _ hd (hookedNavigation_shape _ _ _ _ _)
    next => exact ⟨rfl, rfl⟩
  | graceTimeout t =>
    simp only [pageStep, graceTimeout]
    split
    · exact ⟨rfl, rfl⟩
    · split <;> exact ⟨rfl, rfl⟩
  | beforeUnload w => exact ⟨rfl, rfl⟩
  | gmError j =>
    simp only [pageStep, downloadFailed]
    split
    · rw [(runFallback_tracker _ _).1]; exact ⟨rfl, rfl⟩
    · exact ⟨rfl, rfl⟩
  | gmTimeout j =>
    simp only [pageStep, downloadFailed]
    split
    · rw [(runFallback_tracker _ _).1]; exact ⟨rfl, rfl⟩
    · exact ⟨rfl, rfl⟩

/-- C27. In every state the interceptor can reach, a `set` leaves exactly its own
timeout live, which stays live through every later step that is neither a `set`
nor an expiry and requests no download; and the expiry of a live timeout leaves
the slot empty and no timeout live, closes every window of `pendingPopups` and
empties the set, and disables the location hooks. The same holds after
`consume()`. -/
theorem tracker_expiry_closes (evs : List PageEvent) (t : Nat)
    (ht : t ∈ (pageRun evs).tracker.liveTimers) :
    (pageRun evs).tracker.lastStarted = some t ∧
    (∀ e, (∀ m, e ≠ PageEvent.arm m) → (∀ t1, e ≠ PageEvent.timeout t1) →
      (pageStep (pageRun evs) e).downloads = (pageRun evs).downloads →
      t ∈ (pageStep (pageRun evs) e).tracker.liveTimers) ∧
    (∀ m, (pageStep (pageRun evs) (PageEvent.arm m)).tracker.liveTimers
      = [(pageRun evs).tracker.nextTimerId]) ∧
    ((pageStep (pageRun evs) (PageEvent.timeout t)).tracker.pending = none ∧
      (pageStep (pageRun evs) (PageEvent.timeout t)).tracker.timer = none ∧
      (pageStep (pageRun evs) (PageEvent.timeout t)).tracker.liveTimers = [] ∧
      (pageStep (pageRun evs) (PageEvent.timeout t)).tracker.pendingPopups = [] ∧
      (pageStep (pageRun evs) (PageEvent.timeout t)).tracker.closedWindows
        = (pageRun evs).tracker.closedWindows ++ (pageRun evs).tracker.pendingPopups ∧
      (pageStep (pageRun evs) (PageEvent.timeout t)).tracker.hooksEnabled = false) ∧
    ((downloadTracker.consume (pageRun evs).tracker).2.pending = none ∧
      (downloadTracker.consume (pageRun evs).tracker).2.timer = none ∧
      (downloadTracker.consume (pageRun evs).tracker).2.liveTimers = [] ∧
      (downloadTracker.consume (pageRun evs).tracker).2.pendingPopups = [] ∧
      (downloadTracker.consume (pageRun evs).tracker).2.closedWindows
        = (pageRun evs).tracker.closedWindows ++ (pageRun evs).tracker.pendingPopups ∧
      (downloadTracker.consume (pageRun evs).tracker).2.hooksEnabled = false) := by
  have hi : TrackerInv (pageRun evs).tracker := (captureInv_run evs).1
  have hc := consume_fields (pageRun evs).tracker
  have hci : TrackerInv (downloadTracker.consume (pageRun evs).tracker).2 :=
    trackerInv_step hi TrackerEvent.consume
  have h1 := hi.1
  have htm : (pageRun evs).tracker.timer = some t := by
    cases hti : (pageRun evs).tracker.timer with
    | none => rw [h1, hti] at ht; simp at ht
    | some t0 =>
      rw [h1, hti] at ht
      simp only [Option.toList_some, List.mem_singleton] at ht
      rw [ht]
  refine ⟨(hi.2.1 t htm).2, ?_, ?_, ?_, ?_⟩
  · intro e ha hto hd
    rw [(pageStep_live _ e ha hto hd).1]
    exact ht
  · intro m
    have hcl := clearTimerIfSet_live (s := { (pageRun evs).tracker with pending := some m }) hi
    simp [pageStep, downloadTracker.set, hcl.1, hcl.2]
  · simp [pageStep, trackerStep, ht, trackerTimeout, closePendingPopups, h1, htm]
  · refine ⟨hc.1, hc.2.1, ?_, hc.2.2.1, hc.2.2.2.1, hc.2.2.2.2⟩
    rw [hci.1, hc.2.1]
    rfl

theorem tracker_expiry_closes_witness :
    (1 ∈ (pageRun [PageEvent.arm modalMeta,
        PageEvent.windowOpen acceptingHost none true]).tracker.liveTimers) ∧
    (pageRun [PageEvent.arm modalMeta,
        PageEvent.windowOpen acceptingHost none true]).tracker.pendingPopups = [0] ∧
    (pageRun [PageEvent.arm modalMeta, PageEvent.windowOpen acceptingHost none true,
        PageEvent.timeout 1]).tracker.pending = none ∧
    (pageRun [PageEvent.arm modalMeta, PageEvent.windowOpen acceptingHost none true,
        PageEvent.timeout 1]).tracker.liveTimers = [] ∧
    (pageRun [PageEvent.arm modalMeta, PageEvent.windowOpen acceptingHost none true,
        PageEvent.timeout 1]).tracker.pendingPopups = [] ∧
    (pageRun [PageEvent.arm modalMeta, PageEvent.windowOpen acceptingHost none true,
        PageEvent.timeout 1]).tracker.closedWindows = [0] ∧
    (pageRun [PageEvent.arm modalMeta, PageEvent.windowOpen acceptingHost none true,
        PageEvent.timeout 1]).tracker.hooksEnabled = false :=
  have h := tracker_expiry_closes
    [PageEvent.arm modalMeta, PageEvent.windowOpen acceptingHost none true] 1 (by decide)
  ⟨by decide, by decide, h.2.2.2.1.1, h.2.2.2.1.2.2.1, h.2.2.2.1.2.2.2.1, h.2.2.2.1.2.2.2.2.1,
    h.2.2.2.1.2.2.2.2.2⟩

end TRBatch
